import Mathlib

/-! Branching-network simulators `BN_STS.cpp` and `BNcc_driven.cpp`:
a shallow embedding of the two `main` functions (command line, correction table, main loop,
output text).

Conventions of the embedding
* The Mersenne twister is replaced by the values it hands out: `Rng.uni` lists the successive
  results of `uni_01(mt)` and `Rng.bin` the successive results of the binomial sampler
  (`binom(mt)` resp. `binom[num_active](mt)`).  A draw from an empty list ends the run with
  `Fault.drawsExhausted`: the finite list is a prefix of the infinite stream, and a loop that
  needs more draws than the prefix holds has not finished on that prefix.
* `double` values are rationals (`ℚ`).  A uniform draw is the double `uni_01(mt)` hands out;
  the product `uni_01(mt)*neuron.size()` is rounded to the nearest double (ties to even)
  before it is cut to an integer, as the hardware does.  The other `double` computations of
  the main loops (`time>T`, `uni_01(mt) < lambda(h)`, the avalanche accumulators) involve no
  rounding for the values at hand and are exact.
* `std::vector<int>` is a `List Nat`; reading or writing outside the vector is undefined in
  C++ and ends the run with `Fault.outOfBounds`.
* `int` counters (`num_active`, `stimulus_int[n]`, `k_n`, `j`) never exceed the population
  size and are natural numbers; the `unsigned` counters `time` and `num_avalanches`, which
  only ever grow, wrap modulo `2^32`; the `double` accumulators `avalanche_time` and
  `avalanche_size` only ever hold natural numbers and are natural numbers.
* The records of a run are kept as pairs of values (`out`); the text written for them is
  `seriesText` (integers, written digit by digit) resp. `avalancheText` (doubles, written by
  `operator<<` at its default precision 6, see `formatDouble`).
-/

namespace BN

/-- Reasons for which the model of a loop stops without having finished. -/
inductive Fault where
  | outOfBounds
  | drawsExhausted
deriving DecidableEq, Repr

deriving instance DecidableEq for Except

/-- The values handed out by the random generator, in the order of the calls. -/
structure Rng where
  uni : List ℚ
  bin : List Nat
deriving DecidableEq

/-- The integer nearest to a non-negative rational, ties going to the even one. -/
def roundHalfEven (x : ℚ) : ℤ :=
  if 2 * (x - ⌊x⌋) < 1 then ⌊x⌋
  else if 2 * (x - ⌊x⌋) > 1 then ⌊x⌋ + 1
  else if ⌊x⌋ % 2 = 0 then ⌊x⌋ else ⌊x⌋ + 1

/-- The result of a double-precision operation whose exact value is `q >= 0`: the nearest
number with 53 significant bits, ties to even (`Int.log 2 q` is the binary exponent of `q`;
the exponent range is not bounded, the values met here are far from its ends). -/
def roundDouble (q : ℚ) : ℚ :=
  if q ≤ 0 then 0
  else (roundHalfEven (q / (2 : ℚ) ^ (Int.log 2 q - 52)) : ℚ) * (2 : ℚ) ^ (Int.log 2 q - 52)

/-- The double that `uni_01(mt)` hands out for the draw `u`: `u` itself when `u` is a double.
A rational that is not a double is read as the nearest double; for a draw below 1 that is the
largest double below 1 at most, since the distribution hands out no 1. -/
def unitDouble (u : ℚ) : ℚ :=
  if u < 1 then min (roundDouble u) (1 - 1 / 2 ^ 53) else roundDouble u

/-- The target index `int nn = uni_01(mt)*neuron.size();` for the draw `u`: the double
product, cut to its integer part. -/
def targetIndex (u : ℚ) (size : Nat) : Nat := ⌊roundDouble (unitDouble u * (size : ℚ))⌋₊

/-- The rejection loop `int j=0; while(j<k_n){...}` of both programs
(`BN_STS.cpp` 114-123, `BNcc_driven.cpp` 101-110), started in an arbitrary loop state
`(j, nconnect, stimulus_int)`.  It returns the final `nconnect`, the final `stimulus_int`
and the uniform draws that are left. -/
def sampleLoop (size k_n : Nat) :
    List ℚ → Nat → List Nat → List Nat → Except Fault (List Nat × List Nat × List ℚ)
  | [], j, nconnect, stimulus_int =>
    if j < k_n then .error .drawsExhausted else .ok (nconnect, stimulus_int, [])
  | u :: us, j, nconnect, stimulus_int =>
    if j < k_n then
      if targetIndex u size ∈ nconnect then
        sampleLoop size k_n us j nconnect stimulus_int
      else if targetIndex u size < stimulus_int.length then
        sampleLoop size k_n us (j + 1) (nconnect ++ [targetIndex u size])
          (stimulus_int.set (targetIndex u size)
            (stimulus_int.getD (targetIndex u size) 0 + 1))
      else .error .outOfBounds
    else .ok (nconnect, stimulus_int, u :: us)

/-! ## Self-sustained program `BN_STS.cpp` -/

/-- The stimulation loop `for(n=0;n<neuron.size();n++){ if(neuron[n]>0){...} }`
(`BN_STS.cpp` 109-125).  The first list is the part of `neuron` that is still to be visited;
`neuron` is not written in this loop. -/
def propagateSTS (size : Nat) : List Nat → List Nat → Rng → Except Fault (List Nat × Rng)
  | [], stimulus_int, g => .ok (stimulus_int, g)
  | x :: xs, stimulus_int, g =>
    if x > 0 then
      match g.bin with
      | [] => .error .drawsExhausted
      | k_n :: bin =>
        match sampleLoop size k_n g.uni 0 [] stimulus_int with
        | .error e => .error e
        | .ok (_, stimulus_int1, uni) => propagateSTS size xs stimulus_int1 ⟨uni, bin⟩
    else propagateSTS size xs stimulus_int g

/-- The integration loop (`BN_STS.cpp` 128-140), which at index `n` only touches `neuron[n]`
and `stimulus_int[n]`.  The two lists are the parts of `neuron` and `stimulus_int` still to be
visited, the two numbers are `num_active` and `num_active_int` so far.  Result: the new
`neuron`, the new `stimulus_int`, `num_active`, `num_active_int`. -/
def integrateSTS : List Nat → List Nat → Nat → Nat → List Nat × List Nat × Nat × Nat
  | x :: xs, s :: ss, num_active, num_active_int =>
    if s > 0 then
      let r := integrateSTS xs ss (num_active + 1)
        (if s > 0 then num_active_int + 1 else num_active_int)
      (1 :: r.1, 0 :: r.2.1, r.2.2.1, r.2.2.2)
    else
      let r := integrateSTS xs ss num_active num_active_int
      ((if x = 1 then 0 else x) :: r.1, s :: r.2.1, r.2.2.1, r.2.2.2)
  | _, _, num_active, num_active_int => ([], [], num_active, num_active_int)

/-- The command-line values the main loop of `BN_STS.cpp` reads: `-A` and `-T`. -/
structure STSConfig where
  avalanches : Nat
  T : ℚ
deriving DecidableEq

/-- The mode flag: `bool flag_avalanches = false; if(avalanches>0) flag_avalanches=true;` -/
def STSConfig.flag_avalanches (cfg : STSConfig) : Bool := decide (cfg.avalanches > 0)

/-- The variables of `BN_STS.cpp` that live across iterations of `while(true)`, the generator
and, in `out`, the pairs of values streamed into `data` so far: `(avalanche_time-1,
avalanche_size)` in avalanche mode, `(num_active, num_active_int)` in time-series mode.  The
characters that reach the file are those of `avalancheRecord` resp. `seriesRecord` for each
pair: the avalanche values are doubles and are written with six significant digits. -/
structure STSState where
  neuron : List Nat
  stimulus_int : List Nat
  num_active : Nat
  num_active_int : Nat
  time : Nat
  num_avalanches : Nat
  avalanche_time : Nat
  avalanche_size : Nat
  rng : Rng
  out : List (Nat × Nat)
deriving DecidableEq

/-- The state before the first iteration (`BN_STS.cpp` 47-48, 92-95). -/
def stsInit (N : Nat) (g : Rng) : STSState :=
  { neuron := List.replicate N 0, stimulus_int := List.replicate N 0,
    num_active := 0, num_active_int := 0, time := 0, num_avalanches := 0,
    avalanche_time := 0, avalanche_size := 0, rng := g, out := [] }

/-- Lines 99-141 of `BN_STS.cpp`: seeding when `num_active == 0`, else stimulation and
integration. -/
def stsUpdate (s : STSState) : Except Fault STSState :=
  if s.num_active = 0 then
    match s.rng.uni with
    | [] => .error .drawsExhausted
    | u :: uni =>
      if targetIndex u s.neuron.length < s.neuron.length then
        .ok { s with neuron := s.neuron.set (targetIndex u s.neuron.length) 1,
                     num_active := 1, num_active_int := 0,
                     avalanche_time := 0, avalanche_size := 0,
                     rng := ⟨uni, s.rng.bin⟩ }
      else .error .outOfBounds
  else
    match propagateSTS s.neuron.length s.neuron s.stimulus_int s.rng with
    | .error e => .error e
    | .ok (stimulus_int, g) =>
      .ok { s with neuron := (integrateSTS s.neuron stimulus_int 0 0).1,
                   stimulus_int := (integrateSTS s.neuron stimulus_int 0 0).2.1,
                   num_active := (integrateSTS s.neuron stimulus_int 0 0).2.2.1,
                   num_active_int := (integrateSTS s.neuron stimulus_int 0 0).2.2.2,
                   rng := g }

/-- Lines 142-162 of `BN_STS.cpp` on the state `s` left by `stsUpdate`: the counters are
advanced, the pair of values of a record is streamed (`out` keeps the values, `avalancheText`
and `seriesText` give the characters written for them), and the Boolean tells whether `break`
is taken. -/
def stsEmit (cfg : STSConfig) (s : STSState) : STSState × Bool :=
  let time := (s.time + 1) % 2 ^ 32
  let avalanche_time := s.avalanche_time + 1
  let avalanche_size := s.avalanche_size + s.num_active
  if cfg.flag_avalanches then
    if avalanche_size > 0 ∧ s.num_active = 0 then
      ({ s with time := time, avalanche_time := avalanche_time,
                avalanche_size := avalanche_size,
                out := s.out ++ [(avalanche_time - 1, avalanche_size)],
                num_avalanches := (s.num_avalanches + 1) % 2 ^ 32 },
       decide (((s.num_avalanches + 1) % 2 ^ 32 + 1) % 2 ^ 32 > cfg.avalanches))
    else
      ({ s with time := time, avalanche_time := avalanche_time,
                avalanche_size := avalanche_size },
       decide ((s.num_avalanches + 1) % 2 ^ 32 > cfg.avalanches))
  else
    ({ s with time := time, avalanche_time := avalanche_time,
              avalanche_size := avalanche_size,
              out := s.out ++ [(s.num_active, s.num_active_int)] },
     decide ((((time + 1) % 2 ^ 32 : Nat) : ℚ) > cfg.T))

/-- One iteration of `while(true)` in `BN_STS.cpp`. -/
def stsStep (cfg : STSConfig) (s : STSState) : Except Fault (STSState × Bool) :=
  match stsUpdate s with
  | .error e => .error e
  | .ok s1 => .ok (stsEmit cfg s1)

/-- How the model of a main loop ended. -/
inductive Outcome where
  | stopped
  | outOfFuel
  | failed (e : Fault)
deriving DecidableEq, Repr

/-- The loop `while(true){...}` of `BN_STS.cpp`, run for at most `fuel` iterations from the
state `s`.  The list holds, for every iteration performed, the state before and the state
after it; `Outcome.stopped` says that the last of them took the `break`. -/
def stsRun (cfg : STSConfig) : Nat → STSState → List (STSState × STSState) × Outcome
  | 0, _ => ([], .outOfFuel)
  | fuel + 1, s =>
    match stsStep cfg s with
    | .error e => ([], .failed e)
    | .ok (s1, true) => ([(s, s1)], .stopped)
    | .ok (s1, false) => ((s, s1) :: (stsRun cfg fuel s1).1, (stsRun cfg fuel s1).2)

/-! ## Driven program `BNcc_driven.cpp` -/

/-- The stimulation loop of `BNcc_driven.cpp` (95-116): an active unit draws its out-degree
from `binom[num_active]` (a table of `size+1` samplers) and its targets; every unit then
gets the external flag when `uni_01(mt) < lambda(h)`, `lam` being the value of `lambda(h)`.
The first list is the part of `neuron` still to be visited, `n` the index of its head. -/
def propagateDriven (size num_active : Nat) (lam : ℚ) :
    List Nat → Nat → List Nat → List Nat → Rng → Except Fault (List Nat × List Nat × Rng)
  | [], _, stimulus_int, stimulus_ext, g => .ok (stimulus_int, stimulus_ext, g)
  | x :: xs, n, stimulus_int, stimulus_ext, g =>
    let fired : Except Fault (List Nat × Rng) :=
      if x > 0 then
        if num_active < size + 1 then
          match g.bin with
          | [] => .error .drawsExhausted
          | k_n :: bin =>
            match sampleLoop size k_n g.uni 0 [] stimulus_int with
            | .error e => .error e
            | .ok (_, stimulus_int1, uni) => .ok (stimulus_int1, ⟨uni, bin⟩)
        else .error .outOfBounds
      else .ok (stimulus_int, g)
    match fired with
    | .error e => .error e
    | .ok (stimulus_int1, g1) =>
      match g1.uni with
      | [] => .error .drawsExhausted
      | u :: uni =>
        if u < lam then
          if n < stimulus_ext.length then
            propagateDriven size num_active lam xs (n + 1) stimulus_int1
              (stimulus_ext.set n 1) ⟨uni, g1.bin⟩
          else .error .outOfBounds
        else
          propagateDriven size num_active lam xs (n + 1) stimulus_int1 stimulus_ext
            ⟨uni, g1.bin⟩

/-- The integration loop of `BNcc_driven.cpp` (119-132).  Arguments: the parts of `neuron`,
`stimulus_int`, `stimulus_ext` still to be visited, `num_active` and `num_active_int` so far.
Result: the new `neuron`, `stimulus_int`, `stimulus_ext`, `num_active`, `num_active_int`. -/
def integrateDriven :
    List Nat → List Nat → List Nat → Nat → Nat → List Nat × List Nat × List Nat × Nat × Nat
  | x :: xs, s :: ss, e :: es, num_active, num_active_int =>
    if s > 0 ∨ e > 0 then
      let r := integrateDriven xs ss es (num_active + 1)
        (if s > 0 ∧ e = 0 then num_active_int + 1 else num_active_int)
      (1 :: r.1, 0 :: r.2.1, 0 :: r.2.2.1, r.2.2.2.1, r.2.2.2.2)
    else
      let r := integrateDriven xs ss es num_active num_active_int
      ((if x = 1 then 0 else x) :: r.1, s :: r.2.1, e :: r.2.2.1, r.2.2.2.1, r.2.2.2.2)
  | _, _, _, num_active, num_active_int => ([], [], [], num_active, num_active_int)

/-- The variables of `BNcc_driven.cpp` that live across iterations, the generator and the
records `(num_active, num_active_int)` handed to the sink so far. -/
structure DrivenState where
  neuron : List Nat
  stimulus_int : List Nat
  stimulus_ext : List Nat
  num_active : Nat
  num_active_int : Nat
  time : Nat
  rng : Rng
  out : List (Nat × Nat)
deriving DecidableEq

/-- The state before the first iteration (`BNcc_driven.cpp` 44-46, 88-91). -/
def drivenInit (N : Nat) (g : Rng) : DrivenState :=
  { neuron := List.replicate N 0, stimulus_int := List.replicate N 0,
    stimulus_ext := List.replicate N 0, num_active := 0, num_active_int := 0,
    time := 0, rng := g, out := [] }

/-- One iteration of `while(true)` in `BNcc_driven.cpp` (95-138) for the horizon `T` and the
value `lam` of `lambda(h)`; the Boolean tells whether `break` is taken. -/
def drivenStep (T lam : ℚ) (s : DrivenState) : Except Fault (DrivenState × Bool) :=
  match propagateDriven s.neuron.length s.num_active lam s.neuron 0
      s.stimulus_int s.stimulus_ext s.rng with
  | .error e => .error e
  | .ok (stimulus_int, stimulus_ext, g) =>
    .ok ({ neuron := (integrateDriven s.neuron stimulus_int stimulus_ext 0 0).1,
           stimulus_int := (integrateDriven s.neuron stimulus_int stimulus_ext 0 0).2.1,
           stimulus_ext := (integrateDriven s.neuron stimulus_int stimulus_ext 0 0).2.2.1,
           num_active := (integrateDriven s.neuron stimulus_int stimulus_ext 0 0).2.2.2.1,
           num_active_int := (integrateDriven s.neuron stimulus_int stimulus_ext 0 0).2.2.2.2,
           time := (s.time + 1) % 2 ^ 32,
           rng := g,
           out := s.out ++ [((integrateDriven s.neuron stimulus_int stimulus_ext 0 0).2.2.2.1,
                             (integrateDriven s.neuron stimulus_int stimulus_ext 0 0).2.2.2.2)] },
         decide ((((s.time + 1) % 2 ^ 32 : Nat) : ℚ) > T))

/-- The loop `while(true){...}` of `BNcc_driven.cpp`, run for at most `fuel` iterations from
the state `s`; the result is read as for `stsRun`. -/
def drivenRun (T lam : ℚ) : Nat → DrivenState → List (DrivenState × DrivenState) × Outcome
  | 0, _ => ([], .outOfFuel)
  | fuel + 1, s =>
    match drivenStep T lam s with
    | .error e => ([], .failed e)
    | .ok (s1, true) => ([(s, s1)], .stopped)
    | .ok (s1, false) => ((s, s1) :: (drivenRun T lam fuel s1).1, (drivenRun T lam fuel s1).2)


/-- The facts about a state of `BN_STS.cpp` at the head of `while(true)` that every iteration
keeps: the two vectors have `N` entries, the stimulus counters are all 0, the flags are 0 or
1, and the two observables count the flags. -/
def STSInv (N : Nat) (s : STSState) : Prop :=
  s.neuron.length = N ∧ s.stimulus_int = List.replicate N 0 ∧ (∀ x ∈ s.neuron, x ≤ 1) ∧
  s.num_active = s.neuron.count 1 ∧ s.num_active_int ≤ s.num_active ∧ s.num_active ≤ N

/-- The facts about a state of `BNcc_driven.cpp` at the head of `while(true)` that every
iteration keeps. -/
def DrivenInv (N : Nat) (s : DrivenState) : Prop :=
  s.neuron.length = N ∧ s.stimulus_int = List.replicate N 0 ∧
  s.stimulus_ext = List.replicate N 0 ∧ (∀ x ∈ s.neuron, x ≤ 1) ∧
  s.num_active = s.neuron.count 1 ∧ s.num_active_int ≤ s.num_active ∧ s.num_active ≤ N

/-- The records handed to the sink by the iterations listed in `steps` (those of the state
after the last one); no iteration, no record. -/
def finalOut {σ : Type} (out : σ → List (Nat × Nat)) (steps : List (σ × σ)) : List (Nat × Nat) :=
  match steps.getLast? with
  | some p => out p.2
  | none => []

/-- The avalanche records as the specification words them, computed from the per-step pairs
(`num_active` at the start of the step, `num_active` after the step); `cur` lists the values
of `num_active` after the steps of the avalanche in progress.  An avalanche starts with a
seeding step (one that starts with `num_active == 0`) and ends with the first step after
which `num_active` is 0 again; its record is (number of its steps minus one, sum of
`num_active` over its steps). -/
def avalancheRecordsSpec : List (Nat × Nat) → List Nat → List (Nat × Nat)
  | [], _ => []
  | (before, after) :: rest, cur =>
    if after = 0 then
      ((if before = 0 then [after] else cur ++ [after]).length - 1,
        (if before = 0 then [after] else cur ++ [after]).sum) ::
        avalancheRecordsSpec rest (if before = 0 then [after] else cur ++ [after])
    else avalancheRecordsSpec rest (if before = 0 then [after] else cur ++ [after])

/-- Worked example, `BN_STS` with `N = 2`: the draws of a seeding step (unit 0) followed by a
propagation step in which unit 0 draws out-degree 1 and target 1. -/
def exampleRng : Rng := ⟨[0, 1/2], [1]⟩

/-- Worked example: the state after the seeding step. -/
def exampleSeeded : STSState :=
  { neuron := [1, 0], stimulus_int := [0, 0], num_active := 1, num_active_int := 0,
    time := 1, num_avalanches := 0, avalanche_time := 1, avalanche_size := 1,
    rng := ⟨[1/2], [1]⟩, out := [(1, 0)] }

/-- Worked example: the state after the propagation step. -/
def examplePropagated : STSState :=
  { neuron := [0, 1], stimulus_int := [0, 0], num_active := 1, num_active_int := 1,
    time := 2, num_avalanches := 0, avalanche_time := 2, avalanche_size := 2,
    rng := ⟨[], []⟩, out := [(1, 0), (1, 1)] }

/-- The function `double lambda(double h){ double dt=1; return 1.0-exp(-h*dt); }` over the
reals. -/
noncomputable def lambda (h : ℝ) : ℝ := 1 - Real.exp (-h * 1)

/-! ## The text handed to the sink -/

/-- The header `line` of a time-series file (`BN_STS.cpp` 86-88, `BNcc_driven.cpp` 83-85). -/
def seriesHeader : String :=
  "#N_a = number of active sites at time step t\n" ++
  "#N_int = number of internally activated sites at time step t+1 (excluding external drive)\n" ++
  "# N_a\t N_int"

/-- The header `line` of an avalanche file (`BN_STS.cpp` 83). -/
def avalancheHeader : String := "# size avalanche\n"

/-- The line `data << num_active << " " << num_active_int << std::endl;` of one record. -/
def seriesRecord (r : Nat × Nat) : String := toString r.1 ++ " " ++ toString r.2 ++ "\n"

/-- All the text passed to `gzprintf` by a time-series run that produced `records`: the
header, then one call per record. -/
def seriesText (records : List (Nat × Nat)) : String :=
  seriesHeader ++ String.join (records.map seriesRecord)

/-- The six-digit decimal mantissa and the decimal exponent of the integer value `v >= 10^6`
rounded to six significant digits, ties going to the even mantissa (`1234567` gives
`(123457, 6)`, `9999995` gives `(100000, 7)`). -/
def sixDigits (v : Nat) : Nat × Nat :=
  let e := (Nat.toDigits 10 v).length - 1
  let q := v / 10 ^ (e - 5)
  let r := v % 10 ^ (e - 5)
  let m := if 2 * r < 10 ^ (e - 5) then q
           else if 2 * r > 10 ^ (e - 5) then q + 1
           else if q % 2 = 0 then q else q + 1
  if m = 10 ^ 6 then (10 ^ 5, e + 1) else (m, e)

/-- The characters `operator<<(double)` writes on a stream in its default state (float field
unset, precision 6, the conversion `%g`) for a double whose value is the integer `v`
(`v < 2^53`): the decimal digits of `v` below `10^6`; from `10^6` on the six-digit mantissa
with its trailing zeros (and then the point) dropped, `e+` and the exponent in at least two
digits. -/
def formatDouble (v : Nat) : String :=
  if v < 10 ^ 6 then toString v
  else
    String.mk ((Nat.toDigits 10 (sixDigits v).1).head?.toList ++
      (if ((Nat.toDigits 10 (sixDigits v).1).tail.reverse.dropWhile (fun c => c == '0')) = []
       then []
       else '.' ::
         ((Nat.toDigits 10 (sixDigits v).1).tail.reverse.dropWhile
           (fun c => c == '0')).reverse)) ++
      "e+" ++ (if (sixDigits v).2 < 10 then "0" else "") ++ toString (sixDigits v).2

/-- The line `data << avalanche_time-1 << " " << avalanche_size << std::endl;` of one
avalanche record (`BN_STS.cpp` 149-151): both values are doubles and the stream `data` is in
its default state. -/
def avalancheRecord (r : Nat × Nat) : String :=
  formatDouble r.1 ++ " " ++ formatDouble r.2 ++ "\n"

/-- All the text passed to `gzprintf` by an avalanche run whose records hold the values
`records`: the header, then one call per record. -/
def avalancheText (records : List (Nat × Nat)) : String :=
  avalancheHeader ++ String.join (records.map avalancheRecord)

/-- Cut a text at its newlines; `cur` is the line read so far. -/
def splitLines : List Char → List Char → List (List Char)
  | [], cur => if cur = [] then [] else [cur]
  | c :: cs, cur => if c = '\n' then cur :: splitLines cs [] else splitLines cs (cur ++ [c])

/-- The lines of a text that do not begin with `#`. -/
def dataLines (text : String) : List String :=
  ((splitLines text.data []).filter (fun l => l.head? != some '#')).map String.mk

/-- What the output layout promises for the records of a time-series run: one line per
record, `num_active`, a blank, `num_active_int`. -/
def expectedLines (records : List (Nat × Nat)) : List String :=
  records.map (fun r => toString r.1 ++ " " ++ toString r.2)

/-- The text handed to the sink by `BNcc_driven` for horizon `T`, `lambda(h) = lam`, population
size `N` and generator `g`, after at most `fuel` iterations. -/
def drivenText (T lam : ℚ) (fuel N : Nat) (g : Rng) : String :=
  seriesText (finalOut DrivenState.out (drivenRun T lam fuel (drivenInit N g)).1)

/-- The text handed to the sink by `BN_STS` in time-series mode (no `-A`) for horizon `T`. -/
def stsSeriesText (T : ℚ) (fuel N : Nat) (g : Rng) : String :=
  seriesText (finalOut STSState.out (stsRun ⟨0, T⟩ fuel (stsInit N g)).1)

/-- The text handed to the sink by `BN_STS` in avalanche mode (`-A avalanches`, at least 1). -/
def stsAvalancheText (avalanches : Nat) (fuel N : Nat) (g : Rng) : String :=
  avalancheText (finalOut STSState.out (stsRun ⟨avalanches, 0⟩ fuel (stsInit N g)).1)

/-- Draws that keep the single unit of a population of one active for `L` steps after its
seeding: every uniform draw is 0, the out-degree drawn is 1 for `L` steps and then 0. -/
def sustainedRng (L : Nat) : Rng := ⟨List.replicate (L + 1) 0, List.replicate L 1 ++ [0]⟩

/-- Worked example, `BNcc_driven` with `N = 1`, `T = 1`, `lambda(h) = 1/2`: the draws of a first
iteration that sets the external flag of unit 0 and of a second one in which unit 0 draws
out-degree 0 and gets no flag. -/
def exampleDrivenRng : Rng := ⟨[0, 3/4], [0]⟩

/-- Worked example: the state of `BNcc_driven` after the first iteration. -/
def exampleDrivenFlagged : DrivenState :=
  { neuron := [1], stimulus_int := [0], stimulus_ext := [0], num_active := 1,
    num_active_int := 0, time := 1, rng := ⟨[3/4], [0]⟩, out := [(1, 0)] }

/-- Worked example, `BN_STS` with `N = 1` in time-series mode with `T = 1`: the state after the
single (seeding) iteration. -/
def exampleSeededOne : STSState :=
  { neuron := [1], stimulus_int := [0], num_active := 1, num_active_int := 0,
    time := 1, num_avalanches := 0, avalanche_time := 1, avalanche_size := 1,
    rng := ⟨[], []⟩, out := [(1, 0)] }

/-! ## Finite-size correction of `BNcc_driven.cpp`, read over the real numbers -/

/-- The loop `for(unsigned A=0; A<v.size(); A++){ v[A] = f(A); }`, from index `A` on and for at
most `fuel` iterations (a vector of `n` entries needs `n`). -/
def fillFrom {α : Type} (f : Nat → α) : Nat → Nat → List α → List α
  | 0, _, v => v
  | fuel + 1, A, v => if A < v.length then fillFrom f fuel (A + 1) (v.set A (f A)) else v

/-- The value stored in `m_fsc[A]` by the body of the loop at `BNcc_driven.cpp` 55-60, with
`std::pow` the real power and `log` the natural logarithm. -/
noncomputable def m_fsc_entry (N : Nat) (m : ℝ) (A : Nat) : ℝ :=
  if 1 - m * (A : ℝ) / (N : ℝ) > 0 then
    (N : ℝ) * (1 - (1 - m * (A : ℝ) / (N : ℝ)) ^ ((1 : ℝ) / (A : ℝ)))
  else Real.log (N : ℝ)

/-- The vector `std::vector<double> m_fsc(N+1,0.0)` after the loop of `BNcc_driven.cpp` 54-61
(`N+1` taken without wrap-around). -/
noncomputable def m_fsc (N : Nat) (m : ℝ) : List ℝ :=
  fillFrom (m_fsc_entry N m) (N + 1) 0 (List.replicate (N + 1) 0)

/-- The vector `std::vector<double> p_fsc(N+1,0.0)` after the loop of `BNcc_driven.cpp` 64:
`p_fsc[A] = m_fsc[A]/static_cast<double>(N)`. -/
noncomputable def p_fsc (N : Nat) (m : ℝ) : List ℝ :=
  fillFrom (fun A => (m_fsc N m).getD A 0 / (N : ℝ)) (N + 1) 0 (List.replicate (N + 1) 0)

/-- The probability `double p_std = m/static_cast<double>(N);` of `BN_STS.cpp` 55, the only one
its sampler `binom(N,p_std)` is built from. -/
noncomputable def p_std (N : Nat) (m : ℝ) : ℝ := m / (N : ℝ)

/-! ## Command line of the two programs -/

/-- The body of `for(unsigned i=0; i<argc; i++){...}` for one position: the `if`s in order.
`arg` is `argv[i]`, `next` is `argv[i+1]` (`none` for the null pointer `argv[argc]`, which
neither `atof` nor `std::string` may be given), and the number is `valid_args`. -/
def applyFlags {α : Type} :
    List (String × (String → α → α)) → String → Option String → α × Nat → Option (α × Nat)
  | [], _, _, st => some st
  | (flag, assign) :: rest, arg, next, (a, valid_args) =>
    if arg = flag then
      match next with
      | none => none
      | some v => applyFlags rest arg next (assign v a, valid_args + 1)
    else applyFlags rest arg next (a, valid_args)

/-- The loop `for(unsigned i=0; i<argc; i++){...}` over the part of `argv` still to be
visited. -/
def parseArgs {α : Type} (flags : List (String × (String → α → α))) :
    List String → α × Nat → Option (α × Nat)
  | [], st => some st
  | arg :: rest, st =>
    match applyFlags flags arg rest.head? st with
    | none => none
    | some st1 => parseArgs flags rest st1

/-- What the start of `main` leads to: the usage text on `std::cout` followed by `exit`, or
the simulation with the parsed values. -/
inductive Startup (α : Type) where
  | usage (printed : String) (status : Nat)
  | simulation (args : α)
deriving DecidableEq

/-- The variables of `BNcc_driven.cpp` 18-23. -/
structure DrivenArgs where
  path : String
  N : Nat
  T : ℚ
  h : ℚ
  m : ℚ
  seed : Nat
deriving DecidableEq

/-- The initial values of `BNcc_driven.cpp` 18-23. -/
def drivenDefaults : DrivenArgs := { path := "", N := 1, T := 1, h := 1, m := 0, seed := 1000 }

/-- The value an `unsigned` variable takes when a `double` is assigned to it
(`N = atof(argv[i+1]);`): the fraction is dropped, towards zero, and a result outside
`[0, 2^32)`, for which C++ defines nothing, is reduced modulo `2^32` as the 64-bit conversion
followed by the 32-bit store of the usual compilers does (`4294967296` gives 0, `1e10` gives
1410065408). -/
def toUnsigned (x : ℚ) : Nat := ((if 0 ≤ x then ⌊x⌋ else ⌈x⌉) % 2 ^ 32).toNat

/-- The six `if`s of `BNcc_driven.cpp` 35-40; `atof` is the library function. -/
def drivenFlags (atof : String → ℚ) : List (String × (String → DrivenArgs → DrivenArgs)) :=
  [("-N", fun v a => { a with N := toUnsigned (atof v) }),
   ("-T", fun v a => { a with T := atof v }),
   ("-h", fun v a => { a with h := atof v }),
   ("-m", fun v a => { a with m := atof v }),
   ("-s", fun v a => { a with seed := toUnsigned (atof v) }),
   ("-o", fun v a => { a with path := v })]

/-- The text of `help` in `BNcc_driven.cpp` 25-32. -/
def drivenHelp : String :=
  "usage:\n" ++
  "     -N : number of neurons     (N=1e4         )\n" ++
  "     -T : number of time steps  (T=1e7 ms goal )\n" ++
  "     -h : external drive/neuron (h<1)\n" ++
  "     -m : synaptic strength\n" ++
  "     -s : seed\n" ++
  "     -o : output\n"

/-- Lines 33-42 of `BNcc_driven.cpp`. -/
def drivenStartup (atof : String → ℚ) (argv : List String) : Option (Startup DrivenArgs) :=
  match parseArgs (drivenFlags atof) argv (drivenDefaults, 0) with
  | none => none
  | some (a, valid_args) =>
    if valid_args < 6 then some (.usage ("not enough arguments\n" ++ drivenHelp ++ "\n") 1)
    else some (.simulation a)

/-- The variables of `BN_STS.cpp` 18-23. -/
structure STSArgs where
  path : String
  N : Nat
  m : ℚ
  seed : Nat
  T : ℚ
  avalanches : Nat
deriving DecidableEq

/-- The initial values of `BN_STS.cpp` 18-23. -/
def stsDefaults : STSArgs := { path := "", N := 1, m := 0, seed := 1000, T := 1, avalanches := 0 }

/-- The six `if`s of `BN_STS.cpp` 35-40. -/
def stsFlags (atof : String → ℚ) : List (String × (String → STSArgs → STSArgs)) :=
  [("-N", fun v a => { a with N := toUnsigned (atof v) }),
   ("-m", fun v a => { a with m := atof v }),
   ("-s", fun v a => { a with seed := toUnsigned (atof v) }),
   ("-T", fun v a => { a with T := atof v }),
   ("-A", fun v a => { a with avalanches := toUnsigned (atof v) }),
   ("-o", fun v a => { a with path := v })]

/-- The text of `help` in `BN_STS.cpp` 25-32. -/
def stsHelp : String :=
  "usage:\n" ++
  "     -N : number of neurons     (N=1e4         )\n" ++
  "     -m : synaptic strength\n" ++
  "     -s : seed\n" ++
  "     -T : number of time steps  (T=1e7 ms goal )\n" ++
  "     -A : number of externally driven avalanches (T=1e6 ms goal )\n" ++
  "     -o : output\n"

/-- Lines 33-42 of `BN_STS.cpp`. -/
def stsStartup (atof : String → ℚ) (argv : List String) : Option (Startup STSArgs) :=
  match parseArgs (stsFlags atof) argv (stsDefaults, 0) with
  | none => none
  | some (a, valid_args) =>
    if valid_args < 5 then some (.usage ("not enough arguments\n" ++ stsHelp ++ "\n") 1)
    else some (.simulation a)

/-! ## The rejection loop -/

theorem roundHalfEven_le (x : ℚ) : (roundHalfEven x : ℚ) ≤ x + 1 / 2 := by
  have h1 : (⌊x⌋ : ℚ) ≤ x := Int.floor_le x
  unfold roundHalfEven
  split
  · linarith
  · rename_i h
    split
    · push_cast
      linarith
    · rename_i h2
      split
      · linarith
      · push_cast
        linarith

theorem roundHalfEven_nonneg (x : ℚ) (hx : 0 ≤ x) : (0 : ℚ) ≤ (roundHalfEven x : ℚ) := by
  have h0 : (0 : ℤ) ≤ ⌊x⌋ := Int.floor_nonneg.2 hx
  have h1 : (0 : ℚ) ≤ (⌊x⌋ : ℚ) := by exact_mod_cast h0
  unfold roundHalfEven
  split
  · exact h1
  · split
    · push_cast
      linarith
    · split
      · exact h1
      · push_cast
        linarith

theorem roundDouble_nonneg (q : ℚ) : 0 ≤ roundDouble q := by
  unfold roundDouble
  split
  · exact le_refl _
  · rename_i h
    have hq : 0 < q := not_le.1 h
    have hs : (0 : ℚ) < (2 : ℚ) ^ (Int.log 2 q - 52) := zpow_pos (by norm_num) _
    exact mul_nonneg (roundHalfEven_nonneg _ (div_nonneg hq.le hs.le)) hs.le

theorem roundDouble_le (q : ℚ) (hq : 0 ≤ q) : roundDouble q ≤ q * (1 + 1 / 2 ^ 53) := by
  unfold roundDouble
  split
  · exact mul_nonneg hq (by norm_num)
  · rename_i h
    have hq0 : 0 < q := not_le.1 h
    have hs : (0 : ℚ) < (2 : ℚ) ^ (Int.log 2 q - 52) := zpow_pos (by norm_num) _
    have hlog : (2 : ℚ) ^ Int.log 2 q ≤ q := by
      have := Int.zpow_log_le_self (b := 2) (r := q) (by norm_num) hq0
      simpa using this
    have hs2 : (2 : ℚ) ^ (Int.log 2 q - 52) ≤ q / 2 ^ 52 := by
      rw [zpow_sub₀ (by norm_num : (2 : ℚ) ≠ 0)]
      have h52 : (2 : ℚ) ^ (52 : ℤ) = 2 ^ 52 := by norm_num
      rw [h52]
      exact div_le_div_of_nonneg_right hlog (by norm_num)
    have hr := roundHalfEven_le (q / (2 : ℚ) ^ (Int.log 2 q - 52))
    calc (roundHalfEven (q / (2 : ℚ) ^ (Int.log 2 q - 52)) : ℚ) * (2 : ℚ) ^ (Int.log 2 q - 52)
        ≤ (q / (2 : ℚ) ^ (Int.log 2 q - 52) + 1 / 2) * (2 : ℚ) ^ (Int.log 2 q - 52) :=
          mul_le_mul_of_nonneg_right hr hs.le
      _ = q + (2 : ℚ) ^ (Int.log 2 q - 52) / 2 := by
          field_simp
          ring
      _ ≤ q + q / 2 ^ 52 / 2 := by linarith
      _ = q * (1 + 1 / 2 ^ 53) := by ring

theorem unitDouble_bounds (u : ℚ) (h1 : u < 1) :
    0 ≤ unitDouble u ∧ unitDouble u ≤ 1 - 1 / 2 ^ 53 := by
  unfold unitDouble
  rw [if_pos h1]
  exact ⟨le_min (roundDouble_nonneg u) (by norm_num), min_le_right _ _⟩

theorem targetIndex_lt (u : ℚ) (N : Nat) (hN : 1 ≤ N) (_h0 : 0 ≤ u) (h1 : u < 1) :
    targetIndex u N < N := by
  unfold targetIndex
  have hN0 : (0 : ℚ) < (N : ℚ) := by exact_mod_cast hN
  obtain ⟨b0, b1⟩ := unitDouble_bounds u h1
  have hx : 0 ≤ unitDouble u * (N : ℚ) := mul_nonneg b0 hN0.le
  rw [Nat.floor_lt (roundDouble_nonneg _)]
  have h2 := roundDouble_le _ hx
  have h3 : unitDouble u * (N : ℚ) ≤ (1 - 1 / 2 ^ 53) * (N : ℚ) :=
    mul_le_mul_of_nonneg_right b1 hN0.le
  have h4 : unitDouble u * (N : ℚ) * (1 + 1 / 2 ^ 53) ≤
      (1 - 1 / 2 ^ 53) * (N : ℚ) * (1 + 1 / 2 ^ 53) :=
    mul_le_mul_of_nonneg_right h3 (by norm_num)
  have h5 : (1 - 1 / 2 ^ 53) * (N : ℚ) * (1 + 1 / 2 ^ 53) < (N : ℚ) := by
    have : (1 - 1 / 2 ^ 53) * (N : ℚ) * (1 + 1 / 2 ^ 53) =
        (N : ℚ) - (N : ℚ) * (1 / 2 ^ 53 * (1 / 2 ^ 53)) := by ring
    rw [this]
    have hp : 0 < (N : ℚ) * (1 / 2 ^ 53 * (1 / 2 ^ 53)) := mul_pos hN0 (by norm_num)
    linarith
  linarith

theorem sampleLoop_ok (size k : Nat) :
    ∀ (us : List ℚ) (j : Nat) (nc st nc1 st1 : List Nat) (rest : List ℚ),
      sampleLoop size k us j nc st = .ok (nc1, st1, rest) →
      nc.Nodup → (∀ t ∈ nc, t < st.length) → j ≤ k →
      ∃ fresh, nc1 = nc ++ fresh ∧ j + fresh.length = k ∧ nc1.Nodup ∧
        (∀ t ∈ nc1, t < st.length) ∧ st1.length = st.length ∧
        (∀ i, st1.getD i 0 = st.getD i 0 + fresh.count i) ∧
        ∃ used, us = used ++ rest := by
  intro us
  induction us with
  | nil =>
    intro j nc st nc1 st1 rest h hnd hlt hjk
    unfold sampleLoop at h
    split at h
    · cases h
    · injection h with h
      simp only [Prod.mk.injEq] at h
      obtain ⟨rfl, rfl, rfl⟩ := h
      exact ⟨[], by simp, by simp; omega, hnd, hlt, rfl, by simp, [], rfl⟩
  | cons u us ih =>
    intro j nc st nc1 st1 rest h hnd hlt hjk
    unfold sampleLoop at h
    split at h
    · rename_i hj
      split at h
      · obtain ⟨fresh, h1, h2, h3, h4, h5, h6, used, h7⟩ := ih j nc st nc1 st1 rest h hnd hlt hjk
        exact ⟨fresh, h1, h2, h3, h4, h5, h6, u :: used, by simp [h7]⟩
      · rename_i hmem
        split at h
        · rename_i hb
          have hnd1 : (nc ++ [targetIndex u size]).Nodup := by
            rw [List.nodup_append]
            refine ⟨hnd, List.nodup_singleton _, ?_⟩
            intro a ha hb1
            simp only [List.mem_singleton] at hb1
            subst hb1
            exact hmem ha
          have hlt1 : ∀ t ∈ nc ++ [targetIndex u size],
              t < (st.set (targetIndex u size) (st.getD (targetIndex u size) 0 + 1)).length := by
            intro t ht
            rw [List.length_set]
            rcases List.mem_append.1 ht with ht | ht
            · exact hlt t ht
            · simp only [List.mem_singleton] at ht
              subst ht
              exact hb
          obtain ⟨fresh, h1, h2, h3, h4, h5, h6, used, h7⟩ :=
            ih (j + 1) _ _ nc1 st1 rest h hnd1 hlt1 (by omega)
          refine ⟨targetIndex u size :: fresh, by simp [h1], by simp; omega, h3, ?_, ?_, ?_,
            u :: used, by simp [h7]⟩
          · intro t ht
            have := h4 t ht
            rwa [List.length_set] at this
          · rw [h5, List.length_set]
          · intro i
            rw [h6 i]
            by_cases hi : targetIndex u size = i
            · subst hi
              simp [List.getD_eq_getElem?_getD, List.getElem?_set_self hb,
                List.getElem?_eq_getElem hb]
              omega
            · simp [List.getD_eq_getElem?_getD, List.getElem?_set_ne hi, List.count_cons, hi]
        · cases h
    · injection h with h
      simp only [Prod.mk.injEq] at h
      obtain ⟨rfl, rfl, rfl⟩ := h
      exact ⟨[], by simp, by simp; omega, hnd, hlt, rfl, by simp, [], rfl⟩

theorem sampleLoop_in_bounds (N k : Nat) (hN : 1 ≤ N) :
    ∀ (us : List ℚ) (j : Nat) (nc st : List Nat),
      (∀ u ∈ us, 0 ≤ u ∧ u < 1) → st.length = N →
      sampleLoop N k us j nc st ≠ .error .outOfBounds := by
  intro us
  induction us with
  | nil =>
    intro j nc st _ _
    unfold sampleLoop
    split <;> simp
  | cons u us ih =>
    intro j nc st hu hlen
    have hu0 := hu u (List.mem_cons_self _ _)
    have hus : ∀ v ∈ us, 0 ≤ v ∧ v < 1 := fun v hv => hu v (List.mem_cons_of_mem _ hv)
    unfold sampleLoop
    split
    · split
      · exact ih j nc st hus hlen
      · split
        · exact ih _ _ _ hus (by rw [List.length_set]; exact hlen)
        · rename_i hb
          exact absurd (hlen ▸ targetIndex_lt u N hN hu0.1 hu0.2) hb
    · simp

theorem nodup_bounded_length (l : List Nat) (N : Nat) (hnd : l.Nodup) (hlt : ∀ t ∈ l, t < N) :
    l.length ≤ N := by
  have hsub : l ⊆ List.range N := fun t ht => List.mem_range.2 (hlt t ht)
  have := (List.subperm_of_subset hnd hsub).length_le
  simpa using this

/-- C1. Distinct-target rejection sampling: for a population of `N >= 1` units and uniform
draws in `[0,1)` the loop never indexes outside `stimulus_int`; whenever it finishes, the
requested count satisfies `k <= N`, the accepted targets are exactly `k`, pairwise distinct
and below `N`, and the counter of every accepted target has grown by exactly 1 while every
other counter is unchanged; for `k > N` the loop finishes on no list of draws. -/
theorem sampleLoop_distinct_targets (N k : Nat) (us : List ℚ) (stimulus_int : List Nat)
    (hN : 1 ≤ N) (hlen : stimulus_int.length = N) (hu : ∀ u ∈ us, 0 ≤ u ∧ u < 1) :
    sampleLoop N k us 0 [] stimulus_int ≠ .error .outOfBounds ∧
    (∀ nconnect st rest, sampleLoop N k us 0 [] stimulus_int = .ok (nconnect, st, rest) →
      k ≤ N ∧ nconnect.length = k ∧ nconnect.Nodup ∧ (∀ t ∈ nconnect, t < N) ∧
      st.length = N ∧
      ∀ i, st.getD i 0 = stimulus_int.getD i 0 + (if i ∈ nconnect then 1 else 0)) ∧
    (N < k → ∀ r, sampleLoop N k us 0 [] stimulus_int ≠ .ok r) := by
  have key : ∀ nconnect st rest,
      sampleLoop N k us 0 [] stimulus_int = .ok (nconnect, st, rest) →
      k ≤ N ∧ nconnect.length = k ∧ nconnect.Nodup ∧ (∀ t ∈ nconnect, t < N) ∧
      st.length = N ∧
      ∀ i, st.getD i 0 = stimulus_int.getD i 0 + (if i ∈ nconnect then 1 else 0) := by
    intro nconnect st rest h
    obtain ⟨fresh, h1, h2, h3, h4, h5, h6, -⟩ :=
      sampleLoop_ok N k us 0 [] stimulus_int nconnect st rest h List.nodup_nil
        (by simp) (Nat.zero_le _)
    simp only [List.nil_append] at h1
    subst h1
    rw [hlen] at h4 h5
    have hk : nconnect.length = k := by omega
    refine ⟨hk ▸ nodup_bounded_length nconnect N h3 h4, hk, h3, h4, h5, ?_⟩
    intro i
    rw [h6 i]
    by_cases hi : i ∈ nconnect
    · rw [if_pos hi, List.count_eq_one_of_mem h3 hi]
    · rw [if_neg hi, List.count_eq_zero_of_not_mem hi]
  refine ⟨sampleLoop_in_bounds N k hN us 0 [] stimulus_int hu hlen, key, ?_⟩
  intro hk r h
  obtain ⟨nconnect, st, rest⟩ := r
  have := (key nconnect st rest h).1
  omega

theorem sampleLoop_distinct_targets_witness :
    sampleLoop 3 2 [1/2, 1/2, 0, 3/4] 0 [] [0, 5, 0] = .ok ([1, 0], [1, 6, 0], [3/4]) ∧
    (2 ≤ 3 ∧ [1, 0].length = 2 ∧ [1, 0].Nodup ∧ (∀ t ∈ [1, 0], t < 3) ∧
      [1, 6, 0].length = 3 ∧
      ∀ i, [1, 6, 0].getD i 0 = [0, 5, 0].getD i 0 + (if i ∈ [1, 0] then 1 else 0)) :=
  ⟨by decide!,
   (sampleLoop_distinct_targets 3 2 [1/2, 1/2, 0, 3/4] [0, 5, 0] (by decide) (by decide)
      (by decide!)).2.1 [1, 0] [1, 6, 0] [3/4] (by decide!)⟩

/-! ## The self-sustained loop -/

theorem integrateSTS_spec : ∀ (xs ss : List Nat) (na nai : Nat),
    xs.length = ss.length → (∀ x ∈ xs, x ≤ 1) →
    (integrateSTS xs ss na nai).1 = ss.map (fun s => if s > 0 then 1 else 0) ∧
    (integrateSTS xs ss na nai).2.1 = List.replicate ss.length 0 ∧
    (integrateSTS xs ss na nai).2.2.1 = na + ss.countP (fun s => decide (s > 0)) ∧
    (integrateSTS xs ss na nai).2.2.2 = nai + ss.countP (fun s => decide (s > 0)) := by
  intro xs
  induction xs with
  | nil =>
    intro ss na nai hlen _
    cases ss with
    | nil => simp [integrateSTS]
    | cons s ss => simp at hlen
  | cons x xs ih =>
    intro ss na nai hlen hx
    cases ss with
    | nil => simp at hlen
    | cons s ss =>
      have hlen1 : xs.length = ss.length := by simpa using hlen
      have hx1 : ∀ y ∈ xs, y ≤ 1 := fun y hy => hx y (List.mem_cons_of_mem _ hy)
      have hx0 : x ≤ 1 := hx x (List.mem_cons_self _ _)
      by_cases hs : s > 0
      · obtain ⟨h1, h2, h3, h4⟩ := ih ss (na + 1) (nai + 1) hlen1 hx1
        simp only [integrateSTS, hs, if_true, List.map_cons, List.length_cons,
          List.replicate_succ, List.countP_cons, decide_True, h1, h2, h3, h4]
        refine ⟨trivial, trivial, by omega, by omega⟩
      · obtain ⟨h1, h2, h3, h4⟩ := ih ss na nai hlen1 hx1
        have hs0 : s = 0 := by omega
        subst hs0
        have hx2 : (if x = 1 then 0 else x) = 0 := by
          split
          · rfl
          · omega
        simp [integrateSTS, h1, h2, h3, h4, hx2, List.replicate_succ]

theorem count_one_indicator (ss : List Nat) :
    (ss.map (fun s => if s > 0 then 1 else 0)).count 1 = ss.countP (fun s => decide (s > 0)) := by
  induction ss with
  | nil => rfl
  | cons s ss ih =>
    by_cases hs : s > 0
    · simp [List.count_cons, List.countP_cons, hs, ih]
    · have hs0 : s = 0 := by omega
      subst hs0
      simp [List.count_cons, List.countP_cons, ih]

theorem propagateSTS_length (size : Nat) : ∀ (xs st : List Nat) (g : Rng) (st1 : List Nat)
    (g1 : Rng), propagateSTS size xs st g = .ok (st1, g1) → st1.length = st.length := by
  intro xs
  induction xs with
  | nil =>
    intro st g st1 g1 h
    simp only [propagateSTS, Except.ok.injEq, Prod.mk.injEq] at h
    rw [← h.1]
  | cons x xs ih =>
    intro st g st1 g1 h
    unfold propagateSTS at h
    split at h
    · split at h
      · cases h
      · split at h
        · cases h
        · rename_i hs
          obtain ⟨fresh, -, -, -, -, h5, -⟩ :=
            sampleLoop_ok size _ _ 0 [] st _ _ _ hs List.nodup_nil (by simp) (Nat.zero_le _)
          rw [ih _ _ _ _ h, h5]
    · exact ih _ _ _ _ h

theorem count_one_set (l : List Nat) (i : Nat) (hi : i < l.length) (h0 : l.count 1 = 0) :
    (l.set i 1).count 1 = 1 := by
  rw [List.count_set _ _ _ _ hi, h0]
  simp

theorem stsInit_inv (N : Nat) (g : Rng) : STSInv N (stsInit N g) := by
  refine ⟨by simp [stsInit], rfl, ?_, ?_, Nat.le_refl _, Nat.zero_le _⟩
  · intro x hx
    simp only [stsInit] at hx
    rw [List.eq_of_mem_replicate hx]
    exact Nat.zero_le _
  · simp [stsInit, List.count_replicate]

theorem stsUpdate_inv (N : Nat) (s s1 : STSState) (hs : STSInv N s)
    (h : stsUpdate s = .ok s1) :
    STSInv N s1 ∧
    (s.num_active = 0 → s1.num_active = 1 ∧ s1.num_active_int = 0 ∧
      s1.avalanche_time = 0 ∧ s1.avalanche_size = 0 ∧ s1.rng.bin = s.rng.bin) ∧
    (s.num_active ≠ 0 → ∃ si g, propagateSTS N s.neuron s.stimulus_int s.rng = .ok (si, g) ∧
      s1.num_active = si.countP (fun x => decide (x > 0)) ∧
      s1.num_active_int = s1.num_active ∧
      s1.avalanche_time = s.avalanche_time ∧ s1.avalanche_size = s.avalanche_size ∧
      s1.rng = g) ∧
    s1.out = s.out ∧ s1.time = s.time ∧ s1.num_avalanches = s.num_avalanches := by
  obtain ⟨hlen, hst, hx, hna, hnai, hN⟩ := hs
  unfold stsUpdate at h
  split at h
  · rename_i h0
    split at h
    · cases h
    · split at h
      · rename_i hb
        injection h with h
        subst h
        refine ⟨⟨by simp [hlen], hst, ?_, ?_, Nat.zero_le _, ?_⟩, fun _ => ⟨rfl, rfl, rfl, rfl, rfl⟩,
          fun hne => absurd h0 hne, rfl, rfl, rfl⟩
        · intro x hx1
          rcases List.mem_or_eq_of_mem_set hx1 with hx2 | hx2
          · exact hx x hx2
          · omega
        · show 1 = _
          rw [count_one_set _ _ hb (by omega)]
        · show 1 ≤ N
          omega
      · cases h
  · rename_i h0
    split at h
    · cases h
    · rename_i si g hp
      injection h with h
      subst h
      have hlen1 : si.length = N := by
        rw [propagateSTS_length _ _ _ _ _ _ hp, hst, List.length_replicate]
      obtain ⟨h1, h2, h3, h4⟩ := integrateSTS_spec s.neuron si 0 0 (by omega) hx
      refine ⟨⟨?_, ?_, ?_, ?_, ?_, ?_⟩, fun h => absurd h h0, fun _ => ⟨si, g, hlen ▸ hp, ?_, ?_, rfl, rfl, rfl⟩,
        rfl, rfl, rfl⟩
      · show (integrateSTS s.neuron si 0 0).1.length = N
        rw [h1, List.length_map, hlen1]
      · show (integrateSTS s.neuron si 0 0).2.1 = _
        rw [h2, hlen1]
      · show ∀ x ∈ (integrateSTS s.neuron si 0 0).1, x ≤ 1
        rw [h1]
        intro x hx1
        obtain ⟨y, -, rfl⟩ := List.mem_map.1 hx1
        split <;> omega
      · show (integrateSTS s.neuron si 0 0).2.2.1 = (integrateSTS s.neuron si 0 0).1.count 1
        rw [h3, h1, count_one_indicator, Nat.zero_add]
      · show (integrateSTS s.neuron si 0 0).2.2.2 ≤ (integrateSTS s.neuron si 0 0).2.2.1
        rw [h3, h4]
      · show (integrateSTS s.neuron si 0 0).2.2.1 ≤ N
        rw [h3, Nat.zero_add, ← hlen1]
        exact List.countP_le_length _
      · show (integrateSTS s.neuron si 0 0).2.2.1 = _
        rw [h3, Nat.zero_add]
      · show (integrateSTS s.neuron si 0 0).2.2.2 = (integrateSTS s.neuron si 0 0).2.2.1
        rw [h3, h4]

theorem stsEmit_fields (cfg : STSConfig) (s : STSState) :
    (stsEmit cfg s).1.neuron = s.neuron ∧ (stsEmit cfg s).1.stimulus_int = s.stimulus_int ∧
    (stsEmit cfg s).1.num_active = s.num_active ∧
    (stsEmit cfg s).1.num_active_int = s.num_active_int ∧ (stsEmit cfg s).1.rng = s.rng ∧
    (stsEmit cfg s).1.avalanche_time = s.avalanche_time + 1 ∧
    (stsEmit cfg s).1.avalanche_size = s.avalanche_size + s.num_active ∧
    (stsEmit cfg s).1.time = (s.time + 1) % 2 ^ 32 := by
  unfold stsEmit
  dsimp only
  split_ifs <;> exact ⟨rfl, rfl, rfl, rfl, rfl, rfl, rfl, rfl⟩

theorem stsEmit_inv (cfg : STSConfig) (N : Nat) (s : STSState) (hs : STSInv N s) :
    STSInv N (stsEmit cfg s).1 := by
  obtain ⟨h1, h2, h3, h4, h5, -⟩ := stsEmit_fields cfg s
  unfold STSInv
  rw [h1, h2, h3, h4]
  exact hs

theorem stsStep_inv (cfg : STSConfig) (N : Nat) (s s2 : STSState) (b : Bool)
    (hs : STSInv N s) (h : stsStep cfg s = .ok (s2, b)) :
    STSInv N s2 ∧
    (s.num_active = 0 → s2.num_active = 1 ∧ s2.num_active_int = 0 ∧
      s2.avalanche_time = 1 ∧ s2.avalanche_size = 1 ∧ s2.rng.bin = s.rng.bin) ∧
    (s.num_active ≠ 0 → ∃ si g, propagateSTS N s.neuron s.stimulus_int s.rng = .ok (si, g) ∧
      s2.num_active = si.countP (fun x => decide (x > 0)) ∧
      s2.num_active_int = s2.num_active ∧
      s2.avalanche_time = s.avalanche_time + 1 ∧
      s2.avalanche_size = s.avalanche_size + s2.num_active ∧ s2.rng = g) := by
  unfold stsStep at h
  split at h
  · cases h
  · rename_i s1 hu
    injection h with h
    obtain ⟨hi, hseed, hprop, -⟩ := stsUpdate_inv N s s1 hs hu
    have hs2 : s2 = (stsEmit cfg s1).1 := by rw [h]
    obtain ⟨-, -, h3, h4, h5, h6, h7, -⟩ := stsEmit_fields cfg s1
    rw [← hs2] at h3 h4 h5 h6 h7
    refine ⟨hs2 ▸ stsEmit_inv cfg N s1 hi, ?_, ?_⟩
    · intro h0
      obtain ⟨a1, a2, a3, a4, a5⟩ := hseed h0
      rw [h3, h4, h5, h6, h7, a1, a2, a3, a4, a5]
      exact ⟨rfl, rfl, rfl, rfl, rfl⟩
    · intro h0
      obtain ⟨si, g, a1, a2, a3, a4, a5, a6⟩ := hprop h0
      refine ⟨si, g, a1, ?_, ?_, ?_, ?_, ?_⟩
      · rw [h3, a2]
      · rw [h3, h4, a3]
      · rw [h6, a4]
      · rw [h7, a5, h3]
      · rw [h5, a6]

theorem stsRun_steps (cfg : STSConfig) (P : STSState → Prop)
    (hP : ∀ s s1 b, P s → stsStep cfg s = .ok (s1, b) → P s1) :
    ∀ (fuel : Nat) (s : STSState), P s →
      ∀ p ∈ (stsRun cfg fuel s).1, P p.1 ∧ ∃ b, stsStep cfg p.1 = .ok (p.2, b) := by
  intro fuel
  induction fuel with
  | zero =>
    intro s _ p hp
    simp [stsRun] at hp
  | succ fuel ih =>
    intro s hs p hp
    unfold stsRun at hp
    split at hp
    · simp at hp
    · rename_i s1 hstep
      simp only [List.mem_singleton] at hp
      subst hp
      exact ⟨hs, true, hstep⟩
    · rename_i s1 hstep
      rcases List.mem_cons.1 hp with hp | hp
      · subst hp
        exact ⟨hs, false, hstep⟩
      · exact ih s1 (hP s s1 false hs hstep) p hp

/-! ## The driven loop -/

theorem integrateDriven_spec : ∀ (xs ss es : List Nat) (na nai : Nat),
    xs.length = ss.length → ss.length = es.length → (∀ x ∈ xs, x ≤ 1) →
    (integrateDriven xs ss es na nai).1 =
      (ss.zip es).map (fun q => if q.1 > 0 ∨ q.2 > 0 then 1 else 0) ∧
    (integrateDriven xs ss es na nai).2.1 = List.replicate ss.length 0 ∧
    (integrateDriven xs ss es na nai).2.2.1 = List.replicate ss.length 0 ∧
    (integrateDriven xs ss es na nai).2.2.2.1 =
      na + (ss.zip es).countP (fun q => decide (q.1 > 0 ∨ q.2 > 0)) ∧
    (integrateDriven xs ss es na nai).2.2.2.2 =
      nai + (ss.zip es).countP (fun q => decide (q.1 > 0 ∧ q.2 = 0)) := by
  intro xs
  induction xs with
  | nil =>
    intro ss es na nai h1 h2 _
    cases ss with
    | nil => simp [integrateDriven]
    | cons s ss => simp at h1
  | cons x xs ih =>
    intro ss es na nai h1 h2 hx
    cases ss with
    | nil => simp at h1
    | cons s ss =>
      cases es with
      | nil => simp at h2
      | cons e es =>
        have h1a : xs.length = ss.length := by simpa using h1
        have h2a : ss.length = es.length := by simpa using h2
        have hx1 : ∀ y ∈ xs, y ≤ 1 := fun y hy => hx y (List.mem_cons_of_mem _ hy)
        have hx0 : x ≤ 1 := hx x (List.mem_cons_self _ _)
        have hz : (s :: ss).zip (e :: es) = (s, e) :: ss.zip es := rfl
        by_cases hs : s > 0 ∨ e > 0
        · have hd : decide (s > 0 ∨ e > 0) = true := decide_eq_true hs
          by_cases hi : s > 0 ∧ e = 0
          · have hdi : decide (s > 0 ∧ e = 0) = true := decide_eq_true hi
            obtain ⟨a1, a2, a3, a4, a5⟩ := ih ss es (na + 1) (nai + 1) h1a h2a hx1
            rw [integrateDriven, if_pos hs, if_pos hi, hz, List.map_cons, List.countP_cons,
              List.countP_cons, if_pos hs, if_pos hd, if_pos hdi]
            dsimp only
            rw [a1, a2, a3, a4, a5]
            refine ⟨rfl, rfl, rfl, by omega, by omega⟩
          · have hdi : decide (s > 0 ∧ e = 0) = false := decide_eq_false hi
            obtain ⟨a1, a2, a3, a4, a5⟩ := ih ss es (na + 1) nai h1a h2a hx1
            rw [integrateDriven, if_pos hs, if_neg hi, hz, List.map_cons, List.countP_cons,
              List.countP_cons, if_pos hs, if_pos hd, hdi]
            dsimp only
            rw [a1, a2, a3, a4, a5]
            refine ⟨rfl, rfl, rfl, by omega, by simp⟩
        · have hd : decide (s > 0 ∨ e > 0) = false := decide_eq_false hs
          have hi : ¬ (s > 0 ∧ e = 0) := fun h => hs (Or.inl h.1)
          have hdi : decide (s > 0 ∧ e = 0) = false := decide_eq_false hi
          obtain ⟨a1, a2, a3, a4, a5⟩ := ih ss es na nai h1a h2a hx1
          have hs0 : s = 0 := by omega
          have he0 : e = 0 := by omega
          have hx2 : (if x = 1 then 0 else x) = 0 := by
            split
            · rfl
            · omega
          rw [integrateDriven, if_neg hs, hz, List.map_cons, List.countP_cons,
            List.countP_cons, if_neg hs, hd, hdi]
          dsimp only
          rw [a1, a2, a3, a4, a5, hx2, hs0, he0]
          refine ⟨rfl, rfl, rfl, by simp, by simp⟩

theorem count_one_indicator2 (qs : List (Nat × Nat)) :
    (qs.map (fun q => if q.1 > 0 ∨ q.2 > 0 then 1 else 0)).count 1 =
      qs.countP (fun q => decide (q.1 > 0 ∨ q.2 > 0)) := by
  induction qs with
  | nil => rfl
  | cons q qs ih =>
    by_cases hq : q.1 > 0 ∨ q.2 > 0
    · simp [List.count_cons, List.countP_cons, hq, ih]
    · simp [List.count_cons, List.countP_cons, hq, ih]

theorem countP_int_le (qs : List (Nat × Nat)) :
    qs.countP (fun q => decide (q.1 > 0 ∧ q.2 = 0)) ≤
      qs.countP (fun q => decide (q.1 > 0 ∨ q.2 > 0)) := by
  apply List.countP_mono_left
  intro q _ h
  simp only [decide_eq_true_eq] at h ⊢
  exact Or.inl h.1

theorem propagateDriven_length (size na : Nat) (lam : ℚ) :
    ∀ (xs : List Nat) (n : Nat) (si se : List Nat) (g : Rng) (si1 se1 : List Nat) (g1 : Rng),
      propagateDriven size na lam xs n si se g = .ok (si1, se1, g1) →
      si1.length = si.length ∧ se1.length = se.length := by
  intro xs
  induction xs with
  | nil =>
    intro n si se g si1 se1 g1 h
    simp only [propagateDriven, Except.ok.injEq, Prod.mk.injEq] at h
    rw [← h.1, ← h.2.1]
    exact ⟨rfl, rfl⟩
  | cons x xs ih =>
    intro n si se g si1 se1 g1 h
    unfold propagateDriven at h
    dsimp only at h
    split at h
    · cases h
    · rename_i si2 g2 hf
      have hlen : si2.length = si.length := by
        split at hf
        · split at hf
          · split at hf
            · cases hf
            · split at hf
              · cases hf
              · rename_i hs
                injection hf with hf
                simp only [Prod.mk.injEq] at hf
                obtain ⟨fresh, -, -, -, -, h5, -⟩ :=
                  sampleLoop_ok size _ _ 0 [] si _ _ _ hs List.nodup_nil (by simp)
                    (Nat.zero_le _)
                rw [← hf.1, h5]
          · cases hf
        · injection hf with hf
          simp only [Prod.mk.injEq] at hf
          rw [← hf.1]
      split at h
      · cases h
      · split at h
        · split at h
          · obtain ⟨b1, b2⟩ := ih _ _ _ _ _ _ _ h
            rw [b1, b2, hlen, List.length_set]
            exact ⟨rfl, rfl⟩
          · cases h
        · obtain ⟨b1, b2⟩ := ih _ _ _ _ _ _ _ h
          rw [b1, b2, hlen]
          exact ⟨rfl, rfl⟩

theorem drivenInit_inv (N : Nat) (g : Rng) : DrivenInv N (drivenInit N g) := by
  refine ⟨by simp [drivenInit], rfl, rfl, ?_, ?_, Nat.le_refl _, Nat.zero_le _⟩
  · intro x hx
    simp only [drivenInit] at hx
    rw [List.eq_of_mem_replicate hx]
    exact Nat.zero_le _
  · simp [drivenInit, List.count_replicate]

theorem drivenStep_inv (T lam : ℚ) (N : Nat) (s s1 : DrivenState) (b : Bool)
    (hs : DrivenInv N s) (h : drivenStep T lam s = .ok (s1, b)) :
    DrivenInv N s1 ∧
    ∃ si se g, propagateDriven N s.num_active lam s.neuron 0 s.stimulus_int s.stimulus_ext
        s.rng = .ok (si, se, g) ∧ si.length = N ∧ se.length = N ∧
      s1.num_active = (si.zip se).countP (fun q => decide (q.1 > 0 ∨ q.2 > 0)) ∧
      s1.num_active_int = (si.zip se).countP (fun q => decide (q.1 > 0 ∧ q.2 = 0)) ∧
      s1.neuron = (si.zip se).map (fun q => if q.1 > 0 ∨ q.2 > 0 then 1 else 0) ∧
      s1.rng = g ∧ s1.time = (s.time + 1) % 2 ^ 32 ∧
      s1.out = s.out ++ [(s1.num_active, s1.num_active_int)] ∧
      b = decide ((((s.time + 1) % 2 ^ 32 : Nat) : ℚ) > T) := by
  obtain ⟨hlen, hsi, hse, hx, hna, hnai, hN⟩ := hs
  unfold drivenStep at h
  split at h
  · cases h
  · rename_i si se g hp
    injection h with h
    simp only [Prod.mk.injEq] at h
    obtain ⟨h, hb⟩ := h
    subst h
    obtain ⟨l1, l2⟩ := propagateDriven_length _ _ _ _ _ _ _ _ _ _ _ hp
    rw [hsi, List.length_replicate] at l1
    rw [hse, List.length_replicate] at l2
    obtain ⟨a1, a2, a3, a4, a5⟩ :=
      integrateDriven_spec s.neuron si se 0 0 (by omega) (by omega) hx
    have hz : (si.zip se).length = N := by simp [List.length_zip, l1, l2]
    refine ⟨⟨?_, ?_, ?_, ?_, ?_, ?_, ?_⟩, si, se, g, hlen ▸ hp, l1, l2, ?_, ?_, a1, rfl, rfl,
      rfl, hb.symm⟩
    · show (integrateDriven s.neuron si se 0 0).1.length = N
      rw [a1, List.length_map, hz]
    · show (integrateDriven s.neuron si se 0 0).2.1 = _
      rw [a2, l1]
    · show (integrateDriven s.neuron si se 0 0).2.2.1 = _
      rw [a3, l1]
    · show ∀ x ∈ (integrateDriven s.neuron si se 0 0).1, x ≤ 1
      rw [a1]
      intro x hx1
      obtain ⟨y, -, rfl⟩ := List.mem_map.1 hx1
      split <;> omega
    · show (integrateDriven s.neuron si se 0 0).2.2.2.1 = (integrateDriven s.neuron si se 0 0).1.count 1
      rw [a4, a1, count_one_indicator2, Nat.zero_add]
    · show (integrateDriven s.neuron si se 0 0).2.2.2.2 ≤ (integrateDriven s.neuron si se 0 0).2.2.2.1
      rw [a4, a5, Nat.zero_add, Nat.zero_add]
      exact countP_int_le _
    · show (integrateDriven s.neuron si se 0 0).2.2.2.1 ≤ N
      rw [a4, Nat.zero_add, ← hz]
      exact List.countP_le_length _
    · show (integrateDriven s.neuron si se 0 0).2.2.2.1 = _
      rw [a4, Nat.zero_add]
    · show (integrateDriven s.neuron si se 0 0).2.2.2.2 = _
      rw [a5, Nat.zero_add]

theorem drivenRun_steps (T lam : ℚ) (P : DrivenState → Prop)
    (hP : ∀ s s1 b, P s → drivenStep T lam s = .ok (s1, b) → P s1) :
    ∀ (fuel : Nat) (s : DrivenState), P s →
      ∀ p ∈ (drivenRun T lam fuel s).1, P p.1 ∧ ∃ b, drivenStep T lam p.1 = .ok (p.2, b) := by
  intro fuel
  induction fuel with
  | zero =>
    intro s _ p hp
    simp [drivenRun] at hp
  | succ fuel ih =>
    intro s hs p hp
    unfold drivenRun at hp
    split at hp
    · simp at hp
    · rename_i s1 hstep
      simp only [List.mem_singleton] at hp
      subst hp
      exact ⟨hs, true, hstep⟩
    · rename_i s1 hstep
      rcases List.mem_cons.1 hp with hp | hp
      · subst hp
        exact ⟨hs, false, hstep⟩
      · exact ih s1 (hP s s1 false hs hstep) p hp

/-! ## Claims about every step of a run -/

theorem stsEmit_series (cfg : STSConfig) (s : STSState) (hf : cfg.flag_avalanches = false) :
    (stsEmit cfg s).1.out = s.out ++ [(s.num_active, s.num_active_int)] ∧
    (stsEmit cfg s).2 = decide (((((s.time + 1) % 2 ^ 32 + 1) % 2 ^ 32 : Nat) : ℚ) > cfg.T) := by
  unfold stsEmit
  dsimp only
  rw [hf]
  exact ⟨rfl, rfl⟩

theorem stsStep_series (cfg : STSConfig) (s s2 : STSState) (b : Bool)
    (hf : cfg.flag_avalanches = false) (h : stsStep cfg s = .ok (s2, b)) :
    s2.out = s.out ++ [(s2.num_active, s2.num_active_int)] ∧
    s2.time = (s.time + 1) % 2 ^ 32 ∧
    b = decide (((((s.time + 1) % 2 ^ 32 + 1) % 2 ^ 32 : Nat) : ℚ) > cfg.T) := by
  unfold stsStep at h
  split at h
  · cases h
  · rename_i s1 hu
    injection h with h
    have hs2 : s2 = (stsEmit cfg s1).1 := by rw [h]
    have hb : b = (stsEmit cfg s1).2 := by rw [h]
    obtain ⟨-, -, h3, h4, -, -, -, h8⟩ := stsEmit_fields cfg s1
    obtain ⟨e1, e2⟩ := stsEmit_series cfg s1 hf
    have hout : s1.out = s.out ∧ s1.time = s.time := by
      unfold stsUpdate at hu
      split at hu
      · split at hu
        · cases hu
        · split at hu
          · injection hu with hu
            subst hu
            exact ⟨rfl, rfl⟩
          · cases hu
      · split at hu
        · cases hu
        · injection hu with hu
          subst hu
          exact ⟨rfl, rfl⟩
    rw [hs2, hb, e1, e2, h3, h4, h8, hout.1, hout.2]
    exact ⟨rfl, rfl, rfl⟩

/-- C2. Conservation in both programs: after every iteration of either main loop,
`num_active` is the number of units whose flag `neuron[n]` is 1; after a propagation step it
is the number of units whose stimulus satisfied the activation condition at integration time
(`stimulus_int[n] > 0` in `BN_STS`, `stimulus_int[n] > 0` or `stimulus_ext[n] > 0` in
`BNcc_driven`); `num_active_int <= num_active <= N`; and the record written by a time-series
step is `(num_active, num_active_int)`. -/
theorem num_active_conservation (N fuel : Nat) (g : Rng) (cfg : STSConfig) (T lam : ℚ) :
    (∀ p ∈ (stsRun cfg fuel (stsInit N g)).1,
      p.2.num_active = p.2.neuron.count 1 ∧
      (p.1.num_active ≠ 0 → ∃ si g1,
        propagateSTS N p.1.neuron p.1.stimulus_int p.1.rng = .ok (si, g1) ∧
        p.2.num_active = si.countP (fun x => decide (x > 0))) ∧
      p.2.num_active_int ≤ p.2.num_active ∧ p.2.num_active ≤ N ∧
      (cfg.flag_avalanches = false →
        p.2.out = p.1.out ++ [(p.2.num_active, p.2.num_active_int)])) ∧
    (∀ p ∈ (drivenRun T lam fuel (drivenInit N g)).1,
      p.2.num_active = p.2.neuron.count 1 ∧
      (∃ si se g1,
        propagateDriven N p.1.num_active lam p.1.neuron 0 p.1.stimulus_int p.1.stimulus_ext
          p.1.rng = .ok (si, se, g1) ∧ si.length = N ∧ se.length = N ∧
        p.2.num_active = (si.zip se).countP (fun q => decide (q.1 > 0 ∨ q.2 > 0))) ∧
      p.2.num_active_int ≤ p.2.num_active ∧ p.2.num_active ≤ N ∧
      p.2.out = p.1.out ++ [(p.2.num_active, p.2.num_active_int)]) := by
  constructor
  · intro p hp
    obtain ⟨h1, b, h2⟩ := stsRun_steps cfg (STSInv N)
      (fun s s1 b hs h => (stsStep_inv cfg N s s1 b hs h).1) fuel _ (stsInit_inv N g) p hp
    obtain ⟨⟨-, -, -, i4, i5, i6⟩, -, hprop⟩ := stsStep_inv cfg N _ _ b h1 h2
    refine ⟨i4, ?_, i5, i6, fun hf => (stsStep_series cfg _ _ b hf h2).1⟩
    intro h0
    obtain ⟨si, g1, a1, a2, -⟩ := hprop h0
    exact ⟨si, g1, a1, a2⟩
  · intro p hp
    obtain ⟨h1, b, h2⟩ := drivenRun_steps T lam (DrivenInv N)
      (fun s s1 b hs h => (drivenStep_inv T lam N s s1 b hs h).1) fuel _ (drivenInit_inv N g) p hp
    obtain ⟨⟨-, -, -, -, i4, i5, i6⟩, si, se, g1, a1, a2, a3, a4, -, -, -, -, a9, -⟩ :=
      drivenStep_inv T lam N _ _ b h1 h2
    exact ⟨i4, ⟨si, se, g1, a1, a2, a3, a4⟩, i5, i6, a9⟩

theorem num_active_conservation_witness :
    (exampleSeeded, examplePropagated) ∈ (stsRun ⟨0, 2⟩ 2 (stsInit 2 exampleRng)).1 ∧
    examplePropagated.num_active = examplePropagated.neuron.count 1 ∧
    (exampleSeeded.num_active ≠ 0 → ∃ si g1,
      propagateSTS 2 exampleSeeded.neuron exampleSeeded.stimulus_int exampleSeeded.rng =
        .ok (si, g1) ∧
      examplePropagated.num_active = si.countP (fun x => decide (x > 0))) ∧
    examplePropagated.num_active_int ≤ examplePropagated.num_active ∧
    examplePropagated.num_active ≤ 2 ∧
    ((⟨0, 2⟩ : STSConfig).flag_avalanches = false →
      examplePropagated.out = exampleSeeded.out ++
        [(examplePropagated.num_active, examplePropagated.num_active_int)]) :=
  ⟨by decide!,
   (num_active_conservation 2 2 exampleRng ⟨0, 2⟩ 0 0).1 (exampleSeeded, examplePropagated)
     (by decide!)⟩

/-- C9. Stimulus accumulators are zero at step boundaries: in both programs, at the start and
at the end of every iteration of the main loop every entry of `stimulus_int` (and in
`BNcc_driven` of `stimulus_ext`) is 0, the vectors keeping their `N` entries. -/
theorem stimulus_zero_at_step_boundaries (N fuel : Nat) (g : Rng) (cfg : STSConfig)
    (T lam : ℚ) :
    (∀ p ∈ (stsRun cfg fuel (stsInit N g)).1,
      p.1.stimulus_int = List.replicate N 0 ∧ p.2.stimulus_int = List.replicate N 0) ∧
    (∀ p ∈ (drivenRun T lam fuel (drivenInit N g)).1,
      (p.1.stimulus_int = List.replicate N 0 ∧ p.1.stimulus_ext = List.replicate N 0) ∧
      (p.2.stimulus_int = List.replicate N 0 ∧ p.2.stimulus_ext = List.replicate N 0)) := by
  constructor
  · intro p hp
    obtain ⟨h1, b, h2⟩ := stsRun_steps cfg (STSInv N)
      (fun s s1 b hs h => (stsStep_inv cfg N s s1 b hs h).1) fuel _ (stsInit_inv N g) p hp
    exact ⟨h1.2.1, (stsStep_inv cfg N _ _ b h1 h2).1.2.1⟩
  · intro p hp
    obtain ⟨h1, b, h2⟩ := drivenRun_steps T lam (DrivenInv N)
      (fun s s1 b hs h => (drivenStep_inv T lam N s s1 b hs h).1) fuel _ (drivenInit_inv N g) p hp
    have h3 := (drivenStep_inv T lam N _ _ b h1 h2).1
    exact ⟨⟨h1.2.1, h1.2.2.1⟩, ⟨h3.2.1, h3.2.2.1⟩⟩

theorem stimulus_zero_at_step_boundaries_witness :
    (exampleSeeded, examplePropagated) ∈ (stsRun ⟨0, 2⟩ 2 (stsInit 2 exampleRng)).1 ∧
    exampleSeeded.stimulus_int = List.replicate 2 0 ∧
    examplePropagated.stimulus_int = List.replicate 2 0 :=
  ⟨by decide!,
   (stimulus_zero_at_step_boundaries 2 2 exampleRng ⟨0, 2⟩ 0 0).1
     (exampleSeeded, examplePropagated) (by decide!)⟩

/-- C8, as stated, fails: the seeding step of `BN_STS` sets `num_active = 1` and
`num_active_int = 0`, so the observable of a seeding step has `num_active_int != num_active`
(here `N = 2`, time-series mode with `T = 2`, first step). -/
theorem num_active_int_eq_num_active_fails :
    ¬ ∀ (cfg : STSConfig) (N fuel : Nat) (g : Rng),
        ∀ p ∈ (stsRun cfg fuel (stsInit N g)).1, p.2.num_active_int = p.2.num_active := by
  intro h
  have h1 := h ⟨0, 2⟩ 2 2 exampleRng (stsInit 2 exampleRng, exampleSeeded) (by decide!)
  revert h1
  decide

/-- C8, amended. In `BN_STS` every propagation step (one that starts with `num_active > 0`)
produces an observable with `num_active_int == num_active`, and every seeding step (one that
starts with `num_active == 0`) produces `num_active = 1`, `num_active_int = 0`. -/
theorem num_active_int_eq_on_propagation (N fuel : Nat) (g : Rng) (cfg : STSConfig) :
    ∀ p ∈ (stsRun cfg fuel (stsInit N g)).1,
      (p.1.num_active ≠ 0 → p.2.num_active_int = p.2.num_active) ∧
      (p.1.num_active = 0 → p.2.num_active = 1 ∧ p.2.num_active_int = 0) := by
  intro p hp
  obtain ⟨h1, b, h2⟩ := stsRun_steps cfg (STSInv N)
    (fun s s1 b hs h => (stsStep_inv cfg N s s1 b hs h).1) fuel _ (stsInit_inv N g) p hp
  obtain ⟨-, hseed, hprop⟩ := stsStep_inv cfg N _ _ b h1 h2
  constructor
  · intro h0
    obtain ⟨si, g1, -, -, a3, -⟩ := hprop h0
    exact a3
  · intro h0
    exact ⟨(hseed h0).1, (hseed h0).2.1⟩

theorem num_active_int_eq_on_propagation_witness :
    (exampleSeeded, examplePropagated) ∈ (stsRun ⟨0, 2⟩ 2 (stsInit 2 exampleRng)).1 ∧
    exampleSeeded.num_active ≠ 0 ∧
    examplePropagated.num_active_int = examplePropagated.num_active :=
  ⟨by decide!, by decide,
   ((num_active_int_eq_on_propagation 2 2 exampleRng ⟨0, 2⟩
     (exampleSeeded, examplePropagated) (by decide!)).1 (by decide))⟩

/-! ## Avalanche bookkeeping of the self-sustained loop -/

theorem stsUpdate_keeps (s s1 : STSState) (h : stsUpdate s = .ok s1) :
    s1.out = s.out ∧ s1.time = s.time ∧ s1.num_avalanches = s.num_avalanches := by
  unfold stsUpdate at h
  split at h
  · split at h
    · cases h
    · split at h
      · injection h with h
        subst h
        exact ⟨rfl, rfl, rfl⟩
      · cases h
  · split at h
    · cases h
    · injection h with h
      subst h
      exact ⟨rfl, rfl, rfl⟩

theorem stsStep_avalanche (cfg : STSConfig) (s s2 : STSState) (b : Bool)
    (hf : cfg.flag_avalanches = true) (h : stsStep cfg s = .ok (s2, b)) :
    s2.out = (if s2.avalanche_size > 0 ∧ s2.num_active = 0
      then s.out ++ [(s2.avalanche_time - 1, s2.avalanche_size)] else s.out) ∧
    s2.num_avalanches = (if s2.avalanche_size > 0 ∧ s2.num_active = 0
      then (s.num_avalanches + 1) % 2 ^ 32 else s.num_avalanches) ∧
    b = decide ((s2.num_avalanches + 1) % 2 ^ 32 > cfg.avalanches) := by
  unfold stsStep at h
  split at h
  · cases h
  · rename_i s1 hu
    injection h with h
    obtain ⟨k1, -, k3⟩ := stsUpdate_keeps s s1 hu
    have hs2 : s2 = (stsEmit cfg s1).1 := by rw [h]
    have hb : b = (stsEmit cfg s1).2 := by rw [h]
    rw [hs2, hb, ← k1, ← k3]
    unfold stsEmit
    dsimp only
    rw [hf]
    simp only [if_true]
    split <;> exact ⟨rfl, rfl, rfl⟩

theorem stsStep_T_irrelevant (A : Nat) (T T1 : ℚ) (hA : 1 ≤ A) (s : STSState) :
    stsStep ⟨A, T⟩ s = stsStep ⟨A, T1⟩ s := by
  have hf : ∀ T2 : ℚ, (⟨A, T2⟩ : STSConfig).flag_avalanches = true := by
    intro T2
    simp only [STSConfig.flag_avalanches, decide_eq_true_eq]
    omega
  unfold stsStep
  split
  · rfl
  · unfold stsEmit
    dsimp only
    rw [hf T, hf T1, if_pos rfl, if_pos rfl]

theorem stsRun_T_irrelevant (A : Nat) (T T1 : ℚ) (hA : 1 ≤ A) :
    ∀ (fuel : Nat) (s : STSState), stsRun ⟨A, T⟩ fuel s = stsRun ⟨A, T1⟩ fuel s := by
  intro fuel
  induction fuel with
  | zero => intro s; rfl
  | succ fuel ih =>
    intro s
    unfold stsRun
    rw [stsStep_T_irrelevant A T T1 hA s]
    split
    · rfl
    · rfl
    · rename_i s1 _
      rw [ih s1]

theorem stsRun_stops_at_count (cfg : STSConfig) (hf : cfg.flag_avalanches = true)
    (hA : cfg.avalanches < 2 ^ 32 - 1) :
    ∀ (fuel : Nat) (s : STSState), s.num_avalanches = s.out.length →
      s.out.length < cfg.avalanches → (stsRun cfg fuel s).2 = .stopped →
      (∀ p ∈ (stsRun cfg fuel s).1, p.1.out.length < cfg.avalanches) ∧
      ∃ pre post, (stsRun cfg fuel s).1.getLast? = some (pre, post) ∧
        pre.out.length + 1 = cfg.avalanches ∧ post.out.length = cfg.avalanches ∧
        post.num_avalanches = cfg.avalanches := by
  intro fuel
  induction fuel with
  | zero =>
    intro s _ _ h
    simp [stsRun] at h
  | succ fuel ih =>
    intro s hn hlt h
    rcases hstep : stsStep cfg s with e | ⟨s1, b⟩
    · simp [stsRun, hstep] at h
    · cases b
      · have hrun : stsRun cfg (fuel + 1) s =
            ((s, s1) :: (stsRun cfg fuel s1).1, (stsRun cfg fuel s1).2) := by
          simp [stsRun, hstep]
        rw [hrun] at h ⊢
        dsimp only at h ⊢
        obtain ⟨a1, a2, a3⟩ := stsStep_avalanche cfg s s1 false hf hstep
        have hb := of_decide_eq_false a3.symm
        have hs1 : s1.num_avalanches = s1.out.length ∧ s1.out.length < cfg.avalanches := by
          split at a1
          · rw [if_pos (by assumption)] at a2
            have e1 : (s.num_avalanches + 1) % 2 ^ 32 = s.num_avalanches + 1 :=
              Nat.mod_eq_of_lt (by omega)
            rw [e1] at a2
            have e2 : (s1.num_avalanches + 1) % 2 ^ 32 = s1.num_avalanches + 1 :=
              Nat.mod_eq_of_lt (by omega)
            rw [e2] at hb
            have hlen : s1.out.length = s.out.length + 1 := by rw [a1]; simp
            omega
          · rw [if_neg (by assumption)] at a2
            rw [a1, a2]
            exact ⟨hn, hlt⟩
        obtain ⟨b1, pre, post, b2, b3, b4, b5⟩ := ih s1 hs1.1 hs1.2 h
        refine ⟨?_, pre, post, ?_, b3, b4, b5⟩
        · intro p hp
          rcases List.mem_cons.1 hp with hp | hp
          · subst hp
            exact hlt
          · exact b1 p hp
        · rw [List.getLast?_cons, b2]
          rfl
      · have hrun : stsRun cfg (fuel + 1) s = ([(s, s1)], .stopped) := by
          simp [stsRun, hstep]
        rw [hrun]
        dsimp only
        obtain ⟨a1, a2, a3⟩ := stsStep_avalanche cfg s s1 true hf hstep
        have hb := of_decide_eq_true a3.symm
        split at a1
        · rw [if_pos (by assumption)] at a2
          have e1 : (s.num_avalanches + 1) % 2 ^ 32 = s.num_avalanches + 1 :=
            Nat.mod_eq_of_lt (by omega)
          rw [e1] at a2
          have e2 : (s1.num_avalanches + 1) % 2 ^ 32 = s1.num_avalanches + 1 :=
            Nat.mod_eq_of_lt (by omega)
          rw [e2] at hb
          have hlen : s1.out.length = s.out.length + 1 := by rw [a1]; simp
          refine ⟨?_, s, s1, rfl, by omega, by omega, by omega⟩
          intro p hp
          simp only [List.mem_singleton] at hp
          subst hp
          exact hlt
        · rw [if_neg (by assumption)] at a2
          have e2 : (s1.num_avalanches + 1) % 2 ^ 32 = s1.num_avalanches + 1 :=
            Nat.mod_eq_of_lt (by omega)
          rw [e2] at hb
          omega

/-- C5. Avalanche-count mode of `BN_STS`: for a configured count `A` with
`1 <= A < 2^32 - 1`, a run that stops has written exactly `A` avalanche records; the break is
taken on the very iteration that writes the `A`-th record (before it `A - 1` records were
written, after it `A`, and every iteration performed started with fewer than `A`); and the
run is the same for every horizon `T`. -/
theorem stops_on_configured_avalanche_count (A N fuel : Nat) (T : ℚ) (g : Rng)
    (h1 : 1 ≤ A) (h2 : A < 2 ^ 32 - 1)
    (hstop : (stsRun ⟨A, T⟩ fuel (stsInit N g)).2 = .stopped) :
    (∃ pre post, (stsRun ⟨A, T⟩ fuel (stsInit N g)).1.getLast? = some (pre, post) ∧
      pre.out.length + 1 = A ∧ post.out.length = A ∧ post.num_avalanches = A) ∧
    (∀ p ∈ (stsRun ⟨A, T⟩ fuel (stsInit N g)).1, p.1.out.length < A) ∧
    (∀ T1 : ℚ, stsRun ⟨A, T1⟩ fuel (stsInit N g) = stsRun ⟨A, T⟩ fuel (stsInit N g)) := by
  have hf : (⟨A, T⟩ : STSConfig).flag_avalanches = true := by
    simp only [STSConfig.flag_avalanches, decide_eq_true_eq]
    omega
  obtain ⟨a1, a2⟩ := stsRun_stops_at_count ⟨A, T⟩ hf h2 fuel (stsInit N g) rfl
    (by simp only [stsInit, List.length_nil]; omega) hstop
  exact ⟨a2, a1, fun T1 => stsRun_T_irrelevant A T1 T h1 fuel _⟩

theorem stops_on_configured_avalanche_count_witness :
    (stsRun ⟨2, 0⟩ 9 (stsInit 3 ⟨[1/2, 0], [0, 0]⟩)).2 = .stopped ∧
    (∃ pre post, (stsRun ⟨2, 0⟩ 9 (stsInit 3 ⟨[1/2, 0], [0, 0]⟩)).1.getLast? =
        some (pre, post) ∧
      pre.out.length + 1 = 2 ∧ post.out.length = 2 ∧ post.num_avalanches = 2) :=
  ⟨by decide!,
   (stops_on_configured_avalanche_count 2 3 9 0 ⟨[1/2, 0], [0, 0]⟩ (by decide) (by decide)
     (by decide!)).1⟩

theorem avalanche_step (cfg : STSConfig) (hf : cfg.flag_avalanches = true) (N : Nat)
    (s s1 : STSState) (b : Bool) (cur : List Nat) (hs : STSInv N s)
    (hcur : s.num_active ≠ 0 →
      0 < s.avalanche_size ∧ s.avalanche_time = cur.length ∧ s.avalanche_size = cur.sum)
    (h : stsStep cfg s = .ok (s1, b)) :
    s1.out = s.out ++
      (if s1.num_active = 0 then
        [((if s.num_active = 0 then [s1.num_active] else cur ++ [s1.num_active]).length - 1,
          (if s.num_active = 0 then [s1.num_active] else cur ++ [s1.num_active]).sum)]
       else []) ∧
    (s1.num_active ≠ 0 → 0 < s1.avalanche_size ∧
      s1.avalanche_time =
        (if s.num_active = 0 then [s1.num_active] else cur ++ [s1.num_active]).length ∧
      s1.avalanche_size =
        (if s.num_active = 0 then [s1.num_active] else cur ++ [s1.num_active]).sum) := by
  obtain ⟨-, hseed, hprop⟩ := stsStep_inv cfg N s s1 b hs h
  obtain ⟨a1, -, -⟩ := stsStep_avalanche cfg s s1 b hf h
  by_cases h0 : s.num_active = 0
  · obtain ⟨b1, -, b3, b4, -⟩ := hseed h0
    rw [if_pos h0, a1, b1, b3, b4]
    simp
  · obtain ⟨si, g1, -, -, -, b4, b5, -⟩ := hprop h0
    obtain ⟨c1, c2, c3⟩ := hcur h0
    rw [if_neg h0, a1, b4, b5, c2, c3, List.length_append, List.sum_append]
    simp only [List.length_singleton, List.sum_singleton]
    constructor
    · by_cases hz : s1.num_active = 0
      · rw [if_pos hz, if_pos ⟨by omega, hz⟩]
      · rw [if_neg hz, if_neg (fun hc => hz hc.2), List.append_nil]
    · intro _
      exact ⟨by omega, trivial, trivial⟩

theorem avalanche_records_from (cfg : STSConfig) (hf : cfg.flag_avalanches = true) (N : Nat) :
    ∀ (fuel : Nat) (s : STSState) (cur : List Nat), STSInv N s →
      (s.num_active ≠ 0 →
        0 < s.avalanche_size ∧ s.avalanche_time = cur.length ∧ s.avalanche_size = cur.sum) →
      (((stsRun cfg fuel s).1.getLast?.map (fun p => p.2.out)).getD s.out) =
        s.out ++ avalancheRecordsSpec
          ((stsRun cfg fuel s).1.map (fun p => (p.1.num_active, p.2.num_active))) cur := by
  intro fuel
  induction fuel with
  | zero =>
    intro s cur _ _
    simp [stsRun, avalancheRecordsSpec]
  | succ fuel ih =>
    intro s cur hs hcur
    rcases hstep : stsStep cfg s with e | ⟨s1, b⟩
    · simp [stsRun, hstep, avalancheRecordsSpec]
    · obtain ⟨a1, a2⟩ := avalanche_step cfg hf N s s1 b cur hs hcur hstep
      have hs1 := (stsStep_inv cfg N s s1 b hs hstep).1
      cases b
      · have hrun : stsRun cfg (fuel + 1) s =
            ((s, s1) :: (stsRun cfg fuel s1).1, (stsRun cfg fuel s1).2) := by
          simp [stsRun, hstep]
        have h3 := ih s1 _ hs1 a2
        rw [hrun]
        dsimp only
        rw [List.map_cons, List.getLast?_cons]
        dsimp only
        have e1 : (Option.map (fun p : STSState × STSState => p.2.out)
            (some ((stsRun cfg fuel s1).1.getLast?.getD (s, s1)))).getD s.out =
            ((stsRun cfg fuel s1).1.getLast?.map (fun p => p.2.out)).getD s1.out := by
          cases (stsRun cfg fuel s1).1.getLast? <;> rfl
        rw [e1, h3, a1, avalancheRecordsSpec]
        by_cases hz : s1.num_active = 0
        · rw [if_pos hz, if_pos hz]
          simp
        · rw [if_neg hz, if_neg hz]
          simp
      · have hrun : stsRun cfg (fuel + 1) s = ([(s, s1)], .stopped) := by
          simp [stsRun, hstep]
        rw [hrun]
        dsimp only
        have e0 : (Option.map (fun p : STSState × STSState => p.2.out)
            [(s, s1)].getLast?).getD s.out = s1.out := rfl
        rw [List.map_cons, List.map_nil, e0]
        dsimp only
        rw [avalancheRecordsSpec, a1]
        by_cases hz : s1.num_active = 0
        · rw [if_pos hz, if_pos hz]
          simp [avalancheRecordsSpec]
        · rw [if_neg hz, if_neg hz]
          simp [avalancheRecordsSpec]

/-- The values of the avalanche records of `BN_STS`, before they are turned into text: the
pairs streamed by a run in avalanche mode are one per avalanche, an avalanche being the steps
from a seeding step (a step that starts with `num_active == 0`) up to and including the first
later step after which `num_active` is 0 again, with size the sum of `num_active` over those
steps and duration the number of those steps minus one. -/
theorem avalanche_values_match_spec (A N fuel : Nat) (T : ℚ) (g : Rng) (hA : 1 ≤ A) :
    finalOut STSState.out (stsRun ⟨A, T⟩ fuel (stsInit N g)).1 =
      avalancheRecordsSpec
        ((stsRun ⟨A, T⟩ fuel (stsInit N g)).1.map
          (fun p => (p.1.num_active, p.2.num_active))) [] := by
  have hf : (⟨A, T⟩ : STSConfig).flag_avalanches = true := by
    simp only [STSConfig.flag_avalanches, decide_eq_true_eq]
    omega
  have h := avalanche_records_from ⟨A, T⟩ hf N fuel (stsInit N g) [] (stsInit_inv N g)
    (fun h => absurd rfl h)
  rw [← show ([] : List (Nat × Nat)) ++ avalancheRecordsSpec
        ((stsRun ⟨A, T⟩ fuel (stsInit N g)).1.map
          (fun p => (p.1.num_active, p.2.num_active))) [] = _ from List.nil_append _]
  rw [← show (stsInit N g).out = [] from rfl, ← h]
  unfold finalOut
  cases (stsRun ⟨A, T⟩ fuel (stsInit N g)).1.getLast? <;> rfl

theorem avalanche_values_match_spec_example :
    (stsRun ⟨1, 0⟩ 5 (stsInit 2 ⟨[0, 1/2], [1, 0]⟩)).1.map
      (fun p => (p.1.num_active, p.2.num_active)) = [(0, 1), (1, 1), (1, 0)] ∧
    finalOut STSState.out (stsRun ⟨1, 0⟩ 5 (stsInit 2 ⟨[0, 1/2], [1, 0]⟩)).1 = [(2, 2)] ∧
    finalOut STSState.out (stsRun ⟨1, 0⟩ 5 (stsInit 2 ⟨[0, 1/2], [1, 0]⟩)).1 =
      avalancheRecordsSpec
        ((stsRun ⟨1, 0⟩ 5 (stsInit 2 ⟨[0, 1/2], [1, 0]⟩)).1.map
          (fun p => (p.1.num_active, p.2.num_active))) [] :=
  ⟨by decide!, by decide!,
   avalanche_values_match_spec 1 2 5 0 ⟨[0, 1/2], [1, 0]⟩ (by decide)⟩

/-! ## Zero synaptic strength and zero drive -/

theorem sampleLoop_zero (size : Nat) (us : List ℚ) (j : Nat) (nc st : List Nat) :
    sampleLoop size 0 us j nc st = .ok (nc, st, us) := by
  cases us <;> simp [sampleLoop]

theorem propagateSTS_zero (size : Nat) : ∀ (xs st : List Nat) (g : Rng) (si : List Nat)
    (g1 : Rng), (∀ k ∈ g.bin, k = 0) → propagateSTS size xs st g = .ok (si, g1) →
    si = st ∧ ∀ k ∈ g1.bin, k = 0 := by
  intro xs
  induction xs with
  | nil =>
    intro st g si g1 hg h
    simp only [propagateSTS, Except.ok.injEq, Prod.mk.injEq] at h
    rw [← h.1, ← h.2]
    exact ⟨rfl, hg⟩
  | cons x xs ih =>
    intro st g si g1 hg h
    unfold propagateSTS at h
    split at h
    · split at h
      · cases h
      · rename_i k bin hbin
        have hk : k = 0 := hg k (by rw [hbin]; exact List.mem_cons_self _ _)
        subst hk
        rw [sampleLoop_zero] at h
        dsimp only at h
        refine ih _ _ _ _ ?_ h
        intro k hk
        exact hg k (by rw [hbin]; exact List.mem_cons_of_mem _ hk)
    · exact ih _ _ _ _ hg h

theorem stsStep_zero_strength (cfg : STSConfig) (hf : cfg.flag_avalanches = true) (N : Nat)
    (s s1 : STSState) (b : Bool)
    (hs : STSInv N s ∧ (∀ k ∈ s.rng.bin, k = 0) ∧ (∀ r ∈ s.out, r = (1, 1)) ∧
      (s.num_active ≠ 0 → s.avalanche_time = 1 ∧ s.avalanche_size = 1))
    (h : stsStep cfg s = .ok (s1, b)) :
    STSInv N s1 ∧ (∀ k ∈ s1.rng.bin, k = 0) ∧ (∀ r ∈ s1.out, r = (1, 1)) ∧
      (s1.num_active ≠ 0 → s1.avalanche_time = 1 ∧ s1.avalanche_size = 1) := by
  obtain ⟨hinv, hbin, hout, hav⟩ := hs
  obtain ⟨hinv1, hseed, hprop⟩ := stsStep_inv cfg N s s1 b hinv h
  obtain ⟨a1, -, -⟩ := stsStep_avalanche cfg s s1 b hf h
  by_cases h0 : s.num_active = 0
  · obtain ⟨b1, -, b3, b4, b5⟩ := hseed h0
    rw [if_neg (fun hc => by omega)] at a1
    refine ⟨hinv1, by rw [b5]; exact hbin, by rw [a1]; exact hout, fun _ => ⟨b3, b4⟩⟩
  · obtain ⟨si, g1, c1, c2, -, c4, c5, c6⟩ := hprop h0
    obtain ⟨d1, d2⟩ := propagateSTS_zero N _ _ _ _ _ hbin c1
    have hna : s1.num_active = 0 := by
      rw [c2, d1, hinv.2.1]
      simp [List.countP_replicate]
    obtain ⟨e1, e2⟩ := hav h0
    rw [e1] at c4
    rw [e2, hna] at c5
    rw [if_pos ⟨by omega, hna⟩, c4, c5] at a1
    refine ⟨hinv1, by rw [c6]; exact d2, ?_, fun hc => absurd hna hc⟩
    intro r hr
    rw [a1] at hr
    rcases List.mem_append.1 hr with hr | hr
    · exact hout r hr
    · simpa using hr


theorem countP_pos_eq_count_one (l : List Nat) (h : ∀ x ∈ l, x ≤ 1) :
    l.countP (fun x => decide (x > 0)) = l.count 1 := by
  induction l with
  | nil => rfl
  | cons x xs ih =>
    have hx : x ≤ 1 := h x (List.mem_cons_self _ _)
    have ih1 := ih (fun y hy => h y (List.mem_cons_of_mem _ hy))
    rcases Nat.le_one_iff_eq_zero_or_eq_one.1 hx with h0 | h1
    · subst h0
      simp [List.countP_cons, List.count_cons, ih1]
    · subst h1
      simp [List.countP_cons, List.count_cons, ih1]

theorem propagateSTS_zero_ok (size : Nat) : ∀ (xs st : List Nat) (g : Rng),
    (∀ k ∈ g.bin, k = 0) → xs.countP (fun x => decide (x > 0)) ≤ g.bin.length →
    propagateSTS size xs st g =
      .ok (st, ⟨g.uni, g.bin.drop (xs.countP (fun x => decide (x > 0)))⟩) := by
  intro xs
  induction xs with
  | nil =>
    intro st g _ _
    simp [propagateSTS]
  | cons x xs ih =>
    intro st g hg hlen
    by_cases hx : x > 0
    · have hd : decide (x > 0) = true := decide_eq_true hx
      rw [List.countP_cons, hd, if_pos rfl] at hlen ⊢
      rcases hbin : g.bin with _ | ⟨k, bin⟩
      · rw [hbin] at hlen
        simp at hlen
      · have hk : k = 0 := hg k (by rw [hbin]; exact List.mem_cons_self _ _)
        subst hk
        rw [propagateSTS, if_pos hx, hbin]
        dsimp only
        rw [sampleLoop_zero]
        dsimp only
        rw [ih st ⟨g.uni, bin⟩
          (fun k hk => hg k (by rw [hbin]; exact List.mem_cons_of_mem _ hk))
          (by rw [hbin] at hlen; simpa using hlen)]
        rfl
    · have hd : decide (x > 0) = false := decide_eq_false hx
      rw [List.countP_cons, hd] at hlen ⊢
      rw [propagateSTS, if_neg hx]
      simpa using ih st g hg (by simpa using hlen)

theorem stsStep_seed_ok (cfg : STSConfig) (s : STSState) (u : ℚ) (us : List ℚ)
    (h0 : s.num_active = 0) (huni : s.rng.uni = u :: us)
    (hlt : targetIndex u s.neuron.length < s.neuron.length) :
    ∃ s1 b, stsStep cfg s = .ok (s1, b) ∧ s1.rng = ⟨us, s.rng.bin⟩ := by
  have hupd : stsUpdate s =
      .ok { s with neuron := s.neuron.set (targetIndex u s.neuron.length) 1,
                   num_active := 1, num_active_int := 0,
                   avalanche_time := 0, avalanche_size := 0,
                   rng := ⟨us, s.rng.bin⟩ } := by
    unfold stsUpdate
    rw [if_pos h0, huni]
    dsimp only
    rw [if_pos hlt]
  refine ⟨_, _, by rw [stsStep, hupd], ?_⟩
  exact (stsEmit_fields cfg _).2.2.2.2.1

theorem stsStep_propagate_ok (cfg : STSConfig) (s : STSState) (si : List Nat) (g : Rng)
    (h0 : s.num_active ≠ 0)
    (hp : propagateSTS s.neuron.length s.neuron s.stimulus_int s.rng = .ok (si, g)) :
    ∃ s1 b, stsStep cfg s = .ok (s1, b) := by
  have hupd : ∃ s1, stsUpdate s = .ok s1 := by
    unfold stsUpdate
    rw [if_neg h0, hp]
    exact ⟨_, rfl⟩
  obtain ⟨s1, hs1⟩ := hupd
  exact ⟨_, _, by rw [stsStep, hs1]⟩

theorem zero_strength_two_steps (A N : Nat) (T : ℚ) (hA : A < 2 ^ 32 - 1) (hN : 1 ≤ N)
    (s : STSState) (j : Nat) (u : ℚ) (us : List ℚ) (bs : List Nat)
    (hinv : STSInv N s) (h0 : s.num_active = 0) (hj : j < A)
    (hna : s.num_avalanches = j) (hout : s.out = List.replicate j (1, 1))
    (huni : s.rng.uni = u :: us) (hu : 0 ≤ u ∧ u < 1)
    (hbin : s.rng.bin = 0 :: bs) (hbs : ∀ k ∈ bs, k = 0) :
    ∃ s1 s2, stsStep ⟨A, T⟩ s = .ok (s1, false) ∧
      stsStep ⟨A, T⟩ s1 = .ok (s2, decide (A ≤ j + 1)) ∧
      STSInv N s2 ∧ s2.num_active = 0 ∧ s2.num_avalanches = j + 1 ∧
      s2.out = List.replicate (j + 1) (1, 1) ∧ s2.rng = ⟨us, bs⟩ := by
  have hf : (⟨A, T⟩ : STSConfig).flag_avalanches = true := by
    simp only [STSConfig.flag_avalanches, decide_eq_true_eq]
    omega
  have hlt : targetIndex u s.neuron.length < s.neuron.length := by
    rw [hinv.1]
    exact targetIndex_lt u N hN hu.1 hu.2
  obtain ⟨s1, b1, hstep1, hrng1⟩ := stsStep_seed_ok ⟨A, T⟩ s u us h0 huni hlt
  obtain ⟨hinv1, hseed, -⟩ := stsStep_inv ⟨A, T⟩ N s s1 b1 hinv hstep1
  obtain ⟨a1, a3, a4, a5, -⟩ := hseed h0
  obtain ⟨o1, o2, o3⟩ := stsStep_avalanche ⟨A, T⟩ s s1 b1 hf hstep1
  rw [if_neg (fun hc => by omega)] at o1 o2
  have hb1 : b1 = false := by
    rw [o3, o2, hna]
    have e : (j + 1) % 2 ^ 32 = j + 1 := Nat.mod_eq_of_lt (by omega)
    rw [e]
    exact decide_eq_false (by show ¬ (j + 1 > A); omega)
  subst hb1
  have hne : s1.num_active ≠ 0 := by omega
  have hbin1 : s1.rng.bin = 0 :: bs := by rw [hrng1, hbin]
  have hzero1 : ∀ k ∈ s1.rng.bin, k = 0 := by
    intro k hk
    rw [hbin1] at hk
    rcases List.mem_cons.1 hk with hk | hk
    · exact hk
    · exact hbs k hk
  have hcnt : s1.neuron.countP (fun x => decide (x > 0)) = 1 := by
    rw [countP_pos_eq_count_one _ hinv1.2.2.1, ← hinv1.2.2.2.1, a1]
  have hp := propagateSTS_zero_ok s1.neuron.length s1.neuron s1.stimulus_int s1.rng hzero1
    (by rw [hcnt, hbin1]; simp)
  rw [hcnt, hbin1, hrng1] at hp
  obtain ⟨s2, b2, hstep2⟩ := stsStep_propagate_ok ⟨A, T⟩ s1 _ _ hne (by rw [hrng1]; exact hp)
  obtain ⟨hinv2, -, hprop⟩ := stsStep_inv ⟨A, T⟩ N s1 s2 b2 hinv1 hstep2
  obtain ⟨si, g1, c1, c2, -, c4, c5, c6⟩ := hprop hne
  rw [hinv1.1] at hp
  rw [hrng1, hp] at c1
  injection c1 with c1
  simp only [Prod.mk.injEq] at c1
  obtain ⟨c1a, c1b⟩ := c1
  have hna2 : s2.num_active = 0 := by
    rw [c2, ← c1a, hinv1.2.1]
    simp [List.countP_replicate]
  obtain ⟨p1, p2, p3⟩ := stsStep_avalanche ⟨A, T⟩ s1 s2 b2 hf hstep2
  rw [a4] at c4
  rw [a5, hna2] at c5
  rw [if_pos ⟨by omega, hna2⟩] at p1 p2
  have e1 : (j + 1) % 2 ^ 32 = j + 1 := Nat.mod_eq_of_lt (by omega)
  have e2 : (j + 1 + 1) % 2 ^ 32 = j + 1 + 1 := Nat.mod_eq_of_lt (by omega)
  rw [o2, hna, e1] at p2
  rw [p2, e2] at p3
  have hb2 : b2 = decide (A ≤ j + 1) := by
    rw [p3]
    congr 1
    simp only [gt_iff_lt, eq_iff_iff]
    omega
  subst hb2
  refine ⟨s1, s2, hstep1, hstep2, hinv2, hna2, p2, ?_, ?_⟩
  · rw [p1, o1, hout, c4, c5, List.replicate_succ']
  · rw [c6, ← c1b]
    rfl

theorem zero_strength_run_stops (A N : Nat) (T : ℚ) (hA : A < 2 ^ 32 - 1) (hN : 1 ≤ N) :
    ∀ (d fuel : Nat) (s : STSState), 1 ≤ d → 2 * d ≤ fuel → STSInv N s →
      s.num_active = 0 → s.num_avalanches + d = A →
      s.out = List.replicate s.num_avalanches (1, 1) →
      d ≤ s.rng.uni.length → d ≤ s.rng.bin.length →
      (∀ u ∈ s.rng.uni, 0 ≤ u ∧ u < 1) → (∀ k ∈ s.rng.bin, k = 0) →
      (stsRun ⟨A, T⟩ fuel s).2 = .stopped ∧
      finalOut STSState.out (stsRun ⟨A, T⟩ fuel s).1 = List.replicate A (1, 1) ∧
      (stsRun ⟨A, T⟩ fuel s).1.length = 2 * d := by
  intro d
  induction d with
  | zero =>
    intro fuel s h1
    omega
  | succ d ih =>
    intro fuel s _ hfuel hinv h0 hsum hout huni hbin hu hk
    obtain ⟨fuel, rfl⟩ : ∃ f, fuel = f + 2 := ⟨fuel - 2, by omega⟩
    rcases hun : s.rng.uni with _ | ⟨u, us⟩
    · rw [hun] at huni
      simp at huni
    rcases hbn : s.rng.bin with _ | ⟨k, bs⟩
    · rw [hbn] at hbin
      simp at hbin
    have hk0 : k = 0 := hk k (by rw [hbn]; exact List.mem_cons_self _ _)
    subst hk0
    have hbs : ∀ k ∈ bs, k = 0 :=
      fun k hk1 => hk k (by rw [hbn]; exact List.mem_cons_of_mem _ hk1)
    obtain ⟨s1, s2, st1, st2, i2, n2, a2, o2, r2⟩ :=
      zero_strength_two_steps A N T hA hN s s.num_avalanches u us bs hinv h0 (by omega) rfl
        hout hun (hu u (by rw [hun]; exact List.mem_cons_self _ _)) hbn hbs
    have hrun1 : stsRun ⟨A, T⟩ (fuel + 2) s =
        ((s, s1) :: (stsRun ⟨A, T⟩ (fuel + 1) s1).1, (stsRun ⟨A, T⟩ (fuel + 1) s1).2) := by
      rw [stsRun, st1]
    by_cases hd : d = 0
    · have hb : decide (A ≤ s.num_avalanches + 1) = true := decide_eq_true (by omega)
      rw [hb] at st2
      have hrun2 : stsRun ⟨A, T⟩ (fuel + 1) s1 = ([(s1, s2)], .stopped) := by
        rw [stsRun, st2]
      rw [hrun1, hrun2]
      refine ⟨rfl, ?_, by rw [hd]; rfl⟩
      show s2.out = _
      rw [o2]
      congr 1
      omega
    · have hb : decide (A ≤ s.num_avalanches + 1) = false := decide_eq_false (by omega)
      rw [hb] at st2
      have hrun2 : stsRun ⟨A, T⟩ (fuel + 1) s1 =
          ((s1, s2) :: (stsRun ⟨A, T⟩ fuel s2).1, (stsRun ⟨A, T⟩ fuel s2).2) := by
        rw [stsRun, st2]
      have hu2 : ∀ v ∈ s2.rng.uni, 0 ≤ v ∧ v < 1 := by
        intro v hv
        rw [r2] at hv
        exact hu v (by rw [hun]; exact List.mem_cons_of_mem _ hv)
      have hk2 : ∀ k ∈ s2.rng.bin, k = 0 := by
        intro k hk1
        rw [r2] at hk1
        exact hbs k hk1
      obtain ⟨b1, b2, b3⟩ := ih fuel s2 (by omega) (by omega) i2 n2 (by omega)
        (by rw [a2]; exact o2)
        (by rw [r2]; rw [hun] at huni; simp at huni ⊢; omega)
        (by rw [r2]; rw [hbn] at hbin; simp at hbin ⊢; omega) hu2 hk2
      rw [hrun1, hrun2]
      dsimp only
      refine ⟨b1, ?_, by rw [List.length_cons, List.length_cons, b3]; omega⟩
      rw [← b2]
      unfold finalOut
      rw [List.getLast?_cons_cons, List.getLast?_cons]
      cases hl : (stsRun ⟨A, T⟩ fuel s2).1.getLast? with
      | none =>
        have hnil : (stsRun ⟨A, T⟩ fuel s2).1 = [] := List.getLast?_eq_none_iff.1 hl
        rw [hnil] at b3
        simp only [List.length_nil] at b3
        omega
      | some q => rfl

/-- C6. `BN_STS` with zero synaptic strength: when every binomial out-degree draw is 0 (as
for `m = 0`, `p_std = 0`), then for every population size, every list of uniform draws (every
seed index) and every avalanche count `A >= 1`, every avalanche record written by any run is
`(duration, size) = (1, 1)`.  Moreover, for `N >= 1`, `A < 2^32 - 1`, uniform draws in
`[0,1)`, at least `A` draws of either kind and at least `2 A` iterations allowed, the run
stops and has written exactly `A` records `(1, 1)`. -/
theorem zero_strength_avalanches (A N fuel : Nat) (T : ℚ) (g : Rng) (hA : 1 ≤ A)
    (hbin : ∀ k ∈ g.bin, k = 0) :
    (∀ r ∈ finalOut STSState.out (stsRun ⟨A, T⟩ fuel (stsInit N g)).1, r = (1, 1)) ∧
    (1 ≤ N → A < 2 ^ 32 - 1 → (∀ u ∈ g.uni, 0 ≤ u ∧ u < 1) → A ≤ g.uni.length →
      A ≤ g.bin.length → 2 * A ≤ fuel →
      (stsRun ⟨A, T⟩ fuel (stsInit N g)).2 = .stopped ∧
      finalOut STSState.out (stsRun ⟨A, T⟩ fuel (stsInit N g)).1 =
        List.replicate A (1, 1)) := by
  have hf : (⟨A, T⟩ : STSConfig).flag_avalanches = true := by
    simp only [STSConfig.flag_avalanches, decide_eq_true_eq]
    omega
  constructor
  · intro r hr
    unfold finalOut at hr
    split at hr
    · rename_i p hp
      obtain ⟨h1, b, h2⟩ := stsRun_steps ⟨A, T⟩ _
        (fun s s1 b hs h => stsStep_zero_strength ⟨A, T⟩ hf N s s1 b hs h) fuel (stsInit N g)
        ⟨stsInit_inv N g, hbin, by simp [stsInit], fun hc => absurd rfl hc⟩ p
        (List.mem_of_mem_getLast? hp)
      exact (stsStep_zero_strength ⟨A, T⟩ hf N _ _ b h1 h2).2.2.1 r hr
    · simp at hr
  · intro hN hA2 hu hlu hlb hfuel
    obtain ⟨a1, a2, -⟩ := zero_strength_run_stops A N T hA2 hN A fuel (stsInit N g) hA hfuel
      (stsInit_inv N g) rfl (by simp [stsInit]) rfl hlu hlb hu hbin
    exact ⟨a1, a2⟩

theorem zero_strength_avalanches_witness :
    (∀ r ∈ finalOut STSState.out
        (stsRun ⟨3, 0⟩ 6 (stsInit 100 ⟨[7/100, 1/2, 99/100], [0, 0, 0]⟩)).1, r = (1, 1)) ∧
    (stsRun ⟨3, 0⟩ 6 (stsInit 100 ⟨[7/100, 1/2, 99/100], [0, 0, 0]⟩)).2 = .stopped ∧
    finalOut STSState.out (stsRun ⟨3, 0⟩ 6 (stsInit 100 ⟨[7/100, 1/2, 99/100], [0, 0, 0]⟩)).1
      = List.replicate 3 (1, 1) :=
  ⟨(zero_strength_avalanches 3 100 6 0 ⟨[7/100, 1/2, 99/100], [0, 0, 0]⟩ (by decide)
      (by decide)).1,
   (zero_strength_avalanches 3 100 6 0 ⟨[7/100, 1/2, 99/100], [0, 0, 0]⟩ (by decide)
      (by decide)).2 (by decide) (by decide) (by decide!) (by decide) (by decide) (by decide)⟩

theorem lambda_zero : lambda 0 = 0 := by
  simp [lambda]

theorem propagateDriven_zero (size na : Nat) :
    ∀ (xs : List Nat) (n : Nat) (si se : List Nat) (g : Rng) (si1 se1 : List Nat) (g1 : Rng),
      (∀ x ∈ xs, x = 0) → (∀ u ∈ g.uni, 0 ≤ u) →
      propagateDriven size na 0 xs n si se g = .ok (si1, se1, g1) →
      si1 = si ∧ se1 = se ∧ g1.bin = g.bin ∧ ∀ u ∈ g1.uni, 0 ≤ u := by
  intro xs
  induction xs with
  | nil =>
    intro n si se g si1 se1 g1 _ hu h
    simp only [propagateDriven, Except.ok.injEq, Prod.mk.injEq] at h
    rw [← h.1, ← h.2.1, ← h.2.2]
    exact ⟨rfl, rfl, rfl, hu⟩
  | cons x xs ih =>
    intro n si se g si1 se1 g1 hx hu h
    have hx0 : x = 0 := hx x (List.mem_cons_self _ _)
    have hxs : ∀ y ∈ xs, y = 0 := fun y hy => hx y (List.mem_cons_of_mem _ hy)
    subst hx0
    unfold propagateDriven at h
    simp only [gt_iff_lt, Nat.lt_irrefl, if_false] at h
    split at h
    · cases h
    · rename_i u uni huni
      have hu0 : 0 ≤ u := hu u (by rw [huni]; exact List.mem_cons_self _ _)
      have huni1 : ∀ v ∈ uni, 0 ≤ v :=
        fun v hv => hu v (by rw [huni]; exact List.mem_cons_of_mem _ hv)
      rw [if_neg (not_lt.2 hu0)] at h
      exact ih _ _ _ ⟨uni, g.bin⟩ _ _ _ hxs huni1 h

theorem drivenStep_zero_drive (T : ℚ) (N : Nat) (bin : List Nat) (s s1 : DrivenState)
    (b : Bool)
    (hs : DrivenInv N s ∧ (∀ x ∈ s.neuron, x = 0) ∧ s.rng.bin = bin ∧
      (∀ u ∈ s.rng.uni, 0 ≤ u) ∧ ∀ r ∈ s.out, r = (0, 0))
    (h : drivenStep T 0 s = .ok (s1, b)) :
    (DrivenInv N s1 ∧ (∀ x ∈ s1.neuron, x = 0) ∧ s1.rng.bin = bin ∧
      (∀ u ∈ s1.rng.uni, 0 ≤ u) ∧ ∀ r ∈ s1.out, r = (0, 0)) ∧
    s1.num_active = 0 ∧ s1.num_active_int = 0 := by
  obtain ⟨hinv, hx, hbin, hu, hout⟩ := hs
  obtain ⟨hinv1, si, se, g1, a1, -, -, a4, a5, a6, a7, -, a9, -⟩ :=
    drivenStep_inv T 0 N s s1 b hinv h
  obtain ⟨b1, b2, b3, b4⟩ := propagateDriven_zero N _ _ _ _ _ _ _ _ _ hx hu a1
  have hz : si.zip se = List.replicate N (0, 0) := by
    rw [b1, b2, hinv.2.1, hinv.2.2.1, List.zip_replicate]
    simp
  have hna : s1.num_active = 0 := by
    rw [a4, hz]
    simp [List.countP_replicate]
  have hnai : s1.num_active_int = 0 := by
    rw [a5, hz]
    simp [List.countP_replicate]
  refine ⟨⟨hinv1, ?_, by rw [a7, b3, hbin], by rw [a7]; exact b4, ?_⟩, hna, hnai⟩
  · intro x hx1
    rw [a6, hz] at hx1
    obtain ⟨q, hq, rfl⟩ := List.mem_map.1 hx1
    rw [List.eq_of_mem_replicate hq]
    rfl
  · intro r hr
    rw [a9, hna, hnai] at hr
    rcases List.mem_append.1 hr with hr | hr
    · exact hout r hr
    · simpa using hr

/-- C7. `BNcc_driven` with zero drive: when `h = 0`, so that `lambda(h) = 0`, and the run
starts from the all-inactive state, then for every `N`, `T` and every list of uniform draws
in `[0,1)` no unit is ever activated: after every iteration `num_active = 0` and
`num_active_int = 0`, every flag `neuron[n]` is 0, every record written is `(0, 0)`, and no
binomial draw has been made (the list of binomial draws is untouched). -/
theorem zero_drive_stays_inactive (N fuel : Nat) (T lam : ℚ) (h : ℝ) (g : Rng)
    (hh : h = 0) (hlam : (lam : ℝ) = lambda h) (hu : ∀ u ∈ g.uni, 0 ≤ u ∧ u < 1) :
    ∀ p ∈ (drivenRun T lam fuel (drivenInit N g)).1,
      p.2.num_active = 0 ∧ p.2.num_active_int = 0 ∧ (∀ x ∈ p.2.neuron, x = 0) ∧
      p.2.rng.bin = g.bin ∧ ∀ r ∈ p.2.out, r = (0, 0) := by
  have hl : lam = 0 := by
    rw [hh, lambda_zero] at hlam
    exact_mod_cast hlam
  subst hl
  intro p hp
  obtain ⟨h1, b, h2⟩ := drivenRun_steps T 0 _
    (fun s s1 b hs hstep => (drivenStep_zero_drive T N g.bin s s1 b hs hstep).1) fuel
    (drivenInit N g)
    ⟨drivenInit_inv N g, fun x hx => List.eq_of_mem_replicate hx, rfl,
      fun u hu1 => (hu u hu1).1, by simp [drivenInit]⟩ p hp
  obtain ⟨⟨-, c2, c3, -, c5⟩, c6, c7⟩ := drivenStep_zero_drive T N g.bin _ _ b h1 h2
  exact ⟨c6, c7, c2, c3, c5⟩

theorem zero_drive_stays_inactive_witness :
    (drivenRun 5 0 9 (drivenInit 10 ⟨List.replicate 60 (1/2), [3]⟩)).2 = .stopped ∧
    (drivenRun 5 0 9 (drivenInit 10 ⟨List.replicate 60 (1/2), [3]⟩)).1.map
      (fun p => (p.2.num_active, p.2.num_active_int)) =
        [(0, 0), (0, 0), (0, 0), (0, 0), (0, 0), (0, 0)] ∧
    ∀ p ∈ (drivenRun 5 0 9 (drivenInit 10 ⟨List.replicate 60 (1/2), [3]⟩)).1,
      p.2.num_active = 0 ∧ p.2.num_active_int = 0 ∧ (∀ x ∈ p.2.neuron, x = 0) ∧
      p.2.rng.bin = [3] ∧ ∀ r ∈ p.2.out, r = (0, 0) :=
  ⟨by decide!, by decide!,
   zero_drive_stays_inactive 10 9 5 0 0 ⟨List.replicate 60 (1/2), [3]⟩ rfl
     (by rw [lambda_zero]; exact Rat.cast_zero) (by decide!)⟩

/-! ## Number of iterations of the driven loop, and the layout of the output -/

theorem drivenRun_step_count (T : Nat) (lam : ℚ) (hT : T + 1 < 2 ^ 32) :
    ∀ (fuel : Nat) (s : DrivenState), s.time ≤ T → s.out.length = s.time →
      (drivenRun (T : ℚ) lam fuel s).2 = .stopped →
      (drivenRun (T : ℚ) lam fuel s).1.length + s.time = T + 1 ∧
      (finalOut DrivenState.out (drivenRun (T : ℚ) lam fuel s).1).length = T + 1 := by
  intro fuel
  induction fuel with
  | zero =>
    intro s _ _ h
    simp [drivenRun] at h
  | succ fuel ih =>
    intro s ht hout h
    rcases hstep : drivenStep (T : ℚ) lam s with e | ⟨s1, b⟩
    · simp [drivenRun, hstep] at h
    · have hfacts : s1.time = s.time + 1 ∧ s1.out.length = s.out.length + 1 ∧
          b = decide (T < s.time + 1) := by
        unfold drivenStep at hstep
        split at hstep
        · cases hstep
        · injection hstep with hstep
          simp only [Prod.mk.injEq] at hstep
          obtain ⟨e1, e2⟩ := hstep
          have hm : (s.time + 1) % 2 ^ 32 = s.time + 1 := Nat.mod_eq_of_lt (by omega)
          rw [hm] at e1 e2
          subst e1
          refine ⟨rfl, by simp, ?_⟩
          rw [← e2]
          congr 1
          simp only [gt_iff_lt, Nat.cast_lt, eq_iff_iff]
      obtain ⟨f1, f2, f3⟩ := hfacts
      cases b
      · have hrun : drivenRun (T : ℚ) lam (fuel + 1) s =
            ((s, s1) :: (drivenRun (T : ℚ) lam fuel s1).1,
              (drivenRun (T : ℚ) lam fuel s1).2) := by
          simp [drivenRun, hstep]
        rw [hrun] at h ⊢
        dsimp only at h ⊢
        have hlt := of_decide_eq_false f3.symm
        obtain ⟨g1, g2⟩ := ih s1 (by omega) (by omega) h
        refine ⟨by rw [List.length_cons]; omega, ?_⟩
        rw [← g2]
        unfold finalOut
        rw [List.getLast?_cons]
        cases hl : (drivenRun (T : ℚ) lam fuel s1).1.getLast? with
        | none =>
          have : (drivenRun (T : ℚ) lam fuel s1).1 = [] := List.getLast?_eq_none_iff.1 hl
          rw [this] at g1
          simp only [List.length_nil] at g1
          have hlt2 : s.time + 1 ≤ T := by omega
          omega
        | some q => rfl
      · have hrun : drivenRun (T : ℚ) lam (fuel + 1) s = ([(s, s1)], .stopped) := by
          simp [drivenRun, hstep]
        rw [hrun]
        dsimp only
        have hlt := of_decide_eq_true f3.symm
        refine ⟨by rw [List.length_singleton]; omega, ?_⟩
        show s1.out.length = T + 1
        omega

/-- C4, the code at the failing input `T = 1` (`N = 1`, `lambda(h) = 1/2`): the loop of
`BNcc_driven` stops after two iterations, not one, and has written two records. -/
theorem driven_horizon_one_runs_two_steps :
    (drivenRun 1 (1/2) 9 (drivenInit 1 ⟨[0, 3/4], [0]⟩)).2 = .stopped ∧
    (drivenRun 1 (1/2) 9 (drivenInit 1 ⟨[0, 3/4], [0]⟩)).1.length = 2 ∧
    finalOut DrivenState.out (drivenRun 1 (1/2) 9 (drivenInit 1 ⟨[0, 3/4], [0]⟩)).1 =
      [(1, 0), (0, 0)] := by
  decide!

/-- C10, the code at a failing input: the time-series header ends without a newline, so the
first record is appended to the comment line `# N_a\t N_int`.  For the two-iteration runs
below (`BNcc_driven` with `T = 1`, `BN_STS` with `T = 2`) the lines of the text that do not
begin with `#` hold only the second record, while two records were produced. -/
theorem first_series_record_joins_header :
    (expectedLines (finalOut DrivenState.out
        (drivenRun 1 (1/2) 9 (drivenInit 1 ⟨[0, 3/4], [0]⟩)).1) = ["1 0", "0 0"] ∧
      dataLines (drivenText 1 (1/2) 9 1 ⟨[0, 3/4], [0]⟩) = ["0 0"]) ∧
    (expectedLines (finalOut STSState.out (stsRun ⟨0, 2⟩ 9 (stsInit 2 exampleRng)).1) =
        ["1 0", "1 1"] ∧
      dataLines (stsSeriesText 2 9 2 exampleRng) = ["1 1"]) ∧
    (splitLines (drivenText 1 (1/2) 9 1 ⟨[0, 3/4], [0]⟩).data []).map String.mk =
      ["#N_a = number of active sites at time step t",
       "#N_int = number of internally activated sites at time step t+1 (excluding external drive)",
       "# N_a\t N_int1 0", "0 0"] ∧
    dataLines (avalancheHeader ++ "1 1\n") = ["1 1"] := by
  decide!

/-! ## Integration and sampler index of the driven loop -/

theorem getD_map_zip (f : Nat × Nat → Nat) : ∀ (si se : List Nat) (n : Nat),
    si.length = se.length → n < si.length →
    ((si.zip se).map f).getD n 0 = f (si.getD n 0, se.getD n 0) := by
  intro si
  induction si with
  | nil =>
    intro se n _ hn
    simp at hn
  | cons a si ih =>
    intro se n hlen hn
    cases se with
    | nil => simp at hlen
    | cons b se =>
      cases n with
      | zero => rfl
      | succ n =>
        have h1 : si.length = se.length := by simpa using hlen
        have h2 : n < si.length := by simpa using hn
        simpa using ih se n h1 h2

theorem countP_zip_snd (p : Nat → Bool) : ∀ (si se : List Nat), si.length = se.length →
    (si.zip se).countP (fun q => p q.2) = se.countP p := by
  intro si
  induction si with
  | nil =>
    intro se hlen
    cases se with
    | nil => rfl
    | cons b se => simp at hlen
  | cons a si ih =>
    intro se hlen
    cases se with
    | nil => simp at hlen
    | cons b se =>
      have h1 : si.length = se.length := by simpa using hlen
      rw [List.zip_cons_cons, List.countP_cons, List.countP_cons, ih se h1]

theorem countP_active_split (qs : List (Nat × Nat)) :
    qs.countP (fun q => decide (q.1 > 0 ∨ q.2 > 0)) =
      qs.countP (fun q => decide (q.1 > 0 ∧ q.2 = 0)) +
        qs.countP (fun q => decide (q.2 > 0)) := by
  induction qs with
  | nil => rfl
  | cons q qs ih =>
    rw [List.countP_cons, List.countP_cons, List.countP_cons, ih]
    by_cases h2 : q.2 > 0
    · have a1 : decide (q.1 > 0 ∨ q.2 > 0) = true := decide_eq_true (Or.inr h2)
      have a2 : decide (q.1 > 0 ∧ q.2 = 0) = false := decide_eq_false (by omega)
      have a3 : decide (q.2 > 0) = true := decide_eq_true h2
      rw [a1, a2, a3]
      simp
      omega
    · by_cases h1 : q.1 > 0
      · have a1 : decide (q.1 > 0 ∨ q.2 > 0) = true := decide_eq_true (Or.inl h1)
        have a2 : decide (q.1 > 0 ∧ q.2 = 0) = true := decide_eq_true ⟨h1, by omega⟩
        have a3 : decide (q.2 > 0) = false := decide_eq_false h2
        rw [a1, a2, a3]
        simp
        omega
      · have a1 : decide (q.1 > 0 ∨ q.2 > 0) = false := decide_eq_false (by omega)
        have a2 : decide (q.1 > 0 ∧ q.2 = 0) = false := decide_eq_false (by omega)
        have a3 : decide (q.2 > 0) = false := decide_eq_false h2
        rw [a1, a2, a3]
        simp

/-- C15. Integration in `BNcc_driven`: in every iteration, with `stimulus_int` and
`stimulus_ext` as the stimulation loop left them, the flag of unit `n` after the iteration is
1 if `stimulus_int[n] > 0` or `stimulus_ext[n] > 0` and 0 otherwise (so a previously active
unit with neither is inactive), `num_active_int` is the number of units with
`stimulus_int[n] > 0` and `stimulus_ext[n] == 0`, and `num_active - num_active_int` is the
number of units whose external flag was set. -/
theorem driven_integration (N fuel : Nat) (T lam : ℚ) (g : Rng) :
    ∀ p ∈ (drivenRun T lam fuel (drivenInit N g)).1,
      ∃ si se g1,
        propagateDriven N p.1.num_active lam p.1.neuron 0 p.1.stimulus_int p.1.stimulus_ext
          p.1.rng = .ok (si, se, g1) ∧ si.length = N ∧ se.length = N ∧
        p.2.neuron.length = N ∧
        (∀ n, n < N →
          (p.2.neuron.getD n 0 = 1 ↔ (si.getD n 0 > 0 ∨ se.getD n 0 > 0)) ∧
          (p.2.neuron.getD n 0 = 0 ↔ ¬ (si.getD n 0 > 0 ∨ se.getD n 0 > 0))) ∧
        p.2.num_active_int = (si.zip se).countP (fun q => decide (q.1 > 0 ∧ q.2 = 0)) ∧
        p.2.num_active - p.2.num_active_int = se.countP (fun e => decide (e > 0)) := by
  intro p hp
  obtain ⟨h1, b, h2⟩ := drivenRun_steps T lam (DrivenInv N)
    (fun s s1 b hs h => (drivenStep_inv T lam N s s1 b hs h).1) fuel _ (drivenInit_inv N g) p hp
  obtain ⟨hinv, si, se, g1, a1, a2, a3, a4, a5, a6, -⟩ := drivenStep_inv T lam N _ _ b h1 h2
  refine ⟨si, se, g1, a1, a2, a3, hinv.1, ?_, a5, ?_⟩
  · intro n hn
    rw [a6, getD_map_zip _ si se n (by omega) (by omega)]
    dsimp only
    by_cases hc : si.getD n 0 > 0 ∨ se.getD n 0 > 0
    · rw [if_pos hc]
      exact ⟨⟨fun _ => hc, fun _ => rfl⟩, ⟨fun h => absurd h (by decide), fun h => absurd hc h⟩⟩
    · rw [if_neg hc]
      exact ⟨⟨fun h => absurd h (by decide), fun h => absurd h hc⟩, ⟨fun _ => hc, fun _ => rfl⟩⟩
  · rw [a4, a5, countP_active_split, Nat.add_sub_cancel_left,
      countP_zip_snd (fun e => decide (e > 0)) si se (by omega)]

theorem driven_integration_witness :
    (drivenInit 1 ⟨[0, 3/4], [0]⟩,
      ({ neuron := [1], stimulus_int := [0], stimulus_ext := [0], num_active := 1,
         num_active_int := 0, time := 1, rng := ⟨[3/4], [0]⟩, out := [(1, 0)] } : DrivenState))
      ∈ (drivenRun 1 (1/2) 9 (drivenInit 1 ⟨[0, 3/4], [0]⟩)).1 ∧
    ∃ si se g1,
      propagateDriven 1 0 (1/2) [0] 0 [0] [0] ⟨[0, 3/4], [0]⟩ = .ok (si, se, g1) ∧
      si.length = 1 ∧ se.length = 1 ∧ [1].length = 1 ∧
      (∀ n, n < 1 →
        (([1] : List Nat).getD n 0 = 1 ↔ (si.getD n 0 > 0 ∨ se.getD n 0 > 0)) ∧
        (([1] : List Nat).getD n 0 = 0 ↔ ¬ (si.getD n 0 > 0 ∨ se.getD n 0 > 0))) ∧
      0 = (si.zip se).countP (fun q => decide (q.1 > 0 ∧ q.2 = 0)) ∧
      1 - 0 = se.countP (fun e => decide (e > 0)) :=
  ⟨by decide!,
   driven_integration 1 9 1 (1/2) ⟨[0, 3/4], [0]⟩
     (drivenInit 1 ⟨[0, 3/4], [0]⟩,
      { neuron := [1], stimulus_int := [0], stimulus_ext := [0], num_active := 1,
        num_active_int := 0, time := 1, rng := ⟨[3/4], [0]⟩, out := [(1, 0)] })
     (by decide!)⟩

theorem inactive_of_num_active_zero (N : Nat) (s : DrivenState) (hs : DrivenInv N s)
    (h0 : s.num_active = 0) : ∀ x ∈ s.neuron, x = 0 := by
  obtain ⟨-, -, -, hx, hna, -, -⟩ := hs
  intro x hxm
  have h1 : x ≤ 1 := hx x hxm
  have h2 : s.neuron.count 1 = 0 := by omega
  have h3 : (1 : Nat) ∉ s.neuron := List.count_eq_zero.1 h2
  rcases Nat.le_one_iff_eq_zero_or_eq_one.1 h1 with h | h
  · exact h
  · exact absurd (h ▸ hxm) h3

theorem propagateDriven_inactive (size na : Nat) (lam : ℚ) :
    ∀ (xs : List Nat) (n : Nat) (si se : List Nat) (uni : List ℚ) (bin : List Nat),
      (∀ x ∈ xs, x = 0) →
      propagateDriven size na lam xs n si se ⟨uni, bin⟩ =
        Except.map (fun r => (r.1, r.2.1, (⟨r.2.2.uni, bin⟩ : Rng)))
          (propagateDriven size na lam xs n si se ⟨uni, []⟩) := by
  intro xs
  induction xs with
  | nil =>
    intro n si se uni bin _
    simp [propagateDriven, Except.map]
  | cons x xs ih =>
    intro n si se uni bin hx
    have hx0 : x = 0 := hx x (List.mem_cons_self _ _)
    have hxs : ∀ y ∈ xs, y = 0 := fun y hy => hx y (List.mem_cons_of_mem _ hy)
    subst hx0
    cases uni with
    | nil => simp [propagateDriven, Except.map]
    | cons u uni =>
      by_cases hu : u < lam
      · by_cases hn : n < se.length
        · simp only [propagateDriven, gt_iff_lt, Nat.lt_irrefl, if_false, if_pos hu, if_pos hn]
          exact ih _ _ _ _ _ hxs
        · simp [propagateDriven, Except.map, hu, hn]
      · simp only [propagateDriven, gt_iff_lt, Nat.lt_irrefl, if_false, if_neg hu]
        exact ih _ _ _ _ _ hxs

theorem drivenHead_inv (N fuel : Nat) (T lam : ℚ) (g : Rng) (s : DrivenState)
    (hs : s = drivenInit N g ∨ ∃ p ∈ (drivenRun T lam fuel (drivenInit N g)).1, p.2 = s) :
    DrivenInv N s := by
  rcases hs with hs | ⟨p, hp, hs⟩
  · rw [hs]
    exact drivenInit_inv N g
  · obtain ⟨h1, b, h2⟩ := drivenRun_steps T lam (DrivenInv N)
      (fun s s1 b hs h => (drivenStep_inv T lam N s s1 b hs h).1) fuel _ (drivenInit_inv N g)
      p hp
    rw [← hs]
    exact (drivenStep_inv T lam N _ _ b h1 h2).1

/-- C19. The sampler of activity level 0 is never used in `BNcc_driven`: at the head of every
iteration (the initial state or the state left by an iteration of a run), whenever the
stimulation loop has consumed a binomial draw the index `num_active` of the sampler is at
least 1; and when `num_active` is 0 the loop behaves exactly as with an empty list of binomial
draws, failures included, so no draw from `binom[0]` is attempted. -/
theorem binom_index_positive (N fuel : Nat) (T lam : ℚ) (g : Rng) (s : DrivenState)
    (hs : s = drivenInit N g ∨ ∃ p ∈ (drivenRun T lam fuel (drivenInit N g)).1, p.2 = s) :
    (∀ si se g1,
      propagateDriven N s.num_active lam s.neuron 0 s.stimulus_int s.stimulus_ext s.rng =
        .ok (si, se, g1) → g1.bin ≠ s.rng.bin → 1 ≤ s.num_active) ∧
    (s.num_active = 0 →
      propagateDriven N s.num_active lam s.neuron 0 s.stimulus_int s.stimulus_ext s.rng =
        Except.map (fun r => (r.1, r.2.1, (⟨r.2.2.uni, s.rng.bin⟩ : Rng)))
          (propagateDriven N s.num_active lam s.neuron 0 s.stimulus_int s.stimulus_ext
            ⟨s.rng.uni, []⟩)) := by
  have hinv := drivenHead_inv N fuel T lam g s hs
  have key : s.num_active = 0 →
      propagateDriven N s.num_active lam s.neuron 0 s.stimulus_int s.stimulus_ext s.rng =
        Except.map (fun r => (r.1, r.2.1, (⟨r.2.2.uni, s.rng.bin⟩ : Rng)))
          (propagateDriven N s.num_active lam s.neuron 0 s.stimulus_int s.stimulus_ext
            ⟨s.rng.uni, []⟩) := by
    intro h0
    exact propagateDriven_inactive N s.num_active lam s.neuron 0 s.stimulus_int s.stimulus_ext
      s.rng.uni s.rng.bin (inactive_of_num_active_zero N s hinv h0)
  refine ⟨?_, key⟩
  intro si se g1 hp hne
  by_contra hc
  have h0 : s.num_active = 0 := by omega
  rw [key h0] at hp
  cases hq : propagateDriven N s.num_active lam s.neuron 0 s.stimulus_int s.stimulus_ext
      ⟨s.rng.uni, []⟩ with
  | error e =>
    rw [hq] at hp
    cases hp
  | ok r =>
    rw [hq] at hp
    simp only [Except.map, Except.ok.injEq, Prod.mk.injEq] at hp
    exact hne (by rw [← hp.2.2])

theorem binom_index_positive_witness :
    (exampleDrivenFlagged = drivenInit 1 exampleDrivenRng ∨
      ∃ p ∈ (drivenRun 1 (1/2) 9 (drivenInit 1 exampleDrivenRng)).1,
        p.2 = exampleDrivenFlagged) ∧
    propagateDriven 1 exampleDrivenFlagged.num_active (1/2) exampleDrivenFlagged.neuron 0
      exampleDrivenFlagged.stimulus_int exampleDrivenFlagged.stimulus_ext
      exampleDrivenFlagged.rng = .ok ([0], [0], ⟨[], []⟩) ∧
    (⟨[], []⟩ : Rng).bin ≠ exampleDrivenFlagged.rng.bin ∧
    1 ≤ exampleDrivenFlagged.num_active :=
  ⟨Or.inr ⟨(drivenInit 1 exampleDrivenRng, exampleDrivenFlagged), by decide!, rfl⟩,
   by decide!, by decide,
   (binom_index_positive 1 9 1 (1/2) exampleDrivenRng exampleDrivenFlagged
     (Or.inr ⟨(drivenInit 1 exampleDrivenRng, exampleDrivenFlagged), by decide!, rfl⟩)).1
     [0] [0] ⟨[], []⟩ (by decide!) (by decide)⟩

/-! ## Index safety -/

theorem sampleLoop_rest (size k : Nat) (us : List ℚ) (st nc1 st1 : List Nat) (rest : List ℚ)
    (h : sampleLoop size k us 0 [] st = .ok (nc1, st1, rest)) :
    st1.length = st.length ∧ ∀ u ∈ rest, u ∈ us := by
  obtain ⟨fresh, -, -, -, -, h5, -, used, h7⟩ :=
    sampleLoop_ok size k us 0 [] st nc1 st1 rest h List.nodup_nil (by simp) (Nat.zero_le _)
  refine ⟨h5, ?_⟩
  intro u hu
  rw [h7]
  exact List.mem_append_right _ hu

theorem propagateSTS_draws (size : Nat) : ∀ (xs st : List Nat) (g : Rng) (si : List Nat)
    (g1 : Rng), propagateSTS size xs st g = .ok (si, g1) → ∀ u ∈ g1.uni, u ∈ g.uni := by
  intro xs
  induction xs with
  | nil =>
    intro st g si g1 h
    simp only [propagateSTS, Except.ok.injEq, Prod.mk.injEq] at h
    rw [← h.2]
    exact fun u hu => hu
  | cons x xs ih =>
    intro st g si g1 h
    unfold propagateSTS at h
    split at h
    · split at h
      · cases h
      · split at h
        · cases h
        · rename_i hs
          intro u hu
          exact (sampleLoop_rest _ _ _ _ _ _ _ hs).2 u (ih _ _ _ _ h u hu)
    · exact ih _ _ _ _ h

theorem propagateSTS_in_bounds (N : Nat) (hN : 1 ≤ N) : ∀ (xs st : List Nat) (g : Rng),
    (∀ u ∈ g.uni, 0 ≤ u ∧ u < 1) → st.length = N →
    propagateSTS N xs st g ≠ .error .outOfBounds := by
  intro xs
  induction xs with
  | nil =>
    intro st g _ _
    simp [propagateSTS]
  | cons x xs ih =>
    intro st g hu hlen
    unfold propagateSTS
    split
    · split
      · simp
      · split
        · rename_i e hs
          intro hc
          injection hc with hc
          rw [hc] at hs
          exact sampleLoop_in_bounds N _ hN _ 0 [] st hu hlen hs
        · rename_i hs
          obtain ⟨l1, l2⟩ := sampleLoop_rest _ _ _ _ _ _ _ hs
          exact ih _ _ (fun u hu1 => hu u (l2 u hu1)) (by rw [l1, hlen])
    · exact ih _ _ hu hlen

theorem stsStep_draws (cfg : STSConfig) (s s1 : STSState) (b : Bool)
    (h : stsStep cfg s = .ok (s1, b)) : ∀ u ∈ s1.rng.uni, u ∈ s.rng.uni := by
  unfold stsStep at h
  split at h
  · cases h
  · rename_i s0 hu
    injection h with h
    have hr : s1.rng = s0.rng := by
      rw [← (stsEmit_fields cfg s0).2.2.2.2.1, h]
    rw [hr]
    unfold stsUpdate at hu
    split at hu
    · split at hu
      · cases hu
      · rename_i u uni huni
        split at hu
        · injection hu with hu
          subst hu
          intro v hv
          rw [huni]
          exact List.mem_cons_of_mem _ hv
        · cases hu
    · split at hu
      · cases hu
      · rename_i si g hp
        injection hu with hu
        subst hu
        exact propagateSTS_draws _ _ _ _ _ _ hp

theorem stsStep_in_bounds (cfg : STSConfig) (N : Nat) (hN : 1 ≤ N) (s : STSState)
    (hs : STSInv N s) (hu : ∀ u ∈ s.rng.uni, 0 ≤ u ∧ u < 1) :
    stsStep cfg s ≠ .error .outOfBounds := by
  obtain ⟨hlen, hst, -⟩ := hs
  unfold stsStep
  split
  · rename_i e he
    intro hc
    injection hc with hc
    rw [hc] at he
    unfold stsUpdate at he
    split at he
    · split at he
      · cases he
      · rename_i u uni huni
        split at he
        · cases he
        · rename_i hb
          have hu0 := hu u (by rw [huni]; exact List.mem_cons_self _ _)
          rw [hlen] at hb
          exact hb (targetIndex_lt u N hN hu0.1 hu0.2)
    · split at he
      · rename_i e1 hp
        injection he with he
        rw [he, hlen] at hp
        exact propagateSTS_in_bounds N hN _ _ _ hu (by rw [hst, List.length_replicate]) hp
      · cases he
  · simp

theorem stsRun_in_bounds (cfg : STSConfig) (N : Nat) (hN : 1 ≤ N) :
    ∀ (fuel : Nat) (s : STSState), STSInv N s → (∀ u ∈ s.rng.uni, 0 ≤ u ∧ u < 1) →
      (stsRun cfg fuel s).2 ≠ .failed .outOfBounds := by
  intro fuel
  induction fuel with
  | zero =>
    intro s _ _
    simp [stsRun]
  | succ fuel ih =>
    intro s hs hu
    rcases hstep : stsStep cfg s with e | ⟨s1, b⟩
    · have hne : e ≠ .outOfBounds := by
        intro hc
        rw [hc] at hstep
        exact stsStep_in_bounds cfg N hN s hs hu hstep
      simp [stsRun, hstep, hne]
    · cases b
      · have hrun : (stsRun cfg (fuel + 1) s).2 = (stsRun cfg fuel s1).2 := by
          simp [stsRun, hstep]
        rw [hrun]
        exact ih s1 (stsStep_inv cfg N s s1 false hs hstep).1
          (fun u hu1 => hu u (stsStep_draws cfg s s1 false hstep u hu1))
      · simp [stsRun, hstep]

theorem propagateDriven_draws (size na : Nat) (lam : ℚ) :
    ∀ (xs : List Nat) (n : Nat) (si se : List Nat) (g : Rng) (si1 se1 : List Nat) (g1 : Rng),
      propagateDriven size na lam xs n si se g = .ok (si1, se1, g1) →
      ∀ u ∈ g1.uni, u ∈ g.uni := by
  intro xs
  induction xs with
  | nil =>
    intro n si se g si1 se1 g1 h
    simp only [propagateDriven, Except.ok.injEq, Prod.mk.injEq] at h
    rw [← h.2.2]
    exact fun u hu => hu
  | cons x xs ih =>
    intro n si se g si1 se1 g1 h
    unfold propagateDriven at h
    dsimp only at h
    split at h
    · cases h
    · rename_i si2 g2 hf
      have hsub : ∀ u ∈ g2.uni, u ∈ g.uni := by
        split at hf
        · split at hf
          · split at hf
            · cases hf
            · split at hf
              · cases hf
              · rename_i hs
                injection hf with hf
                simp only [Prod.mk.injEq] at hf
                rw [← hf.2]
                exact (sampleLoop_rest _ _ _ _ _ _ _ hs).2
          · cases hf
        · injection hf with hf
          simp only [Prod.mk.injEq] at hf
          rw [← hf.2]
          exact fun u hu => hu
      split at h
      · cases h
      · rename_i u uni huni
        have hsub2 : ∀ v ∈ uni, v ∈ g.uni :=
          fun v hv => hsub v (by rw [huni]; exact List.mem_cons_of_mem _ hv)
        split at h
        · split at h
          · exact fun v hv => hsub2 v (ih _ _ _ _ _ _ _ h v hv)
          · cases h
        · exact fun v hv => hsub2 v (ih _ _ _ _ _ _ _ h v hv)

theorem propagateDriven_in_bounds (N na : Nat) (lam : ℚ) (hN : 1 ≤ N) (hna : na ≤ N) :
    ∀ (xs : List Nat) (n : Nat) (si se : List Nat) (g : Rng),
      (∀ u ∈ g.uni, 0 ≤ u ∧ u < 1) → si.length = N → n + xs.length ≤ se.length →
      propagateDriven N na lam xs n si se g ≠ .error .outOfBounds := by
  intro xs
  induction xs with
  | nil =>
    intro n si se g _ _ _
    simp [propagateDriven]
  | cons x xs ih =>
    intro n si se g hu hlen hn
    have hn1 : n < se.length := by
      rw [List.length_cons] at hn
      omega
    unfold propagateDriven
    dsimp only
    split
    · rename_i e hf
      intro hc
      injection hc with hc
      rw [hc] at hf
      split at hf
      · split at hf
        · split at hf
          · cases hf
          · split at hf
            · rename_i e1 hs
              injection hf with hf
              rw [hf] at hs
              exact sampleLoop_in_bounds N _ hN _ 0 [] si hu hlen hs
            · cases hf
        · rename_i hb
          exact hb (by omega)
      · cases hf
    · rename_i si2 g2 hf
      have hfacts : si2.length = N ∧ ∀ u ∈ g2.uni, u ∈ g.uni := by
        split at hf
        · split at hf
          · split at hf
            · cases hf
            · split at hf
              · cases hf
              · rename_i hs
                injection hf with hf
                simp only [Prod.mk.injEq] at hf
                obtain ⟨l1, l2⟩ := sampleLoop_rest _ _ _ _ _ _ _ hs
                rw [← hf.1, ← hf.2]
                exact ⟨by rw [l1, hlen], l2⟩
          · cases hf
        · injection hf with hf
          simp only [Prod.mk.injEq] at hf
          rw [← hf.1, ← hf.2]
          exact ⟨hlen, fun u hu1 => hu1⟩
      split
      · simp
      · rename_i u uni huni
        have hu2 : ∀ v ∈ uni, 0 ≤ v ∧ v < 1 :=
          fun v hv => hu v (hfacts.2 v (by rw [huni]; exact List.mem_cons_of_mem _ hv))
        by_cases hul : u < lam
        · rw [if_pos hul, if_pos hn1]
          exact ih _ _ _ _ hu2 hfacts.1
            (by rw [List.length_set]; rw [List.length_cons] at hn; omega)
        · rw [if_neg hul]
          exact ih _ _ _ _ hu2 hfacts.1 (by rw [List.length_cons] at hn; omega)

theorem drivenRun_in_bounds (T lam : ℚ) (N : Nat) (hN : 1 ≤ N) :
    ∀ (fuel : Nat) (s : DrivenState), DrivenInv N s → (∀ u ∈ s.rng.uni, 0 ≤ u ∧ u < 1) →
      (drivenRun T lam fuel s).2 ≠ .failed .outOfBounds := by
  intro fuel
  induction fuel with
  | zero =>
    intro s _ _
    simp [drivenRun]
  | succ fuel ih =>
    intro s hs hu
    have hsafe : propagateDriven s.neuron.length s.num_active lam s.neuron 0 s.stimulus_int
        s.stimulus_ext s.rng ≠ .error .outOfBounds := by
      rw [hs.1]
      exact propagateDriven_in_bounds N s.num_active lam hN hs.2.2.2.2.2.2 s.neuron 0 _ _ _ hu
        (by rw [hs.2.1, List.length_replicate])
        (by rw [hs.2.2.1, List.length_replicate, hs.1]; omega)
    rcases hstep : drivenStep T lam s with e | ⟨s1, b⟩
    · have hne : e ≠ .outOfBounds := by
        intro hc
        rw [hc] at hstep
        unfold drivenStep at hstep
        split at hstep
        · rename_i e1 hp
          injection hstep with hstep
          rw [hstep] at hp
          exact hsafe hp
        · cases hstep
      simp [drivenRun, hstep, hne]
    · have hu1 : ∀ u ∈ s1.rng.uni, 0 ≤ u ∧ u < 1 := by
        obtain ⟨-, si, se, g1, a1, -, -, -, -, -, a7, -⟩ := drivenStep_inv T lam N s s1 b hs hstep
        intro u hu2
        rw [a7] at hu2
        exact hu u (propagateDriven_draws _ _ _ _ _ _ _ _ _ _ _ a1 u hu2)
      cases b
      · have hrun : (drivenRun T lam (fuel + 1) s).2 = (drivenRun T lam fuel s1).2 := by
          simp [drivenRun, hstep]
        rw [hrun]
        exact ih s1 (drivenStep_inv T lam N s s1 false hs hstep).1 hu1
      · simp [drivenRun, hstep]

/-- C18. Index safety: for `N >= 1` and uniform draws in `[0,1)` every seed index and target
index is below `N`, no run of either main loop ever reads or writes outside a vector, and at
the head of every iteration of `BNcc_driven` the sampler index `num_active` is at most `N`
(the table has `N+1` entries) and equals the number of currently active units. -/
theorem index_safety (N fuel : Nat) (cfg : STSConfig) (T lam : ℚ) (g : Rng) (hN : 1 ≤ N)
    (hu : ∀ u ∈ g.uni, 0 ≤ u ∧ u < 1) :
    (∀ u ∈ g.uni, targetIndex u N < N) ∧
    (stsRun cfg fuel (stsInit N g)).2 ≠ .failed .outOfBounds ∧
    (drivenRun T lam fuel (drivenInit N g)).2 ≠ .failed .outOfBounds ∧
    (∀ s, (s = drivenInit N g ∨ ∃ p ∈ (drivenRun T lam fuel (drivenInit N g)).1, p.2 = s) →
      s.num_active ≤ N ∧ s.num_active = s.neuron.countP (fun x => decide (x > 0))) := by
  refine ⟨fun u hu1 => targetIndex_lt u N hN (hu u hu1).1 (hu u hu1).2,
    stsRun_in_bounds cfg N hN fuel _ (stsInit_inv N g) hu,
    drivenRun_in_bounds T lam N hN fuel _ (drivenInit_inv N g) hu, ?_⟩
  intro s hs
  have hinv := drivenHead_inv N fuel T lam g s hs
  refine ⟨hinv.2.2.2.2.2.2, ?_⟩
  rw [countP_pos_eq_count_one _ hinv.2.2.2.1]
  exact hinv.2.2.2.2.1

theorem index_safety_witness :
    (∀ u ∈ exampleDrivenRng.uni, targetIndex u 1 < 1) ∧
    (stsRun ⟨0, 2⟩ 9 (stsInit 1 exampleDrivenRng)).2 ≠ .failed .outOfBounds ∧
    (drivenRun 1 (1/2) 9 (drivenInit 1 exampleDrivenRng)).2 ≠ .failed .outOfBounds ∧
    (∀ s, (s = drivenInit 1 exampleDrivenRng ∨
        ∃ p ∈ (drivenRun 1 (1/2) 9 (drivenInit 1 exampleDrivenRng)).1, p.2 = s) →
      s.num_active ≤ 1 ∧ s.num_active = s.neuron.countP (fun x => decide (x > 0))) :=
  index_safety 1 9 ⟨0, 2⟩ 1 (1/2) exampleDrivenRng (by decide) (by decide!)

/-! ## Horizon of the self-sustained time-series mode -/

theorem stsRun_series_count (T : Nat) (hT : T < 2 ^ 32 - 1) :
    ∀ (fuel : Nat) (s : STSState), s.time < T →
      (∀ p ∈ (stsRun ⟨0, (T : ℚ)⟩ fuel s).1, p.1.time < T ∧ p.2.time = p.1.time + 1) ∧
      ((stsRun ⟨0, (T : ℚ)⟩ fuel s).2 = .stopped →
        (stsRun ⟨0, (T : ℚ)⟩ fuel s).1.length + s.time = T ∧
        ∃ pre post, (stsRun ⟨0, (T : ℚ)⟩ fuel s).1.getLast? = some (pre, post) ∧
          post.time = T) ∧
      ((stsRun ⟨0, (T : ℚ)⟩ fuel s).2 = .outOfFuel →
        (stsRun ⟨0, (T : ℚ)⟩ fuel s).1.length = fuel ∧ fuel + s.time < T) := by
  intro fuel
  induction fuel with
  | zero =>
    intro s hs
    refine ⟨by simp [stsRun], by simp [stsRun], ?_⟩
    intro _
    exact ⟨rfl, by omega⟩
  | succ fuel ih =>
    intro s hs
    rcases hstep : stsStep ⟨0, (T : ℚ)⟩ s with e | ⟨s1, b⟩
    · have hrun : stsRun ⟨0, (T : ℚ)⟩ (fuel + 1) s = ([], .failed e) := by
        simp [stsRun, hstep]
      rw [hrun]
      simp
    · obtain ⟨-, f1, f2⟩ := stsStep_series ⟨0, (T : ℚ)⟩ s s1 b rfl hstep
      have e1 : (s.time + 1) % 2 ^ 32 = s.time + 1 := Nat.mod_eq_of_lt (by omega)
      have e2 : (s.time + 1 + 1) % 2 ^ 32 = s.time + 1 + 1 := Nat.mod_eq_of_lt (by omega)
      rw [e1] at f1
      rw [e1, e2] at f2
      have hb : b = decide (T < s.time + 1 + 1) := by
        rw [f2]
        congr 1
        simp only [gt_iff_lt, Nat.cast_lt, eq_iff_iff]
      cases b
      · have hrun : stsRun ⟨0, (T : ℚ)⟩ (fuel + 1) s =
            ((s, s1) :: (stsRun ⟨0, (T : ℚ)⟩ fuel s1).1,
              (stsRun ⟨0, (T : ℚ)⟩ fuel s1).2) := by
          simp [stsRun, hstep]
        have hlt := of_decide_eq_false hb.symm
        obtain ⟨g1, g2, g3⟩ := ih s1 (by omega)
        rw [hrun]
        dsimp only
        refine ⟨?_, ?_, ?_⟩
        · intro p hp
          rcases List.mem_cons.1 hp with hp | hp
          · subst hp
            exact ⟨hs, f1⟩
          · exact g1 p hp
        · intro hst
          obtain ⟨k1, pre, post, k2, k3⟩ := g2 hst
          refine ⟨by rw [List.length_cons]; omega, pre, post, ?_, k3⟩
          rw [List.getLast?_cons, k2]
          rfl
        · intro hof
          obtain ⟨k1, k2⟩ := g3 hof
          exact ⟨by rw [List.length_cons, k1], by omega⟩
      · have hrun : stsRun ⟨0, (T : ℚ)⟩ (fuel + 1) s = ([(s, s1)], .stopped) := by
          simp [stsRun, hstep]
        have hlt := of_decide_eq_true hb.symm
        rw [hrun]
        dsimp only
        refine ⟨?_, ?_, ?_⟩
        · intro p hp
          simp only [List.mem_singleton] at hp
          subst hp
          exact ⟨hs, f1⟩
        · intro _
          exact ⟨by rw [List.length_singleton]; omega, s, s1, rfl, by omega⟩
        · intro hc
          cases hc

/-- C17, as stated, fails: with horizon `T = 1` (`N = 1`) the loop of `BN_STS` in time-series
mode stops after its first iteration, after which `time` is 1, which is not greater than
`T`. -/
theorem series_stop_time_not_above_horizon :
    ¬ ∀ (T N fuel : Nat) (g : Rng), 1 ≤ T →
        (stsRun ⟨0, (T : ℚ)⟩ fuel (stsInit N g)).2 = .stopped →
        ∀ pre post, (stsRun ⟨0, (T : ℚ)⟩ fuel (stsInit N g)).1.getLast? = some (pre, post) →
          T < post.time := by
  intro h
  have h1 := h 1 1 5 ⟨[0], []⟩ (by decide) (by decide!) (stsInit 1 ⟨[0], []⟩) exampleSeededOne
    (by decide!)
  revert h1
  decide

/-- C17, amended. For every integer horizon `T` with `1 <= T < 2^32 - 1` the loop of `BN_STS`
in time-series mode (no avalanche count) breaks on `time+1 > T`: every iteration starts with
`time < T` and raises `time` by one, a run that stops has performed exactly `T` iterations and
ends with `time == T`, and a run is cut short by the iteration budget only if that budget is
below `T`. -/
theorem series_stops_after_horizon_steps (T N fuel : Nat) (g : Rng) (h1 : 1 ≤ T)
    (h2 : T < 2 ^ 32 - 1) :
    (∀ p ∈ (stsRun ⟨0, (T : ℚ)⟩ fuel (stsInit N g)).1,
      p.1.time < T ∧ p.2.time = p.1.time + 1) ∧
    ((stsRun ⟨0, (T : ℚ)⟩ fuel (stsInit N g)).2 = .stopped →
      (stsRun ⟨0, (T : ℚ)⟩ fuel (stsInit N g)).1.length = T ∧
      ∃ pre post, (stsRun ⟨0, (T : ℚ)⟩ fuel (stsInit N g)).1.getLast? = some (pre, post) ∧
        post.time = T) ∧
    ((stsRun ⟨0, (T : ℚ)⟩ fuel (stsInit N g)).2 = .outOfFuel → fuel < T) := by
  obtain ⟨a1, a2, a3⟩ := stsRun_series_count T h2 fuel (stsInit N g) (by
    show 0 < T
    omega)
  refine ⟨a1, ?_, ?_⟩
  · intro hst
    obtain ⟨b1, b2⟩ := a2 hst
    exact ⟨by simpa [stsInit] using b1, b2⟩
  · intro hof
    have := (a3 hof).2
    simpa [stsInit] using this

theorem series_stops_after_horizon_steps_witness :
    (stsRun ⟨0, ((2 : Nat) : ℚ)⟩ 9 (stsInit 2 exampleRng)).2 = .stopped ∧
    (stsRun ⟨0, ((2 : Nat) : ℚ)⟩ 9 (stsInit 2 exampleRng)).1.length = 2 ∧
    ∃ pre post,
      (stsRun ⟨0, ((2 : Nat) : ℚ)⟩ 9 (stsInit 2 exampleRng)).1.getLast? = some (pre, post) ∧
      post.time = 2 :=
  ⟨by decide!,
   (series_stops_after_horizon_steps 2 2 9 exampleRng (by decide) (by decide)).2.1
     (by decide!)⟩

/-! ## Seeding, and targets that hit the firing unit -/

theorem stsHead_inv (N fuel : Nat) (cfg : STSConfig) (g : Rng) (s : STSState)
    (hs : s = stsInit N g ∨ ∃ p ∈ (stsRun cfg fuel (stsInit N g)).1, p.2 = s) :
    STSInv N s := by
  rcases hs with hs | ⟨p, hp, hs⟩
  · rw [hs]
    exact stsInit_inv N g
  · obtain ⟨h1, b, h2⟩ := stsRun_steps cfg (STSInv N)
      (fun s s1 b hs h => (stsStep_inv cfg N s s1 b hs h).1) fuel _ (stsInit_inv N g) p hp
    rw [← hs]
    exact (stsStep_inv cfg N _ _ b h1 h2).1

theorem stsStep_seed_fields (cfg : STSConfig) (s : STSState) (u : ℚ) (us : List ℚ)
    (h0 : s.num_active = 0) (huni : s.rng.uni = u :: us)
    (hlt : targetIndex u s.neuron.length < s.neuron.length) :
    ∃ s1 b, stsStep cfg s = .ok (s1, b) ∧
      s1.neuron = s.neuron.set (targetIndex u s.neuron.length) 1 ∧
      s1.stimulus_int = s.stimulus_int ∧ s1.rng = ⟨us, s.rng.bin⟩ := by
  have hupd : stsUpdate s =
      .ok { s with neuron := s.neuron.set (targetIndex u s.neuron.length) 1,
                   num_active := 1, num_active_int := 0,
                   avalanche_time := 0, avalanche_size := 0,
                   rng := ⟨us, s.rng.bin⟩ } := by
    unfold stsUpdate
    rw [if_pos h0, huni]
    dsimp only
    rw [if_pos hlt]
  refine ⟨_, _, by rw [stsStep, hupd], ?_, ?_, ?_⟩
  · exact (stsEmit_fields cfg _).1
  · exact (stsEmit_fields cfg _).2.1
  · exact (stsEmit_fields cfg _).2.2.2.2.1

/-- C14, as stated, fails: the seeded unit is the integer part of the double product
`uni_01(mt)*neuron.size()`, not of the exact product.  For `N = 100` and the double nearest
0.99 (`4458563631096791 / 2^52`) the exact product is just below 99 and has floor 98, while the
double product is 99.0, so unit 99 is seeded. -/
theorem seeded_unit_is_not_exact_floor :
    (¬ ∀ (N : Nat) (cfg : STSConfig) (g : Rng) (u : ℚ) (us : List ℚ),
        (stsInit N g).num_active = 0 → (stsInit N g).rng.uni = u :: us → 1 ≤ N →
        0 ≤ u ∧ u < 1 →
        ∃ s1 b, stsStep cfg (stsInit N g) = .ok (s1, b) ∧
          s1.neuron = (List.replicate N 0).set ⌊u * (N : ℚ)⌋₊ 1) ∧
    unitDouble (4458563631096791 / 4503599627370496) = 4458563631096791 / 4503599627370496 ∧
    ⌊(4458563631096791 / 4503599627370496 : ℚ) * ((100 : Nat) : ℚ)⌋₊ = 98 ∧
    targetIndex (4458563631096791 / 4503599627370496) 100 = 99 := by
  refine ⟨?_, by decide!, by decide!, by decide!⟩
  intro h
  obtain ⟨s1, b, h1, h2⟩ := h 100 ⟨0, 1⟩ ⟨[4458563631096791 / 4503599627370496], []⟩
    (4458563631096791 / 4503599627370496) [] rfl rfl (by decide) (by decide!)
  obtain ⟨s2, b2, k1, k2, -, -⟩ := stsStep_seed_fields ⟨0, 1⟩
    (stsInit 100 ⟨[4458563631096791 / 4503599627370496], []⟩)
    (4458563631096791 / 4503599627370496) [] rfl rfl (by decide!)
  rw [h1] at k1
  injection k1 with k1
  injection k1 with k1 k3
  subst k1
  rw [h2] at k2
  revert k2
  decide!

/-- C14, amended. Quiescent seeding in `BN_STS`: at the head of an iteration (the initial state
or the state left by an iteration of a run) with `num_active == 0`, for `N >= 1` and next
uniform draw `u` in `[0,1)`, the iteration succeeds; it consumes that one uniform draw and no
binomial draw, leaves every stimulus counter at 0, sets the flag of one unit in an all-zero
flag vector, the unit whose index is the integer part of the double product `u*N`, which is
below `N`, so that afterwards exactly one flag is 1 and `num_active == 1`, and after the step
the avalanche duration counter is 1 and the avalanche size is 1. -/
theorem quiescent_seeding (N fuel : Nat) (cfg : STSConfig) (g : Rng) (s : STSState) (u : ℚ)
    (us : List ℚ)
    (hs : s = stsInit N g ∨ ∃ p ∈ (stsRun cfg fuel (stsInit N g)).1, p.2 = s)
    (h0 : s.num_active = 0) (huni : s.rng.uni = u :: us) (hN : 1 ≤ N)
    (hu : 0 ≤ u ∧ u < 1) :
    ∃ s1 b, stsStep cfg s = .ok (s1, b) ∧
      s1.rng = ⟨us, s.rng.bin⟩ ∧
      s.stimulus_int = List.replicate N 0 ∧ s1.stimulus_int = List.replicate N 0 ∧
      targetIndex u N = ⌊roundDouble (unitDouble u * (N : ℚ))⌋₊ ∧ targetIndex u N < N ∧
      s1.neuron = (List.replicate N 0).set (targetIndex u N) 1 ∧
      s1.neuron.count 1 = 1 ∧ s1.num_active = 1 ∧
      s1.avalanche_time = 1 ∧ s1.avalanche_size = 1 := by
  have hinv := stsHead_inv N fuel cfg g s hs
  have hlt : targetIndex u N < N := targetIndex_lt u N hN hu.1 hu.2
  have hzero : s.neuron = List.replicate N 0 := by
    rw [List.eq_replicate_iff]
    refine ⟨hinv.1, ?_⟩
    intro x hx
    have h1 : x ≤ 1 := hinv.2.2.1 x hx
    have h2 : s.neuron.count 1 = 0 := by
      rw [← hinv.2.2.2.1]
      exact h0
    have h3 : (1 : Nat) ∉ s.neuron := List.count_eq_zero.1 h2
    rcases Nat.le_one_iff_eq_zero_or_eq_one.1 h1 with h | h
    · exact h
    · exact absurd (h ▸ hx) h3
  obtain ⟨s1, b, hstep, f1, f2, f3⟩ :=
    stsStep_seed_fields cfg s u us h0 huni (by rw [hinv.1]; exact hlt)
  obtain ⟨hinv1, hseed, -⟩ := stsStep_inv cfg N s s1 b hinv hstep
  obtain ⟨a1, -, a3, a4, -⟩ := hseed h0
  rw [hinv.1, hzero] at f1
  refine ⟨s1, b, hstep, f3, hinv.2.1, hinv1.2.1, rfl, hlt, f1, ?_, a1, a3, a4⟩
  rw [← hinv1.2.2.2.1, a1]

theorem quiescent_seeding_witness :
    stsStep ⟨0, 2⟩ (stsInit 2 exampleRng) = .ok (exampleSeeded, false) ∧
    ∃ s1 b, stsStep ⟨0, 2⟩ (stsInit 2 exampleRng) = .ok (s1, b) ∧
      s1.rng = ⟨[1/2], (stsInit 2 exampleRng).rng.bin⟩ ∧
      (stsInit 2 exampleRng).stimulus_int = List.replicate 2 0 ∧
      s1.stimulus_int = List.replicate 2 0 ∧
      targetIndex 0 2 = ⌊roundDouble (unitDouble 0 * ((2 : Nat) : ℚ))⌋₊ ∧
      targetIndex 0 2 < 2 ∧
      s1.neuron = (List.replicate 2 0).set (targetIndex 0 2) 1 ∧
      s1.neuron.count 1 = 1 ∧ s1.num_active = 1 ∧
      s1.avalanche_time = 1 ∧ s1.avalanche_size = 1 :=
  ⟨by decide!,
   quiescent_seeding 2 9 ⟨0, 2⟩ exampleRng (stsInit 2 exampleRng) 0 [1/2] (Or.inl rfl) rfl rfl
     (by decide) (by decide!)⟩

theorem fillFrom_spec {α : Type} (f : Nat → α) (d : α) :
    ∀ (fuel A : Nat) (v : List α), v.length ≤ A + fuel →
      (fillFrom f fuel A v).length = v.length ∧
      ∀ i, (fillFrom f fuel A v).getD i d =
        if A ≤ i ∧ i < v.length then f i else v.getD i d := by
  intro fuel
  induction fuel with
  | zero =>
    intro A v hlen
    refine ⟨rfl, ?_⟩
    intro i
    rw [fillFrom, if_neg (by omega)]
  | succ fuel ih =>
    intro A v hlen
    rw [fillFrom]
    by_cases hA : A < v.length
    · rw [if_pos hA]
      obtain ⟨h1, h2⟩ := ih (A + 1) (v.set A (f A)) (by rw [List.length_set]; omega)
      rw [List.length_set] at h1 h2
      refine ⟨h1, ?_⟩
      intro i
      rw [h2 i]
      by_cases hi : A + 1 ≤ i ∧ i < v.length
      · rw [if_pos hi, if_pos ⟨by omega, hi.2⟩]
      · rw [if_neg hi]
        by_cases hiA : i = A
        · subst hiA
          rw [if_pos ⟨Nat.le_refl _, hA⟩]
          simp [List.getD_eq_getElem?_getD, List.getElem?_set_self hA]
        · rw [if_neg (by omega)]
          simp [List.getD_eq_getElem?_getD, List.getElem?_set_ne (Ne.symm hiA)]
    · rw [if_neg hA]
      refine ⟨rfl, ?_⟩
      intro i
      rw [if_neg (by omega)]

theorem m_fsc_getD (N : Nat) (m : ℝ) (A : Nat) (hA : A ≤ N) :
    (m_fsc N m).length = N + 1 ∧ (m_fsc N m).getD A 0 = m_fsc_entry N m A := by
  obtain ⟨h1, h2⟩ := fillFrom_spec (m_fsc_entry N m) 0 (N + 1) 0 (List.replicate (N + 1) 0)
    (by simp)
  rw [List.length_replicate] at h1 h2
  refine ⟨h1, ?_⟩
  unfold m_fsc
  rw [h2 A, if_pos ⟨Nat.zero_le _, by omega⟩]

theorem p_fsc_getD (N : Nat) (m : ℝ) (A : Nat) (hA : A ≤ N) :
    (p_fsc N m).length = N + 1 ∧
    (p_fsc N m).getD A 0 = (m_fsc N m).getD A 0 / (N : ℝ) := by
  obtain ⟨h1, h2⟩ := fillFrom_spec (fun A => (m_fsc N m).getD A 0 / (N : ℝ)) 0 (N + 1) 0
    (List.replicate (N + 1) 0) (by simp)
  rw [List.length_replicate] at h1 h2
  refine ⟨h1, ?_⟩
  unfold p_fsc
  rw [h2 A, if_pos ⟨Nat.zero_le _, by omega⟩]

/-- C12. The finite-size-correction table over the real numbers: for `N >= 1`, every `m` and
every activity level `1 <= A <= N`, the tables of `BNcc_driven` have `N+1` entries,
`m_fsc[A] = N*(1 - (1 - m*A/N)^(1/A))` when `1 - m*A/N > 0` (the power being the real `A`-th
root) and `m_fsc[A] = ln(N)` otherwise, and `p_fsc[A] = m_fsc[A]/N` (so
`p_fsc[A]*N = m_fsc[A]`); the probability of `BN_STS` is the single `p_std = m/N`. -/
theorem fsc_table (N A : Nat) (m : ℝ) (hN : 1 ≤ N) (hA1 : 1 ≤ A) (hA : A ≤ N) :
    (m_fsc N m).length = N + 1 ∧ (p_fsc N m).length = N + 1 ∧
    (1 - m * (A : ℝ) / (N : ℝ) > 0 →
      (m_fsc N m).getD A 0 =
        (N : ℝ) * (1 - (1 - m * (A : ℝ) / (N : ℝ)) ^ ((1 : ℝ) / (A : ℝ))) ∧
      ((1 - m * (A : ℝ) / (N : ℝ)) ^ ((1 : ℝ) / (A : ℝ))) ^ A = 1 - m * (A : ℝ) / (N : ℝ)) ∧
    (¬ (1 - m * (A : ℝ) / (N : ℝ) > 0) → (m_fsc N m).getD A 0 = Real.log (N : ℝ)) ∧
    (p_fsc N m).getD A 0 = (m_fsc N m).getD A 0 / (N : ℝ) ∧
    (p_fsc N m).getD A 0 * (N : ℝ) = (m_fsc N m).getD A 0 ∧
    p_std N m = m / (N : ℝ) := by
  have hN0 : (0 : ℝ) < (N : ℝ) := by exact_mod_cast hN
  obtain ⟨a1, a2⟩ := m_fsc_getD N m A hA
  obtain ⟨b1, b2⟩ := p_fsc_getD N m A hA
  refine ⟨a1, b1, ?_, ?_, b2, ?_, rfl⟩
  · intro h
    refine ⟨by rw [a2, m_fsc_entry, if_pos h], ?_⟩
    rw [one_div]
    exact Real.rpow_inv_natCast_pow h.le (by omega)
  · intro h
    rw [a2, m_fsc_entry, if_neg h]
  · rw [b2, div_mul_cancel₀ _ (ne_of_gt hN0)]

theorem fsc_table_witness :
    (m_fsc 2 (1/2)).length = 2 + 1 ∧ (p_fsc 2 (1/2)).length = 2 + 1 ∧
    (1 - (1/2 : ℝ) * ((1 : Nat) : ℝ) / ((2 : Nat) : ℝ) > 0 →
      (m_fsc 2 (1/2)).getD 1 0 =
        ((2 : Nat) : ℝ) *
          (1 - (1 - (1/2 : ℝ) * ((1 : Nat) : ℝ) / ((2 : Nat) : ℝ)) ^
            ((1 : ℝ) / ((1 : Nat) : ℝ))) ∧
      ((1 - (1/2 : ℝ) * ((1 : Nat) : ℝ) / ((2 : Nat) : ℝ)) ^
          ((1 : ℝ) / ((1 : Nat) : ℝ))) ^ 1 =
        1 - (1/2 : ℝ) * ((1 : Nat) : ℝ) / ((2 : Nat) : ℝ)) ∧
    (¬ (1 - (1/2 : ℝ) * ((1 : Nat) : ℝ) / ((2 : Nat) : ℝ) > 0) →
      (m_fsc 2 (1/2)).getD 1 0 = Real.log ((2 : Nat) : ℝ)) ∧
    (p_fsc 2 (1/2)).getD 1 0 = (m_fsc 2 (1/2)).getD 1 0 / ((2 : Nat) : ℝ) ∧
    (p_fsc 2 (1/2)).getD 1 0 * ((2 : Nat) : ℝ) = (m_fsc 2 (1/2)).getD 1 0 ∧
    p_std 2 (1/2) = (1/2 : ℝ) / ((2 : Nat) : ℝ) :=
  fsc_table 2 1 (1/2) (by decide) (by decide) (by decide)

/-- C16. The saturation fallback is reached only for `m >= 1`: for `N >= 1`, every activity
level `0 <= A <= N` and every real (in particular every rational) `m`, if the test
`1 - m*A/N > 0` fails then `m >= 1`; so for `m < 1` the entry `m_fsc[A]` is the value of the
correction formula, not the fallback `ln(N)`. -/
theorem fallback_only_for_m_ge_one (N A : Nat) (m : ℝ) (hN : 1 ≤ N) (hA : A ≤ N) :
    (¬ (1 - m * (A : ℝ) / (N : ℝ) > 0) → 1 ≤ m) ∧
    (m < 1 → (m_fsc N m).getD A 0 =
      (N : ℝ) * (1 - (1 - m * (A : ℝ) / (N : ℝ)) ^ ((1 : ℝ) / (A : ℝ)))) := by
  have hN0 : (0 : ℝ) < (N : ℝ) := by exact_mod_cast hN
  have hAN : (A : ℝ) ≤ (N : ℝ) := by exact_mod_cast hA
  have hA0 : (0 : ℝ) ≤ (A : ℝ) := Nat.cast_nonneg A
  have key : m < 1 → 1 - m * (A : ℝ) / (N : ℝ) > 0 := by
    intro hm
    have h1 : m * (A : ℝ) < (N : ℝ) := by
      rcases eq_or_lt_of_le hA0 with h0 | hpos
      · rw [← h0, mul_zero]
        exact hN0
      · calc m * (A : ℝ) < 1 * (A : ℝ) := mul_lt_mul_of_pos_right hm hpos
          _ = (A : ℝ) := one_mul _
          _ ≤ (N : ℝ) := hAN
    have h2 : m * (A : ℝ) / (N : ℝ) < 1 := by
      rw [div_lt_one hN0]
      exact h1
    linarith
  refine ⟨?_, ?_⟩
  · intro hfail
    by_contra hc
    exact hfail (key (not_le.1 hc))
  · intro hm
    rw [(m_fsc_getD N m A hA).2, m_fsc_entry, if_pos (key hm)]

theorem fallback_only_for_m_ge_one_witness :
    (¬ (1 - (2 : ℝ) * ((1 : Nat) : ℝ) / ((1 : Nat) : ℝ) > 0) → 1 ≤ (2 : ℝ)) ∧
    ((2 : ℝ) < 1 → (m_fsc 1 2).getD 1 0 =
      ((1 : Nat) : ℝ) *
        (1 - (1 - (2 : ℝ) * ((1 : Nat) : ℝ) / ((1 : Nat) : ℝ)) ^
          ((1 : ℝ) / ((1 : Nat) : ℝ)))) :=
  fallback_only_for_m_ge_one 1 1 2 (by decide) (by decide)

/-- C20. Coalescence compensation, over the real numbers: for `N >= 1`, `1 <= A <= N` and
`m >= 0` with `m*A < N`, the tabulated probability satisfies `0 <= p_fsc[A] < 1` and
`1 - (1 - p_fsc[A])^A = m*A/N`. -/
theorem coalescence_compensation (N A : Nat) (m : ℝ) (hN : 1 ≤ N) (hA1 : 1 ≤ A)
    (hA : A ≤ N) (hm : 0 ≤ m) (hmA : m * (A : ℝ) < (N : ℝ)) :
    0 ≤ (p_fsc N m).getD A 0 ∧ (p_fsc N m).getD A 0 < 1 ∧
    1 - (1 - (p_fsc N m).getD A 0) ^ A = m * (A : ℝ) / (N : ℝ) := by
  have hN0 : (0 : ℝ) < (N : ℝ) := by exact_mod_cast hN
  have hA0 : (0 : ℝ) < (A : ℝ) := by exact_mod_cast hA1
  have hx1 : m * (A : ℝ) / (N : ℝ) < 1 := by
    rw [div_lt_one hN0]
    exact hmA
  have hx0 : 0 ≤ m * (A : ℝ) / (N : ℝ) := div_nonneg (mul_nonneg hm hA0.le) hN0.le
  have hpos : 1 - m * (A : ℝ) / (N : ℝ) > 0 := by linarith
  have hle : 1 - m * (A : ℝ) / (N : ℝ) ≤ 1 := by linarith
  have hp : (p_fsc N m).getD A 0 =
      1 - (1 - m * (A : ℝ) / (N : ℝ)) ^ ((A : ℝ)⁻¹) := by
    rw [(p_fsc_getD N m A hA).2, (m_fsc_getD N m A hA).2, m_fsc_entry, if_pos hpos, one_div,
      mul_div_cancel_left₀ _ (ne_of_gt hN0)]
  have hr0 : 0 < (1 - m * (A : ℝ) / (N : ℝ)) ^ ((A : ℝ)⁻¹) := Real.rpow_pos_of_pos hpos _
  have hr1 : (1 - m * (A : ℝ) / (N : ℝ)) ^ ((A : ℝ)⁻¹) ≤ 1 :=
    Real.rpow_le_one hpos.le hle (inv_nonneg.2 hA0.le)
  rw [hp]
  refine ⟨by linarith, by linarith, ?_⟩
  rw [sub_sub_cancel, Real.rpow_inv_natCast_pow hpos.le (by omega)]
  ring

theorem coalescence_compensation_witness :
    0 ≤ (p_fsc 2 (1/2)).getD 1 0 ∧ (p_fsc 2 (1/2)).getD 1 0 < 1 ∧
    1 - (1 - (p_fsc 2 (1/2)).getD 1 0) ^ 1 = (1/2 : ℝ) * ((1 : Nat) : ℝ) / ((2 : Nat) : ℝ) :=
  coalescence_compensation 2 1 (1/2) (by decide) (by decide) (by decide) (by norm_num)
    (by norm_num)

/-! ## Startup validation -/

theorem applyFlags_count {α : Type} : ∀ (flags : List (String × (String → α → α)))
    (arg : String) (next : Option String) (a : α) (n : Nat) (a1 : α) (n1 : Nat),
    applyFlags flags arg next (a, n) = some (a1, n1) →
    n1 = n + (flags.map (fun f => f.1)).count arg := by
  intro flags
  induction flags with
  | nil =>
    intro arg next a n a1 n1 h
    simp only [applyFlags, Option.some.injEq, Prod.mk.injEq] at h
    simp [h.2]
  | cons f flags ih =>
    intro arg next a n a1 n1 h
    obtain ⟨flag, assign⟩ := f
    by_cases hf : arg = flag
    · simp only [applyFlags, if_pos hf] at h
      cases next with
      | none => cases h
      | some v =>
        have h1 := ih arg (some v) _ _ _ _ h
        rw [h1, List.map_cons, List.count_cons]
        simp [hf]
        omega
    · simp only [applyFlags, if_neg hf] at h
      have h1 := ih arg next _ _ _ _ h
      rw [h1, List.map_cons, List.count_cons]
      have hne : ¬ (flag = arg) := fun hc => hf hc.symm
      simp [hne]

theorem parseArgs_count {α : Type} (flags : List (String × (String → α → α))) :
    ∀ (argv : List String) (a : α) (n : Nat) (a1 : α) (n1 : Nat),
      parseArgs flags argv (a, n) = some (a1, n1) →
      n1 = n + (argv.map (fun arg => (flags.map (fun f => f.1)).count arg)).sum := by
  intro argv
  induction argv with
  | nil =>
    intro a n a1 n1 h
    simp only [parseArgs, Option.some.injEq, Prod.mk.injEq] at h
    simp [h.2]
  | cons arg rest ih =>
    intro a n a1 n1 h
    rw [parseArgs] at h
    cases hstep : applyFlags flags arg rest.head? (a, n) with
    | none =>
      rw [hstep] at h
      cases h
    | some st =>
      obtain ⟨a2, n2⟩ := st
      rw [hstep] at h
      have h1 := applyFlags_count flags arg _ a n a2 n2 hstep
      have h2 := ih a2 n2 a1 n1 h
      rw [h2, h1, List.map_cons, List.sum_cons]
      omega

theorem sum_indicator (names : List String) (x : String) :
    (names.map (fun f => if x = f then 1 else 0)).sum = names.count x := by
  induction names with
  | nil => rfl
  | cons f names ih =>
    rw [List.map_cons, List.sum_cons, ih, List.count_cons]
    by_cases h : x = f
    · subst h
      simp
      omega
    · have hne : ¬ (f = x) := fun hc => h hc.symm
      simp [h, hne]

theorem sum_count_swap (names : List String) : ∀ (argv : List String),
    (argv.map (fun arg => names.count arg)).sum = (names.map (fun f => argv.count f)).sum := by
  intro argv
  induction argv with
  | nil => simp
  | cons x xs ih =>
    have e : (fun f : String => List.count f (x :: xs)) =
        fun f => List.count f xs + (if x = f then 1 else 0) := by
      funext f
      rw [List.count_cons]
      by_cases h : x = f <;> simp [h]
    rw [List.map_cons, List.sum_cons, ih, e, List.sum_map_add, sum_indicator]
    omega

theorem applyFlags_eq_none {α : Type} : ∀ (flags : List (String × (String → α → α)))
    (arg : String) (next : Option String) (st : α × Nat),
    applyFlags flags arg next st = none ↔ next = none ∧ arg ∈ flags.map (fun f => f.1) := by
  intro flags
  induction flags with
  | nil =>
    intro arg next st
    simp [applyFlags]
  | cons f flags ih =>
    intro arg next st
    obtain ⟨flag, assign⟩ := f
    obtain ⟨a, n⟩ := st
    by_cases hf : arg = flag
    · cases next with
      | none => simp [applyFlags, hf]
      | some v =>
        simp only [applyFlags, if_pos hf]
        rw [ih]
        simp
    · simp only [applyFlags, if_neg hf]
      rw [ih, List.map_cons, List.mem_cons]
      simp [hf]

theorem parseArgs_eq_none {α : Type} (flags : List (String × (String → α → α))) :
    ∀ (argv : List String) (st : α × Nat),
      parseArgs flags argv st = none ↔
        ∃ f ∈ flags.map (fun f => f.1), argv.getLast? = some f := by
  intro argv
  induction argv with
  | nil =>
    intro st
    simp [parseArgs]
  | cons arg rest ih =>
    intro st
    rw [parseArgs]
    cases hstep : applyFlags flags arg rest.head? st with
    | none =>
      have h := (applyFlags_eq_none flags arg rest.head? st).1 hstep
      have hrest : rest = [] := by
        cases rest with
        | nil => rfl
        | cons b bs => simp at h
      subst hrest
      simp only [true_iff]
      exact ⟨arg, h.2, rfl⟩
    | some st1 =>
      dsimp only
      rw [ih st1]
      cases rest with
      | nil =>
        have hn : ¬ (arg ∈ flags.map (fun f => f.1)) := by
          intro hc
          have := (applyFlags_eq_none flags arg none st).2 ⟨rfl, hc⟩
          rw [List.head?_nil] at hstep
          rw [this] at hstep
          cases hstep
        constructor
        · rintro ⟨f, -, hf⟩
          simp at hf
        · rintro ⟨f, hf, hl⟩
          simp only [List.getLast?_singleton, Option.some.injEq] at hl
          exact absurd (hl ▸ hf) hn
      | cons b bs =>
        rw [List.getLast?_cons_cons]

theorem drivenStartup_eq_none (atof : String → ℚ) (argv : List String) :
    drivenStartup atof argv = none ↔
      ∃ f ∈ ["-N", "-T", "-h", "-m", "-s", "-o"], argv.getLast? = some f := by
  have hnames : (drivenFlags atof).map (fun f => f.1) = ["-N", "-T", "-h", "-m", "-s", "-o"] :=
    rfl
  rw [← hnames, ← parseArgs_eq_none (drivenFlags atof) argv (drivenDefaults, 0)]
  unfold drivenStartup
  cases hp : parseArgs (drivenFlags atof) argv (drivenDefaults, 0) with
  | none => simp
  | some st =>
    obtain ⟨a, n⟩ := st
    dsimp only
    by_cases hlt : n < 6 <;> simp [hlt]

theorem stsStartup_eq_none (atof : String → ℚ) (argv : List String) :
    stsStartup atof argv = none ↔
      ∃ f ∈ ["-N", "-m", "-s", "-T", "-A", "-o"], argv.getLast? = some f := by
  have hnames : (stsFlags atof).map (fun f => f.1) = ["-N", "-m", "-s", "-T", "-A", "-o"] :=
    rfl
  rw [← hnames, ← parseArgs_eq_none (stsFlags atof) argv (stsDefaults, 0)]
  unfold stsStartup
  cases hp : parseArgs (stsFlags atof) argv (stsDefaults, 0) with
  | none => simp
  | some st =>
    obtain ⟨a, n⟩ := st
    dsimp only
    by_cases hlt : n < 5 <;> simp [hlt]

theorem drivenStartup_cases (atof : String → ℚ) (argv : List String)
    (r : Startup DrivenArgs) (h : drivenStartup atof argv = some r) :
    (r = .usage ("not enough arguments\n" ++ drivenHelp ++ "\n") 1 ∧
      (["-N", "-T", "-h", "-m", "-s", "-o"].map (fun f => argv.count f)).sum < 6) ∨
    ((∃ a, r = .simulation a) ∧
      6 ≤ (["-N", "-T", "-h", "-m", "-s", "-o"].map (fun f => argv.count f)).sum) := by
  unfold drivenStartup at h
  cases hp : parseArgs (drivenFlags atof) argv (drivenDefaults, 0) with
  | none =>
    rw [hp] at h
    cases h
  | some st =>
    obtain ⟨a, n⟩ := st
    rw [hp] at h
    have hn := parseArgs_count (drivenFlags atof) argv drivenDefaults 0 a n hp
    rw [sum_count_swap, Nat.zero_add] at hn
    have hnames : (drivenFlags atof).map (fun f => f.1) = ["-N", "-T", "-h", "-m", "-s", "-o"] :=
      rfl
    rw [hnames] at hn
    rw [← hn]
    dsimp only at h
    by_cases hlt : n < 6
    · rw [if_pos hlt] at h
      injection h with h
      exact Or.inl ⟨h.symm, hlt⟩
    · rw [if_neg hlt] at h
      injection h with h
      exact Or.inr ⟨⟨a, h.symm⟩, by omega⟩

theorem stsStartup_cases (atof : String → ℚ) (argv : List String)
    (r : Startup STSArgs) (h : stsStartup atof argv = some r) :
    (r = .usage ("not enough arguments\n" ++ stsHelp ++ "\n") 1 ∧
      (["-N", "-m", "-s", "-T", "-A", "-o"].map (fun f => argv.count f)).sum < 5) ∨
    ((∃ a, r = .simulation a) ∧
      5 ≤ (["-N", "-m", "-s", "-T", "-A", "-o"].map (fun f => argv.count f)).sum) := by
  unfold stsStartup at h
  cases hp : parseArgs (stsFlags atof) argv (stsDefaults, 0) with
  | none =>
    rw [hp] at h
    cases h
  | some st =>
    obtain ⟨a, n⟩ := st
    rw [hp] at h
    have hn := parseArgs_count (stsFlags atof) argv stsDefaults 0 a n hp
    rw [sum_count_swap, Nat.zero_add] at hn
    have hnames : (stsFlags atof).map (fun f => f.1) = ["-N", "-m", "-s", "-T", "-A", "-o"] :=
      rfl
    rw [hnames] at hn
    rw [← hn]
    dsimp only at h
    by_cases hlt : n < 5
    · rw [if_pos hlt] at h
      injection h with h
      exact Or.inl ⟨h.symm, hlt⟩
    · rw [if_neg hlt] at h
      injection h with h
      exact Or.inr ⟨⟨a, h.symm⟩, by omega⟩

/-- C11, as stated, fails: the programs count the arguments that are option names, not the
distinct options.  `BNcc_driven -N 7 -N 7 -N 7 -N 7 -N 7 -N 7` goes on to the simulation with
`T`, `h`, `m`, `seed` and the output path at their built-in defaults, and
`BN_STS -m 7 -s 7 -T 7 -A 7 -o out` goes on with `N` at its default 1.  And
`BN_STS -N 7 -m 7 -s 7 -o`, which has neither `-T` nor `-A`, prints no usage text: its last
argument is an option name, whose value is read from the null pointer `argv[argc]`. -/
theorem startup_accepts_missing_options :
    (¬ ∀ (atof : String → ℚ) (argv : List String) (a : DrivenArgs),
        drivenStartup atof argv = some (.simulation a) →
        ∀ f ∈ ["-N", "-T", "-h", "-m", "-s", "-o"], f ∈ argv) ∧
    drivenStartup (fun _ => 7)
        ["BNcc_driven", "-N", "7", "-N", "7", "-N", "7", "-N", "7", "-N", "7", "-N", "7"] =
      some (.simulation { path := "", N := 7, T := 1, h := 1, m := 0, seed := 1000 }) ∧
    stsStartup (fun _ => 7) ["BN_STS", "-m", "7", "-s", "7", "-T", "7", "-A", "7", "-o", "out"] =
      some (.simulation { path := "out", N := 1, m := 7, seed := 7, T := 7, avalanches := 7 }) ∧
    stsStartup (fun _ => 7) ["BN_STS", "-N", "7", "-m", "7", "-s", "7", "-o"] = none ∧
    drivenStartup (fun _ => 7) ["BNcc_driven", "-N", "7", "-T"] = none := by
  refine ⟨?_, by decide!, by decide!, by decide!, by decide!⟩
  intro h
  have h1 := h (fun _ => 7)
    ["BNcc_driven", "-N", "7", "-N", "7", "-N", "7", "-N", "7", "-N", "7", "-N", "7"]
    { path := "", N := 7, T := 1, h := 1, m := 0, seed := 1000 } (by decide!) "-T" (by decide)
  revert h1
  decide

/-- C11, amended. An argument vector whose last argument is an option name makes the program
read the value of that option from the null pointer `argv[argc]`: nothing is defined for it,
and these are the only vectors for which the start of `main` has no result.  For every other
argument vector each program either prints `not enough arguments` with its usage text and
exits with status 1, or goes on to the simulation, and it goes on exactly when the number of
arguments that are option names is at least 6 (`BNcc_driven`) resp. 5 (`BN_STS`).  If moreover
no option name occurs twice (and, for `BN_STS`, `-T` and `-A` are not both present) this
means: it goes on exactly when every required option is present (`BNcc_driven`:
`-N -T -h -m -s -o`; `BN_STS`: `-N -m -s -o` and `-T` or `-A`). -/
theorem startup_counts_option_names (atof : String → ℚ) (argv : List String) :
    ((drivenStartup atof argv = none ↔
        ∃ f ∈ ["-N", "-T", "-h", "-m", "-s", "-o"], argv.getLast? = some f) ∧
     ((∀ f ∈ ["-N", "-T", "-h", "-m", "-s", "-o"], argv.getLast? ≠ some f) →
      ∃ r, drivenStartup atof argv = some r ∧
        (r = .usage ("not enough arguments\n" ++ drivenHelp ++ "\n") 1 ∨
          ∃ a, r = .simulation a) ∧
        ((∃ a, r = .simulation a) ↔
          6 ≤ (["-N", "-T", "-h", "-m", "-s", "-o"].map (fun f => argv.count f)).sum) ∧
        ((∀ f ∈ ["-N", "-T", "-h", "-m", "-s", "-o"], argv.count f ≤ 1) →
          ((∃ a, r = .simulation a) ↔
            ∀ f ∈ ["-N", "-T", "-h", "-m", "-s", "-o"], f ∈ argv)))) ∧
    ((stsStartup atof argv = none ↔
        ∃ f ∈ ["-N", "-m", "-s", "-T", "-A", "-o"], argv.getLast? = some f) ∧
     ((∀ f ∈ ["-N", "-m", "-s", "-T", "-A", "-o"], argv.getLast? ≠ some f) →
      ∃ r, stsStartup atof argv = some r ∧
        (r = .usage ("not enough arguments\n" ++ stsHelp ++ "\n") 1 ∨
          ∃ a, r = .simulation a) ∧
        ((∃ a, r = .simulation a) ↔
          5 ≤ (["-N", "-m", "-s", "-T", "-A", "-o"].map (fun f => argv.count f)).sum) ∧
        ((∀ f ∈ ["-N", "-m", "-s", "-T", "-A", "-o"], argv.count f ≤ 1) →
          ¬ ("-T" ∈ argv ∧ "-A" ∈ argv) →
          ((∃ a, r = .simulation a) ↔
            (∀ f ∈ ["-N", "-m", "-s", "-o"], f ∈ argv) ∧ ("-T" ∈ argv ∨ "-A" ∈ argv))))) := by
  refine ⟨⟨drivenStartup_eq_none atof argv, ?_⟩, ⟨stsStartup_eq_none atof argv, ?_⟩⟩
  · intro hlast
    have hne : drivenStartup atof argv ≠ none := by
      intro hc
      obtain ⟨f, hf, hl⟩ := (drivenStartup_eq_none atof argv).1 hc
      exact hlast f hf hl
    obtain ⟨r, h⟩ := Option.ne_none_iff_exists'.1 hne
    refine ⟨r, h, ?_⟩
    have hc := drivenStartup_cases atof argv r h
    have hiff : (∃ a, r = .simulation a) ↔
        6 ≤ (["-N", "-T", "-h", "-m", "-s", "-o"].map (fun f => argv.count f)).sum := by
      rcases hc with ⟨h1, h2⟩ | ⟨h1, h2⟩
      · constructor
        · rintro ⟨a, ha⟩
          rw [ha] at h1
          cases h1
        · intro h3
          omega
      · exact ⟨fun _ => h2, fun _ => h1⟩
    refine ⟨?_, hiff, ?_⟩
    · rcases hc with ⟨h1, -⟩ | ⟨h1, -⟩
      · exact Or.inl h1
      · exact Or.inr h1
    · intro hone
      rw [hiff]
      simp only [List.forall_mem_cons, List.not_mem_nil, false_imp_iff, implies_true,
        and_true] at hone ⊢
      simp only [List.map_cons, List.map_nil, List.sum_cons, List.sum_nil,
        ← List.one_le_count_iff]
      omega
  · intro hlast
    have hne : stsStartup atof argv ≠ none := by
      intro hc
      obtain ⟨f, hf, hl⟩ := (stsStartup_eq_none atof argv).1 hc
      exact hlast f hf hl
    obtain ⟨r, h⟩ := Option.ne_none_iff_exists'.1 hne
    refine ⟨r, h, ?_⟩
    have hc := stsStartup_cases atof argv r h
    have hiff : (∃ a, r = .simulation a) ↔
        5 ≤ (["-N", "-m", "-s", "-T", "-A", "-o"].map (fun f => argv.count f)).sum := by
      rcases hc with ⟨h1, h2⟩ | ⟨h1, h2⟩
      · constructor
        · rintro ⟨a, ha⟩
          rw [ha] at h1
          cases h1
        · intro h3
          omega
      · exact ⟨fun _ => h2, fun _ => h1⟩
    refine ⟨?_, hiff, ?_⟩
    · rcases hc with ⟨h1, -⟩ | ⟨h1, -⟩
      · exact Or.inl h1
      · exact Or.inr h1
    · intro hone hboth
      rw [hiff]
      simp only [List.forall_mem_cons, List.not_mem_nil, false_imp_iff, implies_true,
        and_true] at hone ⊢
      simp only [← List.one_le_count_iff] at hboth ⊢
      simp only [List.map_cons, List.map_nil, List.sum_cons, List.sum_nil]
      omega

theorem startup_counts_option_names_witness :
    (∀ f ∈ ["-N", "-T", "-h", "-m", "-s", "-o"],
      ["BNcc_driven", "-N", "7", "-T", "7", "-h", "7", "-m", "7", "-s", "7", "-o",
        "out"].getLast? ≠ some f) ∧
    drivenStartup (fun _ => 7)
        ["BNcc_driven", "-N", "7", "-T", "7", "-h", "7", "-m", "7", "-s", "7", "-o", "out"] =
      some (.simulation { path := "out", N := 7, T := 7, h := 7, m := 7, seed := 7 }) ∧
    (∀ f ∈ ["-N", "-T", "-h", "-m", "-s", "-o"],
      ["BNcc_driven", "-N", "7", "-T", "7", "-h", "7", "-m", "7", "-s", "7", "-o",
        "out"].count f ≤ 1) ∧
    ∃ r, drivenStartup (fun _ => 7)
        ["BNcc_driven", "-N", "7", "-T", "7", "-h", "7", "-m", "7", "-s", "7", "-o", "out"] =
        some r ∧
      (r = .usage ("not enough arguments\n" ++ drivenHelp ++ "\n") 1 ∨
        ∃ a, r = .simulation a) ∧
      ((∃ a, r = .simulation a) ↔
        6 ≤ (["-N", "-T", "-h", "-m", "-s", "-o"].map (fun f =>
          ["BNcc_driven", "-N", "7", "-T", "7", "-h", "7", "-m", "7", "-s", "7", "-o",
            "out"].count f)).sum) ∧
      ((∀ f ∈ ["-N", "-T", "-h", "-m", "-s", "-o"],
          ["BNcc_driven", "-N", "7", "-T", "7", "-h", "7", "-m", "7", "-s", "7", "-o",
            "out"].count f ≤ 1) →
        ((∃ a, r = .simulation a) ↔
          ∀ f ∈ ["-N", "-T", "-h", "-m", "-s", "-o"],
            f ∈ ["BNcc_driven", "-N", "7", "-T", "7", "-h", "7", "-m", "7", "-s", "7", "-o",
              "out"])) :=
  ⟨by decide, by decide!, by decide,
   (startup_counts_option_names (fun _ => 7)
      ["BNcc_driven", "-N", "7", "-T", "7", "-h", "7", "-m", "7", "-s", "7", "-o", "out"]).1.2
      (by decide)⟩

/-! ## The text of an avalanche record -/

theorem targetIndex_zero_one : targetIndex 0 1 = 0 := by
  have := targetIndex_lt 0 1 (Nat.le_refl 1) (le_refl 0) (by norm_num)
  omega

/-- A single active unit of a population of one that draws out-degree 1 and itself as target
stays active: the step writes nothing and does not stop a run for one avalanche. -/
theorem stsStep_sustained (T : ℚ) (s : STSState) (us : List ℚ) (bs : List Nat)
    (h1 : s.neuron = [1]) (h2 : s.stimulus_int = [0]) (h3 : s.num_active = 1)
    (h4 : s.num_avalanches = 0) (h5 : s.rng = ⟨0 :: us, 1 :: bs⟩) :
    stsStep ⟨1, T⟩ s =
      .ok ({ s with num_active_int := 1, time := (s.time + 1) % 2 ^ 32,
                    avalanche_time := s.avalanche_time + 1,
                    avalanche_size := s.avalanche_size + 1, rng := ⟨us, bs⟩ }, false) := by
  obtain ⟨neuron, stim, na, nai, time, nav, atime, asize, rng, out⟩ := s
  simp only at h1 h2 h3 h4 h5
  subst h1 h2 h3 h4 h5
  cases us <;>
  simp [stsStep, stsUpdate, propagateSTS, sampleLoop, targetIndex_zero_one, integrateSTS,
    stsEmit, STSConfig.flag_avalanches]

/-- A single active unit that draws out-degree 0 ends its avalanche: the step streams the pair
`(avalanche_time, avalanche_size)` of the state before it and stops a run for one avalanche. -/
theorem stsStep_last (T : ℚ) (s : STSState) (h1 : s.neuron = [1]) (h2 : s.stimulus_int = [0])
    (h3 : s.num_active = 1) (h4 : s.num_avalanches = 0) (h5 : s.rng = ⟨[], [0]⟩)
    (h6 : 0 < s.avalanche_size) :
    ∃ s1, stsStep ⟨1, T⟩ s = .ok (s1, true) ∧
      s1.out = s.out ++ [(s.avalanche_time, s.avalanche_size)] := by
  obtain ⟨neuron, stim, na, nai, time, nav, atime, asize, rng, out⟩ := s
  simp only at h1 h2 h3 h4 h5 h6
  subst h1 h2 h3 h4 h5
  have hstep : stsStep ⟨1, T⟩
      { neuron := [1], stimulus_int := [0], num_active := 1, num_active_int := nai,
        time := time, num_avalanches := 0, avalanche_time := atime, avalanche_size := asize,
        rng := ⟨[], [0]⟩, out := out } =
      .ok ({ neuron := [0], stimulus_int := [0], num_active := 0, num_active_int := 0,
             time := (time + 1) % 2 ^ 32, num_avalanches := 1, avalanche_time := atime + 1,
             avalanche_size := asize, rng := ⟨[], []⟩,
             out := out ++ [(atime, asize)] }, true) := by
    simp [stsStep, stsUpdate, propagateSTS, sampleLoop, integrateSTS,
      stsEmit, STSConfig.flag_avalanches, h6]
  exact ⟨_, hstep, rfl⟩

/-- A run for one avalanche from a state with the single unit active and the draws of
`sustainedRng` left: it stops after `L + 1` more iterations and the last pair streamed is
`(avalanche_time + L, avalanche_size + L)`. -/
theorem sustained_from (T : ℚ) : ∀ (L : Nat) (s : STSState) (fuel : Nat),
    s.neuron = [1] → s.stimulus_int = [0] → s.num_active = 1 → s.num_avalanches = 0 →
    s.rng = ⟨List.replicate L 0, List.replicate L 1 ++ [0]⟩ → 0 < s.avalanche_size →
    L + 1 ≤ fuel →
    (stsRun ⟨1, T⟩ fuel s).2 = .stopped ∧
    (stsRun ⟨1, T⟩ fuel s).1.length = L + 1 ∧
    (stsRun ⟨1, T⟩ fuel s).1.getLast?.map (fun p => p.2.out) =
      some (s.out ++ [(s.avalanche_time + L, s.avalanche_size + L)]) := by
  intro L
  induction L with
  | zero =>
    intro s fuel h1 h2 h3 h4 h5 h6 hf
    obtain ⟨f, rfl⟩ : ∃ f, fuel = f + 1 := ⟨fuel - 1, by omega⟩
    obtain ⟨s1, hstep, hout⟩ := stsStep_last T s h1 h2 h3 h4 (by simpa using h5) h6
    have hrun : stsRun ⟨1, T⟩ (f + 1) s = ([(s, s1)], .stopped) := by
      simp [stsRun, hstep]
    rw [hrun]
    simp [hout]
  | succ L ih =>
    intro s fuel h1 h2 h3 h4 h5 h6 hf
    obtain ⟨f, rfl⟩ : ∃ f, fuel = f + 1 := ⟨fuel - 1, by omega⟩
    have hstep := stsStep_sustained T s (List.replicate L 0) (List.replicate L 1 ++ [0])
      h1 h2 h3 h4 (by rw [h5]; simp [List.replicate_succ])
    have hrun : ∀ s1, stsStep ⟨1, T⟩ s = .ok (s1, false) → stsRun ⟨1, T⟩ (f + 1) s =
        ((s, s1) :: (stsRun ⟨1, T⟩ f s1).1, (stsRun ⟨1, T⟩ f s1).2) := by
      intro s1 h
      simp [stsRun, h]
    have hrun := hrun _ hstep
    obtain ⟨i1, i2, i3⟩ := ih
      { s with num_active_int := 1, time := (s.time + 1) % 2 ^ 32,
               avalanche_time := s.avalanche_time + 1,
               avalanche_size := s.avalanche_size + 1,
               rng := ⟨List.replicate L 0, List.replicate L 1 ++ [0]⟩ } f h1 h2 h3 h4 rfl
      (Nat.succ_pos _) (by omega)
    rw [hrun]
    refine ⟨i1, by rw [List.length_cons, i2], ?_⟩
    dsimp only at i3 ⊢
    rcases hl : (stsRun ⟨1, T⟩ f
      { s with num_active_int := 1, time := (s.time + 1) % 2 ^ 32,
               avalanche_time := s.avalanche_time + 1,
               avalanche_size := s.avalanche_size + 1,
               rng := ⟨List.replicate L 0, List.replicate L 1 ++ [0]⟩ }).1.getLast? with _ | p
    · rw [hl] at i3
      simp at i3
    · rw [hl] at i3
      rw [List.getLast?_cons, hl]
      simp only [Option.getD_some, Option.map_some', Option.some.injEq] at i3 ⊢
      rw [i3]
      congr 2
      simp only [Prod.mk.injEq]
      omega

/-- The run of `BN_STS -N 1 -A 1` on the draws `sustainedRng L`: the seeding step, `L` steps
in which the unit stimulates itself, and the step that ends the avalanche; the one pair
streamed is `(L + 1, L + 1)`. -/
theorem sustained_run (L fuel : Nat) (hf : L + 2 ≤ fuel) :
    (stsRun ⟨1, 0⟩ fuel (stsInit 1 (sustainedRng L))).2 = .stopped ∧
    (stsRun ⟨1, 0⟩ fuel (stsInit 1 (sustainedRng L))).1.length = L + 2 ∧
    finalOut STSState.out (stsRun ⟨1, 0⟩ fuel (stsInit 1 (sustainedRng L))).1 =
      [(L + 1, L + 1)] := by
  obtain ⟨f, rfl⟩ : ∃ f, fuel = f + 1 := ⟨fuel - 1, by omega⟩
  have hstep : stsStep ⟨1, 0⟩ (stsInit 1 (sustainedRng L)) =
      .ok ({ neuron := [1], stimulus_int := [0], num_active := 1, num_active_int := 0,
             time := 1, num_avalanches := 0, avalanche_time := 1, avalanche_size := 1,
             rng := ⟨List.replicate L 0, List.replicate L 1 ++ [0]⟩, out := [] }, false) := by
    simp [stsStep, stsUpdate, stsInit, sustainedRng, List.replicate_succ, targetIndex_zero_one,
      stsEmit, STSConfig.flag_avalanches]
  have hrun : ∀ s1, stsStep ⟨1, 0⟩ (stsInit 1 (sustainedRng L)) = .ok (s1, false) →
      stsRun ⟨1, 0⟩ (f + 1) (stsInit 1 (sustainedRng L)) =
        ((stsInit 1 (sustainedRng L), s1) :: (stsRun ⟨1, 0⟩ f s1).1,
          (stsRun ⟨1, 0⟩ f s1).2) := by
    intro s1 h
    simp [stsRun, h]
  have hrun := hrun _ hstep
  obtain ⟨i1, i2, i3⟩ := sustained_from 0 L
    { neuron := [1], stimulus_int := [0], num_active := 1, num_active_int := 0,
      time := 1, num_avalanches := 0, avalanche_time := 1, avalanche_size := 1,
      rng := ⟨List.replicate L 0, List.replicate L 1 ++ [0]⟩, out := [] } f
    rfl rfl rfl rfl rfl Nat.one_pos (by omega)
  rw [hrun]
  refine ⟨i1, by rw [List.length_cons, i2], ?_⟩
  dsimp only at i3 ⊢
  unfold finalOut
  rcases hl : (stsRun ⟨1, 0⟩ f
    { neuron := [1], stimulus_int := [0], num_active := 1, num_active_int := 0,
      time := 1, num_avalanches := 0, avalanche_time := 1, avalanche_size := 1,
      rng := ⟨List.replicate L 0, List.replicate L 1 ++ [0]⟩, out := [] }).1.getLast?
    with _ | p
  · rw [hl] at i3
    simp at i3
  · rw [hl] at i3
    rw [List.getLast?_cons, hl]
    simp only [Option.getD_some, Option.map_some', Option.some.injEq, List.nil_append] at i3 ⊢
    rw [i3, Nat.add_comm 1 L]

/-- C3, at an input where the program departs from it. `BN_STS -N 1 -A 1` on draws that keep
the single unit active for 1234566 steps after its seeding: the run stops after the 1234568
steps of its one avalanche, the sum of `num_active` over them is 1234567 and their number
minus one is 1234567, and these are the values streamed; but the record that reaches the file
is `1.23457e+06 1.23457e+06`, six significant digits of each, not `1234567 1234567`. -/
theorem long_avalanche_record_loses_digits :
    (stsRun ⟨1, 0⟩ 1234568 (stsInit 1 (sustainedRng 1234566))).2 = .stopped ∧
    (stsRun ⟨1, 0⟩ 1234568 (stsInit 1 (sustainedRng 1234566))).1.length = 1234568 ∧
    avalancheRecordsSpec
      ((stsRun ⟨1, 0⟩ 1234568 (stsInit 1 (sustainedRng 1234566))).1.map
        (fun p => (p.1.num_active, p.2.num_active))) [] = [(1234567, 1234567)] ∧
    finalOut STSState.out (stsRun ⟨1, 0⟩ 1234568 (stsInit 1 (sustainedRng 1234566))).1 =
      [(1234567, 1234567)] ∧
    stsAvalancheText 1 1234568 1 (sustainedRng 1234566) =
      "# size avalanche\n1.23457e+06 1.23457e+06\n" ∧
    dataLines (stsAvalancheText 1 1234568 1 (sustainedRng 1234566)) ≠ ["1234567 1234567"] := by
  obtain ⟨h1, h2, h3⟩ := sustained_run 1234566 1234568 (Nat.le_refl _)
  have h4 := avalanche_values_match_spec 1 1 1234568 0 (sustainedRng 1234566) (Nat.le_refl 1)
  have h5 : stsAvalancheText 1 1234568 1 (sustainedRng 1234566) =
      "# size avalanche\n1.23457e+06 1.23457e+06\n" := by
    unfold stsAvalancheText
    rw [h3]
    decide!
  refine ⟨h1, h2, ?_, h3, h5, ?_⟩
  · rw [← h4, h3]
  · rw [h5]
    decide!

end BN
